import Mathlib

/-!
# Email dispatch and tracking pipeline

A shallow embedding of `src/services/emailService.js`: the template rendering
of `sendEmail` and `sendBulkEmails`, the tracking injection
`addTrackingToEmail`, the handler of the `send-email` queue with the
queue's retry policy, the submission paths (`sendEmail` and `sendBulkEmails`
of `src/controllers/emailController.js` and of the service, with the error
handler of `src/utils/errorHandler.js`), the tracking endpoints
(`handleOpen`, `handleClick` and the open route of `src/routes/emailRoutes.js`),
calls of `handleOpen` that run at the same time, and the statistics and the
queue status (`getEmailStats`, `getQueueStatus`).

JavaScript strings are modelled as lists of characters (`Str`); one `Char`
stands for one character of the text (for the `.` of a pattern the embedding is
exact on the Basic Multilingual Plane, where a character is one UTF-16 code
unit). Regular expressions are modelled by
their backtracking matchers, written in continuation-passing style: the
alternatives are tried in the order of the ECMAScript matcher, and the first
success is the match.
-/

namespace EmailSystem

/-- JavaScript string, as the list of its characters. -/
abbrev Str := List Char

/-! ## ECMAScript primitives used by the service -/

/-- The ECMAScript `\s` class: WhiteSpace and LineTerminator code points. -/
def isJsSpace (c : Char) : Bool :=
  let n := c.toNat
  n == 9 || n == 10 || n == 11 || n == 12 || n == 13 || n == 32 || n == 160 ||
  n == 5760 || (8192 ≤ n && n ≤ 8202) || n == 8232 || n == 8233 || n == 8239 ||
  n == 8287 || n == 12288 || n == 65279

/-- ECMAScript LineTerminator: the characters `.` does not match. -/
def isLineTerminator (c : Char) : Bool :=
  let n := c.toNat
  n == 10 || n == 13 || n == 8232 || n == 8233

/-- The values a `templateData` entry can hold. Of the numbers the integers are
covered (below `10^21`, where JavaScript prints them in decimal); arrays and
objects are left out. -/
inductive JsValue where
  | null
  | undefined
  | bool (b : Bool)
  | num (n : Int)
  | str (s : Str)
  deriving DecidableEq, Repr

/-- ECMAScript ToBoolean. -/
def JsValue.truthy : JsValue → Bool
  | .null => false
  | .undefined => false
  | .bool b => b
  | .num n => n != 0
  | .str s => !s.isEmpty

/-- ECMAScript ToString (integers print in decimal). -/
def JsValue.toStr : JsValue → Str
  | .null => "null".toList
  | .undefined => "undefined".toList
  | .bool true => "true".toList
  | .bool false => "false".toList
  | .num n => (toString n).toList
  | .str s => s

/-- The expression `value || ""` followed by the ToString that
`String.prototype.replace` applies to a replacement that is not a function. -/
def replacementOf (value : JsValue) : Str :=
  if value.truthy then value.toStr else []

/-- ECMAScript GetSubstitution for a match without capture groups: `$$` is a
dollar sign, `$&` the matched text, `$` followed by a grave accent the text
before the match, `$` followed by an apostrophe the text after it; every other
character, a lone `$` included, stands for itself. -/
def getSubstitution (matched before after : Str) : Str → Str
  | [] => []
  | [c] => [c]
  | c :: d :: r =>
    if c = '$' then
      if d = '$' then '$' :: getSubstitution matched before after r
      else if d = '&' then matched ++ getSubstitution matched before after r
      else if d = Char.ofNat 96 then before ++ getSubstitution matched before after r
      else if d = Char.ofNat 39 then after ++ getSubstitution matched before after r
      else c :: getSubstitution matched before after (d :: r)
    else c :: getSubstitution matched before after (d :: r)

/-! ## Regular expression `{{\s*KEY\s*}}` -/

/-- One pattern character of the interpolated key: an ordinary character, or
`.` which matches any character but a line terminator. -/
inductive Atom where
  | lit (c : Char)
  | any
  deriving DecidableEq, Repr

/-- Whether the atom matches the character. -/
def Atom.accepts : Atom → Char → Bool
  | .lit c, d => c == d
  | .any, d => !isLineTerminator d

/-- Characters with a meaning of their own in a regular expression source. -/
def isRegexSyntax (c : Char) : Bool :=
  "\\^$.*+?()[]\x7b\x7d|".toList.contains c

/-- The key as `new RegExp` reads it when it is spliced into the pattern
unescaped. Covered: ordinary characters and `.`; a key holding another syntax
character is outside the embedding (`none`). -/
def compileKey : Str → Option (List Atom)
  | [] => some []
  | c :: r =>
    if c = '.' then (compileKey r).map (Atom.any :: ·)
    else if isRegexSyntax c then none
    else (compileKey r).map (Atom.lit c :: ·)

/-- Match the literal text `p` at the head of `s`; the rest of `s` on success. -/
def matchLit : Str → Str → Option Str
  | [], s => some s
  | _ :: _, [] => none
  | p :: ps, c :: s => if p = c then matchLit ps s else none

/-- Match the atoms in sequence at the head of `s`. -/
def matchAtoms : List Atom → Str → Option Str
  | [], s => some s
  | _ :: _, [] => none
  | a :: as, c :: s => if a.accepts c then matchAtoms as s else none

/-- Greedy `\s*` followed by the continuation `k`: the longest run of spaces is
tried first, then shorter ones (backtracking). -/
def spacesStar {α : Type} (k : Str → Option α) : Str → Option α
  | [] => k []
  | c :: s =>
    if isJsSpace c then
      match spacesStar k s with
      | some r => some r
      | none => k (c :: s)
    else k (c :: s)

/-- The pattern `{{\s*KEY\s*}}` at the head of `s`: the text after the match. -/
def matchPlaceholder (key : List Atom) (s : Str) : Option Str :=
  (matchLit "\x7b\x7b".toList s).bind
    (spacesStar fun s1 =>
      (matchAtoms key s1).bind (spacesStar fun s2 => matchLit "\x7d\x7d".toList s2))

/-- Global replace, `str.replace(regex, repl)` with the `g` flag, from the
position reached: `before` holds, reversed, the text already passed. After a
match the scan goes on behind it. `fuel` bounds the number of steps. -/
def replaceFrom (key : List Atom) (repl : Str) : Nat → Str → Str → Str
  | 0, _, s => s
  | _ + 1, _, [] => []
  | fuel + 1, before, c :: s =>
    match matchPlaceholder key (c :: s) with
    | some rest =>
      let matched := (c :: s).take ((c :: s).length - rest.length)
      getSubstitution matched before.reverse rest repl ++
        replaceFrom key repl fuel (matched.reverse ++ before) rest
    | none => c :: replaceFrom key repl fuel (c :: before) s

/-- The call `str.replace(new RegExp(..., "g"), repl)`. -/
def replaceAll (key : List Atom) (repl : Str) (s : Str) : Str :=
  replaceFrom key repl (s.length + 1) [] s

/-- The three texts of a template, `let { html, text, subject } = template`,
for a template whose `text` column is set (on a null `text` the call
`text.replace` throws). -/
structure Rendered where
  subject : Str
  html : Str
  text : Str
  deriving DecidableEq, Repr

/-- One round of the `forEach` over `Object.entries(templateData)`. -/
def renderEntry (acc : Option Rendered) (entry : Str × JsValue) : Option Rendered :=
  match acc, compileKey entry.1 with
  | some t, some key =>
    some { html := replaceAll key (replacementOf entry.2) t.html
           text := replaceAll key (replacementOf entry.2) t.text
           subject := replaceAll key (replacementOf entry.2) t.subject }
  | _, _ => none

/-- The rendering of `sendEmail` and `sendBulkEmails`: `templateData` is the
list `Object.entries` yields; the entries are applied in order, each to the
texts the earlier ones left. -/
def render (t : Rendered) (templateData : List (Str × JsValue)) : Option Rendered :=
  templateData.foldl renderEntry (some t)

/-! ## Tracking injection (`addTrackingToEmail`) -/

/-- The part of `emailConfig` the service reads. -/
structure Config where
  serverUrl : Str
  trackClicks : Bool
  fromDefault : Str
  replyToDefault : Str
  deriving DecidableEq, Repr

/-- `str.includes(pat)`. -/
def includes (pat : Str) : Str → Bool
  | [] => (matchLit pat []).isSome
  | c :: s => (matchLit pat (c :: s)).isSome || includes pat s

/-- `str.replace(pat, repl)` with a string pattern: the first occurrence only,
the replacement expanded by GetSubstitution. `before` holds, reversed, the text
already passed. -/
def replaceFirst (pat repl : Str) : Str → Str → Str
  | before, [] =>
    match matchLit pat [] with
    | some rest => getSubstitution pat before.reverse rest repl ++ rest
    | none => []
  | before, c :: s =>
    match matchLit pat (c :: s) with
    | some rest => getSubstitution pat before.reverse rest repl ++ rest
    | none => c :: replaceFirst pat repl (c :: before) s

/-- The closing body marker. -/
def bodyClose : Str := "</body>".toList

/-- The tracking image tag of `addTrackingToEmail`. -/
def trackingPixel (cfg : Config) (trackingId : Str) : Str :=
  "<img src=\"".toList ++ cfg.serverUrl ++ "/api/email/tracking/open/".toList ++ trackingId ++
    "\" width=\"1\" height=\"1\" alt=\"\" style=\"display:none;\">".toList

/-- Character comparison under the `i` flag, for a pattern character `p` that
is ASCII: the same character, or the same ASCII letter in the other case. -/
def ciEq (p c : Char) : Bool :=
  p == c || (97 ≤ p.toNat && p.toNat ≤ 122 && c.toNat + 32 == p.toNat) ||
    (65 ≤ p.toNat && p.toNat ≤ 90 && c.toNat == p.toNat + 32)

/-- Match the literal text `p` at the head of `s`, ignoring case. -/
def matchLitCI : Str → Str → Option Str
  | [], s => some s
  | _ :: _, [] => none
  | p :: ps, c :: s => if ciEq p c then matchLitCI ps s else none

/-- The class `["']`. -/
def isQuote (c : Char) : Bool := c.toNat == 34 || c.toNat == 39

/-- Greedy `\s+` followed by `k`. -/
def spacesPlus {α : Type} (k : Str → Option α) : Str → Option α
  | [] => none
  | c :: s => if isJsSpace c then spacesStar k s else none

/-- Lazy `[^>]*?` followed by `k`: the shortest run is tried first. -/
def lazyNotGt {α : Type} (k : Str → Option α) : Str → Option α
  | [] => k []
  | c :: s =>
    match k (c :: s) with
    | some r => some r
    | none => if c = '>' then none else lazyNotGt k s

/-- Greedy `[^"']*` followed by the back-reference `\1` (the quote `q`): the
characters consumed and the text after the closing quote. -/
def urlChars (q : Char) : Str → Option (Str × Str)
  | [] => none
  | c :: s =>
    if isQuote c then (if c = q then some ([], s) else none)
    else
      match urlChars q s with
      | some (u, rest) => some (c :: u, rest)
      | none => if c = q then some ([], s) else none

/-- The part `href=(["'])(http[^"']+)\1`: quote, URL and text after the match. -/
def matchHref (s : Str) : Option (Char × Str × Str) :=
  match matchLitCI "href=".toList s with
  | none => none
  | some [] => none
  | some (q :: s2) =>
    if isQuote q then
      match matchLitCI "http".toList s2 with
      | none => none
      | some [] => none
      | some (c :: s4) =>
        if isQuote c then none
        else
          match urlChars q s4 with
          | some (u, rest) => some (q, s2.take 4 ++ c :: u, rest)
          | none => none
    else none

/-- The part `(?:[^>]*?\s+)?href=(["'])(http[^"']+)\1`: the optional group is
tried first, then skipped. -/
def matchGroupHref (s : Str) : Option (Char × Str × Str) :=
  match lazyNotGt (spacesPlus matchHref) s with
  | some r => some r
  | none => matchHref s

/-- The pattern `<a\s+(?:[^>]*?\s+)?href=(["'])(http[^"']+)\1` with the `i`
flag at the head of `s`: quote, URL and the text after the match. -/
def matchAnchor (s : Str) : Option (Char × Str × Str) :=
  match matchLitCI "<a".toList s with
  | none => none
  | some s1 => spacesPlus matchGroupHref s1

/-- The characters `encodeURIComponent` leaves as they are. -/
def isUriUnreserved (c : Char) : Bool :=
  let n := c.toNat
  (48 ≤ n && n ≤ 57) || (65 ≤ n && n ≤ 90) || (97 ≤ n && n ≤ 122) ||
  "-_.!~*\x27()".toList.contains c

/-- Upper-case hexadecimal digit. -/
def hexDigit (n : Nat) : Char :=
  if n < 10 then Char.ofNat (48 + n) else Char.ofNat (55 + n)

/-- The UTF-8 bytes of a code point. -/
def utf8Bytes (n : Nat) : List Nat :=
  if n < 128 then [n]
  else if n < 2048 then [192 + n / 64, 128 + n % 64]
  else if n < 65536 then [224 + n / 4096, 128 + n / 64 % 64, 128 + n % 64]
  else [240 + n / 262144, 128 + n / 4096 % 64, 128 + n / 64 % 64, 128 + n % 64]

/-- The function `encodeURIComponent`. -/
def encodeURIComponent (s : Str) : Str :=
  s.flatMap fun c =>
    if isUriUnreserved c then [c]
    else (utf8Bytes c.toNat).flatMap fun b => ['%', hexDigit (b / 16), hexDigit (b % 16)]

/-- The replacer callback of the click-tracking rewrite. -/
def trackedAnchor (cfg : Config) (trackingId : Str) (quote : Char) (url : Str) : Str :=
  "<a href=".toList ++ quote :: cfg.serverUrl ++ "/api/email/tracking/click/".toList ++
    trackingId ++ "?url=".toList ++ encodeURIComponent url ++ [quote]

/-- Global replace of the anchor pattern by the replacer callback. -/
def rewriteFrom (cfg : Config) (trackingId : Str) : Nat → Str → Str
  | 0, s => s
  | _ + 1, [] => []
  | fuel + 1, c :: s =>
    match matchAnchor (c :: s) with
    | some (q, url, rest) => trackedAnchor cfg trackingId q url ++ rewriteFrom cfg trackingId fuel rest
    | none => c :: rewriteFrom cfg trackingId fuel s

/-- The click-tracking rewrite of `addTrackingToEmail`. -/
def rewriteLinks (cfg : Config) (trackingId : Str) (s : Str) : Str :=
  rewriteFrom cfg trackingId (s.length + 1) s

/-- The text after the tracking image was added. -/
def withPixel (cfg : Config) (html trackingId : Str) : Str :=
  if includes bodyClose html then
    replaceFirst bodyClose (trackingPixel cfg trackingId ++ bodyClose) [] html
  else html ++ trackingPixel cfg trackingId

/-- The function `addTrackingToEmail`, for `html` a string. -/
def addTrackingToEmail (cfg : Config) (html trackingId : Str) : Str :=
  if html.isEmpty then html
  else if cfg.trackClicks then rewriteLinks cfg trackingId (withPixel cfg html trackingId)
  else withPixel cfg html trackingId

/-! ## The queue worker (`emailQueue.process("send-email", ...)`) -/

/-- The status column of `EmailLog`. -/
inductive Status where
  | queued | sending | sent | delivered | opened | clicked | failed | bounced
  deriving DecidableEq, Repr

/-- A row of `EmailLog`, with the columns the worker writes. -/
structure EmailLog where
  id : Str
  recipient : Str
  subject : Str
  status : Status
  jobId : Nat
  metadata : List (Str × Str)
  messageId : Option Str
  sentAt : Option Nat
  error : Option Str
  deriving DecidableEq, Repr

/-- The payload `job.data`; a property that is absent is `none`. The queue
takes what `sendEmail` and `sendBulkEmails` hand over, and the bulk path asks
for a recipient only, so `subject` can be absent. -/
structure JobData where
  recipient : Option Str
  subject : Option Str
  text : Option Str
  html : Option Str
  cc : Option Str
  bcc : Option Str
  sender : Option Str
  replyTo : Option Str
  metadata : Option (List (Str × Str))
  deriving DecidableEq, Repr

/-- A queue job: its id and its payload. -/
structure Job where
  id : Nat
  data : JobData
  deriving DecidableEq, Repr

/-- The `mailOptions` object handed to `transporter.sendMail`. -/
structure MailOptions where
  sender : Str
  recipient : Option Str
  cc : Option Str
  bcc : Option Str
  subject : Option Str
  text : Option Str
  html : Option Str
  replyTo : Str
  xTrackingId : Str
  deriving DecidableEq, Repr

/-- The stores the worker writes: the `EmailLog` table, the hash
`email:metrics`, and the mails handed to the transport, oldest first. -/
structure World where
  logs : List EmailLog
  metrics : String → Int
  outbox : List MailOptions

/-- The expression `a || b` for an optional string `a`. -/
def orDefault (a : Option Str) (b : Str) : Str :=
  match a with
  | some x => if x.isEmpty then b else x
  | none => b

/-- The call `redisClient.hincrby("email:metrics", field, n)`. -/
def hincrby (m : String → Int) (field : String) (n : Int) : String → Int :=
  fun f => if f = field then m f + n else m f

/-- The call `emailLog.update(...)` on the row with primary key `id`. -/
def updateLog (logs : List EmailLog) (id : Str) (f : EmailLog → EmailLog) : List EmailLog :=
  logs.map fun e => if e.id = id then f e else e

/-- The call `EmailLog.findByPk(id)`. -/
def findByPk (logs : List EmailLog) (id : Str) : Option EmailLog :=
  logs.find? fun e => e.id = id

/-- The `mailOptions` the handler builds. -/
def mailOptionsFor (cfg : Config) (trackingId : Str) (d : JobData) : MailOptions :=
  { sender := orDefault d.sender cfg.fromDefault
    recipient := d.recipient
    cc := d.cc
    bcc := d.bcc
    subject := d.subject
    text := d.text
    html :=
      match d.html with
      | some h => if h.isEmpty then none else some (addTrackingToEmail cfg h trackingId)
      | none => none
    replyTo := orDefault d.replyTo cfg.replyToDefault
    xTrackingId := trackingId }

/-- One run of the `send-email` handler. `trackingId` is what `uuidv4()`
returned, `now` what `new Date()` returned, and `transport` is
`transporter.sendMail`: the message id, or the message of the error thrown.
`EmailLog.create` runs before the `try`: it throws, and nothing is written or
counted, when `to` or `subject` is absent (the columns are `allowNull: false`)
and on a primary key that exists; the later calls `emailLog.update` and
`hincrby` are taken to succeed. The result is what the handler returns (`ok`)
or throws (`error`). -/
def processJob (cfg : Config) (transport : MailOptions → Except Str Str) (now : Nat)
    (trackingId : Str) (job : Job) (w : World) : World × Except Str Str :=
  match job.data.recipient with
  | none => (w, .error "SequelizeValidationError".toList)
  | some recipient =>
    match job.data.subject with
    | none => (w, .error "SequelizeValidationError".toList)
    | some subject =>
      if (findByPk w.logs trackingId).isSome then
        (w, .error "SequelizeUniqueConstraintError".toList)
      else
        let created : EmailLog :=
          { id := trackingId, recipient := recipient, subject := subject,
            status := Status.sending, jobId := job.id,
            metadata := job.data.metadata.getD [], messageId := none, sentAt := none,
            error := none }
        let logs1 := w.logs ++ [created]
        let mailOptions := mailOptionsFor cfg trackingId job.data
        match transport mailOptions with
        | .ok messageId =>
          ({ logs := updateLog logs1 trackingId fun e =>
                { e with status := Status.sent, messageId := some messageId, sentAt := some now }
             metrics := hincrby w.metrics "sent" 1
             outbox := w.outbox ++ [mailOptions] }, .ok messageId)
        | .error message =>
          ({ logs := updateLog logs1 trackingId fun e =>
                { e with status := Status.failed, error := some message }
             metrics := hincrby w.metrics "failed" 1
             outbox := w.outbox ++ [mailOptions] }, .error message)

/-- The `attempts` of the queue's `defaultJobOptions`. -/
def maxAttempts : Nat := 3

/-- How the queue drives one job under `attempts: n`: the handler runs, and
when it throws while attempts remain the job is put back and, after the
backoff delay, the handler runs again. `attempt` counts the runs so far; run
number `i` gets `transport i`, `uuid i` and `clock i`. The result: the stores,
and how many runs were made. -/
def runAttempts (cfg : Config) (transport : Nat → MailOptions → Except Str Str)
    (clock : Nat → Nat) (uuid : Nat → Str) (job : Job) : Nat → Nat → World → World × Nat
  | 0, attempt, w => (w, attempt)
  | remaining + 1, attempt, w =>
    match processJob cfg (transport attempt) (clock attempt) (uuid attempt) job w with
    | (w1, .ok _) => (w1, attempt + 1)
    | (w1, .error _) => runAttempts cfg transport clock uuid job remaining (attempt + 1) w1

/-- A job added with the default options, run to its end. -/
def runJob (cfg : Config) (transport : Nat → MailOptions → Except Str Str)
    (clock : Nat → Nat) (uuid : Nat → Str) (job : Job) (w : World) : World × Nat :=
  runAttempts cfg transport clock uuid job maxAttempts 0 w

/-- The format of a version 4 UUID as `uuidv4()` prints it: 36 characters,
hyphens at the four fixed places, lower-case hexadecimal digits elsewhere. -/
def isUuid (id : Str) : Bool :=
  id.length == 36 &&
  (List.range 36).all fun i =>
    match id.get? i with
    | some c =>
      if i == 8 || i == 13 || i == 18 || i == 23 then c == '-'
      else (48 ≤ c.toNat && c.toNat ≤ 57) || (97 ≤ c.toNat && c.toNat ≤ 102)
    | none => false

/-! ## Submission (`emailController` and `emailService`: `sendEmail`, `sendBulkEmails`) -/

/-- A row of `EmailTemplate`, with the columns the rendering reads: `subject`
and `html` are `allowNull: false`, `text` is `allowNull: true` (`createTemplate`
asks for a name, a subject and html only). -/
structure Template where
  subject : Str
  html : Str
  text : Option Str
  deriving DecidableEq, Repr

/-- An email object of a request body, which is also the `emailData` that the
service puts on the queue. A property that is absent is `none`; the values are
strings, `templateData` and `metadata` are objects with their keys in
insertion order. -/
structure EmailData where
  recipient : Option Str
  subject : Option Str
  text : Option Str
  html : Option Str
  cc : Option Str
  bcc : Option Str
  templateId : Option Str
  templateData : Option (List (Str × JsValue))
  metadata : Option (List (Str × JsValue))
  deriving DecidableEq, Repr

/-- ECMAScript ToBoolean of an optional string, as in `!to` and
`if (email.templateId)`: absent and empty are falsy. -/
def present (a : Option Str) : Bool :=
  match a with
  | some x => !x.isEmpty
  | none => false

/-- The expression `a || b` for optional strings. -/
def orElseStr (a b : Option Str) : Option Str :=
  if present a then a else b

/-- The object `{ ...obj, [key]: value }`: the key keeps its place when `obj`
has it and is put last otherwise. -/
def setKey (obj : List (Str × JsValue)) (key : Str) (value : JsValue) : List (Str × JsValue) :=
  if obj.any fun p => p.1 = key then obj.map fun p => if p.1 = key then (p.1, value) else p
  else obj ++ [(key, value)]

/-- The property read `obj[key]`. -/
def getKey (obj : List (Str × JsValue)) (key : Str) : Option JsValue :=
  (obj.find? fun p => p.1 = key).map fun p => p.2

/-- A thrown error: its message, and the `statusCode` that an `ApiError`
carries and a plain `Error` lacks. -/
structure JsError where
  message : Str
  statusCode : Option Nat
  deriving DecidableEq, Repr

/-- A rendering loop as a function: from the template row and the entries of
`templateData` to the three texts it leaves, or the message of the error it
throws. -/
abbrev Renderer := Template → List (Str × JsValue) → Except Str Template

/-- The `forEach` loop over `Object.entries(templateData)` of `sendEmail` and
`sendBulkEmails`, on a template row: the three texts it leaves, or the message
of the error it throws. With no entry nothing is touched. With an entry, `text.replace` throws
a `TypeError` on a template whose `text` is null (after `new RegExp` and
`html.replace` went through). The code compiles every key as a pattern; a key
with regular expression syntax outside the fragment that `render` covers is
not decided here: for such data the loop is the parameter `beyond`. -/
def renderLoop (beyond : Renderer) (template : Template)
    (templateData : List (Str × JsValue)) : Except Str Template :=
  match templateData with
  | [] => .ok template
  | (key, _) :: _ =>
    match template.text with
    | none =>
      if (compileKey key).isSome then
        .error "Cannot read properties of null (reading \x27replace\x27)".toList
      else beyond template templateData
    | some text =>
      match render { subject := template.subject, html := template.html, text := text }
          templateData with
      | some r => .ok { subject := r.subject, html := r.html, text := some r.text }
      | none => beyond template templateData

/-- The template branch (`if (emailData.templateId) { ... }`) of `sendEmail`
and `sendBulkEmails`: the email object after it, or the error thrown. `store`
is `EmailTemplate.findByPk`, and `rend` is the rendering loop; what the loop
throws is a plain error, without `statusCode`. -/
def applyTemplate (rend : Renderer)
    (store : Str → Option Template) (emailData : EmailData) : Except JsError EmailData :=
  match emailData.templateId with
  | none => .ok emailData
  | some id =>
    if id.isEmpty then .ok emailData
    else
      match store id with
      | none => .error ⟨"Template with ID ".toList ++ id ++ " not found".toList, none⟩
      | some template =>
        let rendered :=
          match emailData.templateData with
          | some data => rend template data
          | none => .ok template
        match rendered with
        | .ok t =>
          .ok { emailData with html := some t.html, text := t.text, subject := some t.subject }
        | .error message => .error ⟨message, none⟩

/-- A job of the queue `email-queue`. -/
structure QueuedJob where
  id : Nat
  name : Str
  data : EmailData
  deriving DecidableEq, Repr

/-- The queue `email-queue`: the jobs added, oldest first, and the id that
the next job gets (the queue numbers its jobs one after the other). -/
structure Queue where
  jobs : List QueuedJob
  nextId : Nat
  deriving DecidableEq, Repr

/-- The call `emailQueue.add(name, data)`, taken to succeed: the queue after
it and the job. -/
def queueAdd (q : Queue) (name : Str) (data : EmailData) : Queue × QueuedJob :=
  let job : QueuedJob := { id := q.nextId, name := name, data := data }
  ({ jobs := q.jobs ++ [job], nextId := q.nextId + 1 }, job)

/-- The call `emailQueue.addBulk(jobs)`, taken to succeed. -/
def queueAddBulk (q : Queue) : List (Str × EmailData) → Queue
  | [] => q
  | (name, data) :: rest => queueAddBulk (queueAdd q name data).1 rest

/-- The function `emailService.sendEmail`: the queue after it, and the
`jobId` of the result object or the error thrown. -/
def emailService.sendEmail (rend : Renderer)
    (store : Str → Option Template) (emailData : EmailData) (q : Queue) :
    Queue × Except JsError Nat :=
  match applyTemplate rend store emailData with
  | .error e => (q, .error e)
  | .ok data =>
    let added := queueAdd q "send-email".toList data
    (added.1, .ok added.2.id)

/-- The `for` loop of `emailService.sendBulkEmails`: the array `jobs` it
builds, or the error thrown by the first item that fails. -/
def bulkJobs (rend : Renderer)
    (store : Str → Option Template) (batchId : Str) :
    List EmailData → Except JsError (List (Str × EmailData))
  | [] => .ok []
  | email :: rest =>
    match applyTemplate rend store email with
    | .error e => .error e
    | .ok data =>
      match bulkJobs rend store batchId rest with
      | .error e => .error e
      | .ok jobs =>
        .ok (("send-email".toList,
              { data with
                metadata := some (setKey (data.metadata.getD []) "batchId".toList (.str batchId)) })
            :: jobs)

/-- The result object of `emailService.sendBulkEmails`. -/
structure BulkResult where
  count : Nat
  batchId : Str
  deriving DecidableEq, Repr

/-- The batch id made from `Date.now()`. -/
def batchIdAt (now : Nat) : Str := "batch-".toList ++ (toString now).toList

/-- The function `emailService.sendBulkEmails`; `now` is what `Date.now()`
returned. -/
def emailService.sendBulkEmails
    (rend : Renderer)
    (store : Str → Option Template) (now : Nat) (emails : List EmailData) (q : Queue) :
    Queue × Except JsError BulkResult :=
  match bulkJobs rend store (batchIdAt now) emails with
  | .error e => (q, .error e)
  | .ok jobs => (queueAddBulk q jobs, .ok { count := jobs.length, batchId := batchIdAt now })

/-- What the submission endpoints read of the request next to its body:
`req.user?.id` and `req.ip`. -/
structure Request where
  userId : Option Str
  ip : Str
  deriving DecidableEq, Repr

/-- The JSON bodies of the submission endpoints: the result object of
`sendEmail`, the one of `sendBulkEmails`, and the body of the error handler. -/
inductive Body where
  | queued (jobId : Nat)
  | bulkQueued (count : Nat) (batchId : Str)
  | failure (message : Str)
  deriving DecidableEq, Repr

/-- An HTTP response: `res.status(s).json(b)`, `res.status(s).send(text)`,
`res.set("Content-Type", t)` followed by `res.send(buffer)`, and
`res.redirect(url)`. -/
inductive Response where
  | json (status : Nat) (body : Body)
  | text (status : Nat) (body : Str)
  | bytes (status : Nat) (contentType : Str) (body : List Nat)
  | redirect (status : Nat) (location : Str)
  deriving DecidableEq, Repr

/-- The middleware `errorHandler`, to which the controllers pass what they
catch (`next(error)`). -/
def errorHandler (err : JsError) : Response :=
  let statusCode :=
    match err.statusCode with
    | some c => if c = 0 then 500 else c
    | none => 500
  let message := if err.message.isEmpty then "Internal Server Error".toList else err.message
  .json statusCode (.failure message)

/-- The object `{ ...base, userId: req.user?.id, ip: req.ip }`. -/
def requestMetadata (base : List (Str × JsValue)) (req : Request) : List (Str × JsValue) :=
  setKey
    (setKey base "userId".toList
      (match req.userId with
       | some u => .str u
       | none => .undefined))
    "ip".toList (.str req.ip)

/-- The controller `sendEmail` behind `POST /send`, followed by the error
handler: the queue after the request, and the response. -/
def emailController.sendEmail
    (rend : Renderer)
    (store : Str → Option Template) (req : Request) (body : EmailData) (q : Queue) :
    Queue × Response :=
  if !present body.recipient then
    (q, errorHandler ⟨"Recipient email is required".toList, some 400⟩)
  else if !present body.subject && !present body.templateId then
    (q, errorHandler ⟨"Subject is required".toList, some 400⟩)
  else if !present body.text && !present body.html && !present body.templateId then
    (q, errorHandler ⟨"Email content or template ID is required".toList, some 400⟩)
  else
    match emailService.sendEmail rend store
        { body with metadata := some (requestMetadata [] req) } q with
    | (q1, .ok jobId) => (q1, .json 202 (.queued jobId))
    | (q1, .error e) => (q1, errorHandler e)

/-- The `emails.map(...)` of the controller `sendBulkEmails`: the array
`processedEmails`, or the error thrown at the first item without recipient. -/
def processedEmails (req : Request) (templateId : Option Str) :
    List EmailData → Except JsError (List EmailData)
  | [] => .ok []
  | email :: rest =>
    if !present email.recipient then
      .error ⟨"Each email must have a recipient".toList, some 400⟩
    else
      match processedEmails req templateId rest with
      | .error e => .error e
      | .ok es =>
        .ok ({ email with
               templateId := orElseStr email.templateId templateId
               metadata := some (requestMetadata (email.metadata.getD []) req) } :: es)

/-- The controller `sendBulkEmails` behind `POST /bulk`, followed by the
error handler. `emails` is `none` when the body has no `emails` or it is not
an array; `templateId` is the batch-level one. -/
def emailController.sendBulkEmails
    (rend : Renderer)
    (store : Str → Option Template) (now : Nat) (req : Request)
    (emails : Option (List EmailData)) (templateId : Option Str) (q : Queue) :
    Queue × Response :=
  match emails with
  | none => (q, errorHandler ⟨"Invalid emails array".toList, some 400⟩)
  | some es =>
    if es.isEmpty then (q, errorHandler ⟨"Invalid emails array".toList, some 400⟩)
    else
      match processedEmails req templateId es with
      | .error e => (q, errorHandler e)
      | .ok ps =>
        match emailService.sendBulkEmails rend store now ps q with
        | (q1, .ok r) => (q1, .json 202 (.bulkQueued r.count r.batchId))
        | (q1, .error e) => (q1, errorHandler e)

/-! ## Tracking endpoints (`handleOpen`, `handleClick`, the open route) -/

/-- The value of a hexadecimal digit. -/
def hexValue (c : Char) : Option Nat :=
  let n := c.toNat
  if 48 ≤ n && n ≤ 57 then some (n - 48)
  else if 65 ≤ n && n ≤ 70 then some (n - 55)
  else if 97 ≤ n && n ≤ 102 then some (n - 87)
  else none

/-- A percent-encoded text cut into its parts: a character that stands for
itself, or the octet of an escape `%XY`. -/
inductive UriToken where
  | char (c : Char)
  | octet (b : Nat)
  deriving DecidableEq, Repr

/-- The escapes of a text; `none` when a `%` is not followed by two
hexadecimal digits (a `URIError`). -/
def uriTokens : Str → Option (List UriToken)
  | [] => some []
  | c :: rest =>
    if c = '%' then
      match rest with
      | a :: b :: rest2 =>
        match hexValue a, hexValue b, uriTokens rest2 with
        | some x, some y, some ts => some (.octet (16 * x + y) :: ts)
        | _, _, _ => none
      | _ => none
    else (uriTokens rest).map fun ts => .char c :: ts

/-- A continuation octet of UTF-8. -/
def isContinuation (b : Nat) : Bool := 128 ≤ b && b < 192

/-- The octets of the escapes read as UTF-8; `none` when they are not the
UTF-8 encoding of code points (a `URIError`). -/
def decodeTokens : List UriToken → Option Str
  | [] => some []
  | .char c :: rest => (decodeTokens rest).map fun s => c :: s
  | .octet b :: rest =>
    if b < 128 then (decodeTokens rest).map fun s => Char.ofNat b :: s
    else if b < 192 then none
    else if b < 224 then
      match rest with
      | .octet b1 :: rest1 =>
        if isContinuation b1 && 194 ≤ b then
          (decodeTokens rest1).map fun s => Char.ofNat ((b - 192) * 64 + (b1 - 128)) :: s
        else none
      | _ => none
    else if b < 240 then
      match rest with
      | .octet b1 :: .octet b2 :: rest2 =>
        let cp := (b - 224) * 4096 + (b1 - 128) * 64 + (b2 - 128)
        if isContinuation b1 && isContinuation b2 && 2048 ≤ cp && !(55296 ≤ cp && cp < 57344) then
          (decodeTokens rest2).map fun s => Char.ofNat cp :: s
        else none
      | _ => none
    else if b < 248 then
      match rest with
      | .octet b1 :: .octet b2 :: .octet b3 :: rest3 =>
        let cp := (b - 240) * 262144 + (b1 - 128) * 4096 + (b2 - 128) * 64 + (b3 - 128)
        if isContinuation b1 && isContinuation b2 && isContinuation b3 &&
            65536 ≤ cp && cp < 1114112 then
          (decodeTokens rest3).map fun s => Char.ofNat cp :: s
        else none
      | _ => none
    else none

/-- The function `decodeURIComponent`; `none` when it throws a `URIError`. -/
def decodeURIComponent (s : Str) : Option Str :=
  (uriTokens s).bind decodeTokens

/-- The base64 alphabet. -/
def base64Alphabet : Str :=
  "ABCDEFGHIJKLMNOPQRSTUVWXYZabcdefghijklmnopqrstuvwxyz0123456789+/".toList

/-- The base64 digit of a number below 64. -/
def base64Char (n : Nat) : Char := base64Alphabet.getD n '='

/-- The call `buffer.toString("base64")`. -/
def base64Encode : List Nat → Str
  | [] => []
  | [a] => [base64Char (a / 4), base64Char (a % 4 * 16), '=', '=']
  | [a, b] => [base64Char (a / 4), base64Char (a % 4 * 16 + b / 16), base64Char (b % 16 * 4), '=']
  | a :: b :: c :: rest =>
    base64Char (a / 4) :: base64Char (a % 4 * 16 + b / 16) ::
      base64Char (b % 16 * 4 + c / 64) :: base64Char (c % 64) :: base64Encode rest

/-- The octets of a run of base64 digits. -/
def packSextets : List Nat → List Nat
  | a :: b :: c :: d :: rest =>
    (a * 4 + b / 16) :: (b % 16 * 16 + c / 4) :: (c % 4 * 64 + d) :: packSextets rest
  | [a, b, c] => [a * 4 + b / 16, b % 16 * 16 + c / 4]
  | [a, b] => [a * 4 + b / 16]
  | _ => []

/-- The call `Buffer.from(text, "base64")` on base64 digits followed by
padding. -/
def base64Decode (text : Str) : List Nat :=
  packSextets ((text.takeWhile fun c => c != '=').map fun c => base64Alphabet.indexOf c)

/-- The body of the open route: the buffer of the literal in the route. -/
def pixelBytes : List Nat :=
  base64Decode
    "iVBORw0KGgoAAAANSUhEUgAAAAEAAAABCAQAAAC1HAwCAAAAC0lEQVR42mP8/wcAAgAB/1h1ZAAAAABJRU5ErkJggg==".toList

/-- The object `metadata.clickDetails` that `handleClick` writes. -/
structure ClickDetails where
  timestamp : Nat
  url : Str
  ip : Option Str
  userAgent : Option Str
  deriving DecidableEq, Repr

/-- A row of `EmailLog`, with the columns of the model that the tracking
endpoints read or that hold the engagement of the entry. `clickDetails` is
the key of that name in `metadata`, and `metadata` its other keys. The columns
filled from the user-agent parser are left out. -/
structure TrackedLog where
  id : Str
  status : Status
  openedAt : Option Nat
  openCount : Nat
  clickAt : Option Nat
  clickCount : Nat
  clickUrls : List Str
  ipAddress : Option Str
  country : Option Str
  region : Option Str
  city : Option Str
  metadata : List (Str × Str)
  clickDetails : Option ClickDetails
  deriving DecidableEq, Repr

/-- The stores of the tracking endpoints: the `EmailLog` table and the
hashes `email:metrics`, `email:clicks:country` and `email:clicks:url`. -/
structure TrackingWorld where
  logs : List TrackedLog
  metrics : String → Int
  clicksByCountry : Str → Int
  clicksByUrl : Str → Int

/-- What the tracking endpoints read of the request: `req.ip` and the
headers `x-forwarded-for` and `user-agent`. -/
structure Visit where
  ip : Str
  forwardedFor : Option Str
  userAgent : Option Str
  deriving DecidableEq, Repr

/-- A result of `geoip.lookup`. -/
structure Geo where
  country : Str
  region : Str
  city : Str
  deriving DecidableEq, Repr

/-- Which of the calls inside a tracking function fail: `EmailLog.findByPk`,
the geo and device resolution, `emailLog.update`, and statement number `i`
among the calls `redisClient.hincrby` of the function. -/
structure Faults where
  lookup : Bool
  resolve : Bool
  update : Bool
  counter : Nat → Bool

/-- The call `EmailLog.findByPk(trackingId)` on the tracking columns. -/
def findLog (logs : List TrackedLog) (id : Str) : Option TrackedLog :=
  logs.find? fun e => e.id = id

/-- The call `emailLog.update(...)` on the row with primary key `id`. -/
def updateTracked (logs : List TrackedLog) (id : Str) (f : TrackedLog → TrackedLog) :
    List TrackedLog :=
  logs.map fun e => if e.id = id then f e else e

/-- The call `redisClient.hincrby(hash, field, n)` on a hash whose fields are
texts made at run time. -/
def hincrbyField (m : Str → Int) (field : Str) (n : Int) : Str → Int :=
  fun f => if f = field then m f + n else m f

/-- The expression `geo?.field || fallback`. -/
def geoOr (geo : Option Geo) (field : Geo → Str) (fallback : Option Str) : Option Str :=
  match geo with
  | some g => if (field g).isEmpty then fallback else some (field g)
  | none => fallback

/-- The function `emailService.handleOpen`. `geoip` is `geoip.lookup`, `now`
what `new Date()` returned. The result is the stores after the call, and
whether the promise of the call is fulfilled (`ok`) or rejected with the
error caught, logged and thrown again (`error`). -/
def emailService.handleOpen (geoip : Str → Option Geo) (faults : Faults) (now : Nat)
    (trackingId : Str) (req : Visit) (w : TrackingWorld) : TrackingWorld × Except Str Unit :=
  if faults.lookup then (w, .error "findByPk failed".toList)
  else
    match findLog w.logs trackingId with
    | none => (w, .ok ())
    | some emailLog =>
      if faults.resolve then (w, .error "resolution failed".toList)
      else
        let geo := geoip req.ip
        if faults.update then (w, .error "update failed".toList)
        else
          let w1 : TrackingWorld :=
            { w with
              logs := updateTracked w.logs trackingId fun e =>
                { e with
                  openCount := emailLog.openCount + 1
                  openedAt := some now
                  ipAddress := some req.ip
                  country := geoOr geo Geo.country (some "Unknown".toList)
                  region := geoOr geo Geo.region (some "Unknown".toList)
                  city := geoOr geo Geo.city (some "Unknown".toList) } }
          if faults.counter 0 then (w1, .error "hincrby failed".toList)
          else ({ w1 with metrics := hincrby w1.metrics "opened" 1 }, .ok ())

/-- A promise: how the call of an `async` function was settled. -/
structure Promise (α : Type) where
  settled : Except Str α

/-- How an expression ends in the code around it: with a value, or by
throwing. -/
inductive Completion (α : Type) where
  | value (v : α)
  | thrown (message : Str)

/-- A call of an `async` function that is not awaited: whatever its body
does, the call returns a promise; an error of the body rejects the promise
and is not thrown into the caller. -/
def callAsync {α : Type} (outcome : Except Str α) : Completion (Promise α) :=
  .value ⟨outcome⟩

/-- The handler of `GET /tracking/open/:trackingId`: the `try` block calls
`emailService.handleOpen` without `await` and sends the image; the `catch`
block answers 500. The stores are those that the call of `handleOpen` leaves. -/
def openRoute (geoip : Str → Option Geo) (faults : Faults) (now : Nat) (trackingId : Str)
    (req : Visit) (w : TrackingWorld) : TrackingWorld × Response :=
  let run := emailService.handleOpen geoip faults now trackingId req w
  match callAsync run.2 with
  | .value _ => (run.1, .bytes 200 "image/png".toList pixelBytes)
  | .thrown _ => (run.1, .text 500 "Error tracking email open".toList)

/-- A call on a store made by `handleClick`. -/
inductive Effect where
  | lookup (id : Str)
  | update (id : Str)
  | incr (hash : String) (field : Str)
  deriving DecidableEq, Repr

/-- How an invocation of `handleClick` ends: with a response sent, or with
an error thrown out of the function and no response. -/
inductive Ending where
  | responded (r : Response)
  | uncaught (message : Str)
  deriving DecidableEq, Repr

/-- An invocation of `handleClick`: the stores after it, the calls it made on
the stores in order, and how it ended. -/
structure ClickRun where
  world : TrackingWorld
  trace : List Effect
  ending : Ending

/-- The field of `email:clicks:url`: the first 32 characters of the base64
text of the UTF-8 octets of the URL. -/
def urlHash (decodedUrl : Str) : Str :=
  (base64Encode (decodedUrl.flatMap fun c => utf8Bytes c.toNat)).take 32

/-- The `try` block of `handleClick`: the stores, the calls made, and the
response it returns or the error it throws. The keys `clickedAt` and
`clickUrl` of the update are not attributes of the model, so the update
leaves no trace of them; `clickAt`, `clickCount` and `clickUrls` are not
among its keys. -/
def clickTry (geoip : Str → Option Geo) (faults : Faults) (now : Nat) (trackingId : Str)
    (url : Option Str) (req : Visit) (w : TrackingWorld) :
    TrackingWorld × List Effect × Except Str Response :=
  if !present url then (w, [], .ok (.text 400 "Missing URL parameter".toList))
  else
    match decodeURIComponent (url.getD []) with
    | none => (w, [], .error "URI malformed".toList)
    | some decodedUrl =>
      if faults.lookup then (w, [.lookup trackingId], .error "findByPk failed".toList)
      else
        match findLog w.logs trackingId with
        | none => (w, [.lookup trackingId], .ok (.redirect 302 decodedUrl))
        | some emailLog =>
          let ip := orElseStr req.forwardedFor (some req.ip)
          if faults.resolve then (w, [.lookup trackingId], .error "resolution failed".toList)
          else
            let geo := if present ip then geoip (ip.getD []) else none
            if faults.update then
              (w, [.lookup trackingId, .update trackingId], .error "update failed".toList)
            else
              let w1 : TrackingWorld :=
                { w with
                  logs := updateTracked w.logs trackingId fun e =>
                    { e with
                      status := Status.clicked
                      ipAddress := ip
                      country := geoOr geo Geo.country emailLog.country
                      region := geoOr geo Geo.region emailLog.region
                      city := geoOr geo Geo.city emailLog.city
                      metadata := emailLog.metadata
                      clickDetails := some
                        { timestamp := now, url := decodedUrl, ip := ip,
                          userAgent := req.userAgent } } }
              let t1 := [Effect.lookup trackingId, .update trackingId,
                .incr "email:metrics" "clicked".toList]
              if faults.counter 0 then (w1, t1, .error "hincrby failed".toList)
              else
                let w2 := { w1 with metrics := hincrby w1.metrics "clicked" 1 }
                let country := (geoOr geo Geo.country none).getD []
                let t2 := if country.isEmpty then t1
                  else t1 ++ [.incr "email:clicks:country" country]
                if !country.isEmpty && faults.counter 1 then
                  (w2, t2, .error "hincrby failed".toList)
                else
                  let w3 := if country.isEmpty then w2
                    else { w2 with clicksByCountry := hincrbyField w2.clicksByCountry country 1 }
                  let t3 := t2 ++ [.incr "email:clicks:url" (urlHash decodedUrl)]
                  if faults.counter 2 then (w3, t3, .error "hincrby failed".toList)
                  else
                    ({ w3 with
                       clicksByUrl := hincrbyField w3.clicksByUrl (urlHash decodedUrl) 1 },
                     t3, .ok (.redirect 302 decodedUrl))

/-- The function `emailService.handleClick`; `trackingId` is
`req.params.trackingId` and `url` is `req.query.url`. The `catch` block
decodes `url` again when it is truthy, outside any `try`. -/
def emailService.handleClick (geoip : Str → Option Geo) (faults : Faults) (now : Nat)
    (trackingId : Str) (url : Option Str) (req : Visit) (w : TrackingWorld) : ClickRun :=
  match clickTry geoip faults now trackingId url req w with
  | (w1, trace, .ok r) => { world := w1, trace := trace, ending := .responded r }
  | (w1, trace, .error _) =>
    if present url then
      match decodeURIComponent (url.getD []) with
      | some decodedUrl =>
        { world := w1, trace := trace, ending := .responded (.redirect 302 decodedUrl) }
      | none => { world := w1, trace := trace, ending := .uncaught "URI malformed".toList }
    else { world := w1, trace := trace, ending := .responded (.text 400 "Invalid request".toList) }

/-! ## Concurrent opens (`handleOpen` between its `await`s) -/

/-- How far a call of `handleOpen` has got: before `EmailLog.findByPk`; with
the row that the lookup returned, before `emailLog.update`; before
`redisClient.hincrby`; returned. -/
inductive OpenStage where
  | start
  | found (emailLog : TrackedLog)
  | updated
  | done
  deriving DecidableEq, Repr

/-- A call of `handleOpen` in progress: what `new Date()` gives it, its
request, and how far it has got. -/
structure OpenCall where
  now : Nat
  req : Visit
  stage : OpenStage
  deriving DecidableEq, Repr

/-- The next step of a call of `handleOpen`, none of its calls failing: the
stores are read or written once, at the `await` the call has reached. The
update writes `openCount` as the count of the row that the lookup of this call
returned, plus 1. -/
def openStep (geoip : Str → Option Geo) (trackingId : Str) (call : OpenCall)
    (w : TrackingWorld) : OpenCall × TrackingWorld :=
  match call.stage with
  | .start =>
    match findLog w.logs trackingId with
    | none => ({ call with stage := .done }, w)
    | some emailLog => ({ call with stage := .found emailLog }, w)
  | .found emailLog =>
    ({ call with stage := .updated },
      { w with
        logs := updateTracked w.logs trackingId fun e =>
          { e with
            openCount := emailLog.openCount + 1
            openedAt := some call.now
            ipAddress := some call.req.ip
            country := geoOr (geoip call.req.ip) Geo.country (some "Unknown".toList)
            region := geoOr (geoip call.req.ip) Geo.region (some "Unknown".toList)
            city := geoOr (geoip call.req.ip) Geo.city (some "Unknown".toList) } })
  | .updated => ({ call with stage := .done }, { w with metrics := hincrby w.metrics "opened" 1 })
  | .done => (call, w)

/-- Calls of `handleOpen` for one tracking id running at the same time: the
schedule names, step by step, the call that goes on (a name that is no call
is passed over). The result: the calls and the stores after the schedule. -/
def runSchedule (geoip : Str → Option Geo) (trackingId : Str) :
    List Nat → List OpenCall → TrackingWorld → List OpenCall × TrackingWorld
  | [], calls, w => (calls, w)
  | i :: rest, calls, w =>
    match calls[i]? with
    | none => runSchedule geoip trackingId rest calls w
    | some call =>
      runSchedule geoip trackingId rest
        (calls.set i (openStep geoip trackingId call w).1) (openStep geoip trackingId call w).2

/-! ## Statistics and queue status (`getEmailStats`, `getQueueStatus`) -/

/-- A JavaScript number of the statistics: `NaN`, an infinity, or a finite
number. A finite number is held as the rational it stands for; the rounding of
the double arithmetic is left out. -/
inductive JsNumber where
  | nan
  | infinity (negative : Bool)
  | finite (q : ℚ)
  deriving DecidableEq, Repr

/-- The operator `/`. -/
def JsNumber.div : JsNumber → JsNumber → JsNumber
  | .finite a, .finite b =>
    if b = 0 then (if a = 0 then .nan else .infinity (decide (a < 0))) else .finite (a / b)
  | .finite _, .infinity _ => .finite 0
  | .infinity n, .finite b => .infinity (n != decide (b < 0))
  | .infinity _, .infinity _ => .nan
  | .nan, _ => .nan
  | _, .nan => .nan

/-- The operator `*`. -/
def JsNumber.mul : JsNumber → JsNumber → JsNumber
  | .finite a, .finite b => .finite (a * b)
  | .finite a, .infinity n => if a = 0 then .nan else .infinity (n != decide (a < 0))
  | .infinity n, .finite b => if b = 0 then .nan else .infinity (n != decide (b < 0))
  | .infinity n, .infinity m => .infinity (n != m)
  | .nan, _ => .nan
  | _, .nan => .nan

/-- ECMAScript ToNumber of a property that holds a count, or is `undefined`. -/
def toNumber : Option Nat → JsNumber
  | some n => .finite n
  | none => .nan

/-- The assignment `obj[key] = value` on an object with its keys in insertion
order. -/
def setField {α : Type} (obj : List (Str × α)) (key : Str) (value : α) : List (Str × α) :=
  if obj.any fun p => p.1 = key then obj.map fun p => if p.1 = key then (p.1, value) else p
  else obj ++ [(key, value)]

/-- The property read `obj[key]`; `none` is `undefined`. -/
def getField {α : Type} (obj : List (Str × α)) (key : Str) : Option α :=
  (obj.find? fun p => p.1 = key).map fun p => p.2

/-- The expression `(x / totalEmails) * 100` under the guard
`totalEmails > 0`, and 0 otherwise. -/
def rateOf (totalEmails : Nat) (x : JsNumber) : JsNumber :=
  if totalEmails > 0 then (x.div (.finite totalEmails)).mul (.finite 100) else .finite 0

/-- The object `redisMetrics` of the statistics, and `metrics` of the queue
status. -/
structure Metrics where
  sent : Int
  delivered : Int
  opened : Int
  clicked : Int
  failed : Int
  deriving DecidableEq, Repr

/-- The expression `parseInt(hash?.field || 0)` on what `hgetall` returned:
`none` for no hash, and for a field that the hash lacks. The fields are
written by `hincrby` alone and hold integers. -/
def metricOf (hash : Option (String → Option Int)) (field : String) : Int :=
  match hash with
  | some h => (h field).getD 0
  | none => 0

/-- The five counters read off the hash `email:metrics`. -/
def metricsOf (hash : Option (String → Option Int)) : Metrics :=
  { sent := metricOf hash "sent", delivered := metricOf hash "delivered",
    opened := metricOf hash "opened", clicked := metricOf hash "clicked",
    failed := metricOf hash "failed" }

/-- The `reduce` that turns the rows of the query grouped by status (status
and count) into the object `statusCounts`. -/
def countsObject (rows : List (Str × Nat)) : List (Str × Nat) :=
  rows.foldl (fun acc row => setField acc row.1 row.2) []

/-- The statistics of `emailService.getEmailStats`, with the parts that the
rates are made of; the device, country, browser and system counts and the job
counts are carried along and left out. -/
structure ServiceStats where
  totalEmails : Nat
  statusCounts : List (Str × Nat)
  redisMetrics : Metrics
  deliveryRate : JsNumber
  bounceRate : JsNumber
  openRate : JsNumber
  clickRate : JsNumber
  deriving DecidableEq, Repr

/-- The statements of `emailService.getEmailStats` behind its queries
(`Format all statistics` and `Calculate rates`), on the rows of the query
grouped by status, the result of `EmailLog.count()` and what `hgetall`
returned. The bounce rate reads `statusCounts.bounced`. -/
def formatStats (statusRows : List (Str × Nat)) (totalEmails : Nat)
    (redisMetrics : Option (String → Option Int)) : ServiceStats :=
  { totalEmails := totalEmails
    statusCounts := countsObject statusRows
    redisMetrics := metricsOf redisMetrics
    deliveryRate := rateOf totalEmails (.finite (metricsOf redisMetrics).delivered)
    bounceRate := rateOf totalEmails (toNumber (getField (countsObject statusRows) "bounced".toList))
    openRate := rateOf totalEmails (.finite (metricsOf redisMetrics).opened)
    clickRate := rateOf totalEmails (.finite (metricsOf redisMetrics).clicked) }

/-- The function `emailService.getEmailStats` as the module has it. The
arguments of its queries use the names `Sequelize` and `Op`, which the module
neither requires nor declares: evaluating the first of them throws a
`ReferenceError` inside the `try`, which the `catch` logs and throws again,
whatever the stores hold. The statements of `formatStats` are not reached. -/
def emailService.getEmailStats : Except Str ServiceStats :=
  .error "Sequelize is not defined".toList

/-- A count with its rate (`deliveryStats`, `bounceStats`). -/
structure CountAndRate where
  count : Nat
  rate : JsNumber
  deriving DecidableEq, Repr

/-- The statistics of the controller `getEmailStats`, with the parts that the
rates are made of; `topCountries` and `deviceUsage` are left out. -/
structure ControllerStats where
  totalEmails : Nat
  statusCounts : List (Str × Nat)
  rates : List (Str × JsNumber)
  deliveryStats : CountAndRate
  bounceStats : CountAndRate
  deriving DecidableEq, Repr

/-- The `reduce` of the controller `getEmailStats`: the object
`statusCounts` with, on the side, the object `rates`, which gets the key
`<status>Rate` for every row. -/
def ratesReduce (totalEmails : Nat) (rows : List (Str × Nat)) :
    List (Str × Nat) × List (Str × JsNumber) :=
  rows.foldl
    (fun acc row =>
      (setField acc.1 row.1 row.2,
        setField acc.2 (row.1 ++ "Rate".toList) (rateOf totalEmails (.finite row.2))))
    ([], [])

/-- The controller `getEmailStats` behind `GET /stats`, on the results of its
queries: the rows grouped by status, `EmailLog.count()`, and the counts of the
entries with status `delivered` and `bounced`. -/
def emailController.getEmailStats (statusRows : List (Str × Nat))
    (totalEmails deliveryStats bounceStats : Nat) : ControllerStats :=
  { totalEmails := totalEmails
    statusCounts := (ratesReduce totalEmails statusRows).1
    rates := (ratesReduce totalEmails statusRows).2
    deliveryStats := { count := deliveryStats, rate := rateOf totalEmails (.finite deliveryStats) }
    bounceStats := { count := bounceStats, rate := rateOf totalEmails (.finite bounceStats) } }

/-- The result of `emailQueue.getJobCounts()`. -/
structure JobCounts where
  waiting : Nat
  active : Nat
  completed : Nat
  failed : Nat
  delayed : Nat
  paused : Nat
  deriving DecidableEq, Repr

/-- The snapshot `{success: true, queue, metrics}`. -/
structure QueueStatus where
  queue : JobCounts
  metrics : Metrics
  deriving DecidableEq, Repr

/-- The arrow function that the text of the service module has behind
`getQueueStatus:`, on the job counts and on what `hgetall` returned. -/
def queueStatusFunction (counts : JobCounts) (metrics : Option (String → Option Int)) :
    QueueStatus :=
  { queue := counts, metrics := metricsOf metrics }

/-- The names of the properties of the object literal `emailService`. The
literal is closed behind `getEmailStats`; the text `getQueueStatus: async ()
=> ...` that follows it is a statement of the module, with the label
`getQueueStatus`, whose arrow function is made and dropped. -/
def emailServiceProperties : List String :=
  ["sendEmail", "sendBulkEmails", "handleOpen", "handleClick", "getEmailStats"]

/-- The value `module.exports.getQueueStatus`, which is
`emailService.getQueueStatus`: `none` is `undefined`, the value of reading a
property that the object lacks. -/
def exportedGetQueueStatus :
    Option (JobCounts → Option (String → Option Int) → QueueStatus) :=
  if emailServiceProperties.contains "getQueueStatus" then some queueStatusFunction else none

/-- An answer of `GET /queue/status`: the snapshot sent with `res.json`, or
the answer of the error handler. -/
inductive StatusReply where
  | snapshot (status : QueueStatus)
  | failed (response : Response)
  deriving DecidableEq, Repr

/-- The controller `getQueueStatus` behind `GET /queue/status`, followed by
the error handler, for a queue and a counter store that answer: the call
`emailService.getQueueStatus()` throws a `TypeError` when the export is
`undefined`. -/
def emailController.getQueueStatus (counts : JobCounts)
    (metrics : Option (String → Option Int)) : StatusReply :=
  match exportedGetQueueStatus with
  | some getQueueStatus => .snapshot (getQueueStatus counts metrics)
  | none =>
    .failed (errorHandler ⟨"emailService.getQueueStatus is not a function".toList, none⟩)

/-! ## The click link on its way back (`GET /tracking/click/:trackingId?url=...`) -/

/-- The decoding that the query parser of the HTTP framework applies to a
value of the query string before a handler reads `req.query`: `+` becomes a
space, then the text is percent-decoded, and left as it is when that fails. -/
def queryDecode (value : Str) : Str :=
  let spaced := value.map fun c => if c = '+' then ' ' else c
  (decodeURIComponent spaced).getD spaced

/-- A request `GET /tracking/click/<trackingId>?url=<value>` as `handleClick`
answers it: `req.query.url` is the value after the query parser. -/
def clickRequest (geoip : Str → Option Geo) (faults : Faults) (now : Nat) (trackingId : Str)
    (value : Str) (req : Visit) (w : TrackingWorld) : ClickRun :=
  emailService.handleClick geoip faults now trackingId (some (queryDecode value)) req w

/-! ## Predicates of the statements -/

/-- How many times `pat` occurs in the text, counted by starting position. -/
def countOcc (pat : Str) : Str → Nat
  | [] => if (matchLit pat []).isSome then 1 else 0
  | c :: s => (if (matchLit pat (c :: s)).isSome then 1 else 0) + countOcc pat s

/-- Whether the pattern `{{\s*KEY\s*}}` matches somewhere in the text. -/
def hasPlaceholder (key : List Atom) : Str → Bool
  | [] => (matchPlaceholder key []).isSome
  | c :: s => (matchPlaceholder key (c :: s)).isSome || hasPlaceholder key s

/-- Whether no text of `r` holds a placeholder of a key of the data (every key
being in the covered fragment of the pattern syntax). -/
def noPlaceholderLeft (r : Rendered) (data : List (Str × JsValue)) : Bool :=
  data.all fun entry =>
    match compileKey entry.1 with
    | some key =>
      !hasPlaceholder key r.subject && !hasPlaceholder key r.html && !hasPlaceholder key r.text
    | none => false

/-- The placeholder `{{name}}` as it stands in a template. -/
def placeholder (name : Str) : Str := "\x7b\x7b".toList ++ name ++ "\x7d\x7d".toList

/-- A key without a character of the regular expression syntax. -/
def plainKey (key : Str) : Bool := key.all fun c => !isRegexSyntax c

/-- A placeholder name without white space and without braces. -/
def plainName (name : Str) : Bool :=
  name.all fun c => !isJsSpace c && c != Char.ofNat 123 && c != Char.ofNat 125

/-- Whether `p` holds at the text or at one of its tails. -/
def anyTail (p : Str → Bool) : Str → Bool
  | [] => p []
  | c :: s => p (c :: s) || anyTail p s

/-- Whether the text starts with `href=`, a quote and `http`, in any letter
case. -/
def hrefHttpAt (s : Str) : Bool :=
  match matchLitCI "href=".toList s with
  | some (q :: s2) => isQuote q && (matchLitCI "http".toList s2).isSome
  | _ => false

/-- Whether `<a` occurs in the text, in any letter case. -/
def hasAnchorOpen (s : Str) : Bool :=
  anyTail (fun t => (matchLitCI "<a".toList t).isSome) s

/-- An anchor tag whose first attribute is `href`: `<a`, white space, `href=`,
the quoted URL, the further attributes and `>`. -/
def hrefFirstAnchor (ws : Str) (q : Char) (url attrs : Str) : Str :=
  "<a".toList ++ ws ++ "href=".toList ++ q :: url ++ q :: attrs ++ ['>']

/-- Whether `EmailLog.create` takes the payload: `to` and `subject` are there. -/
def createAccepts (d : JobData) : Bool := d.recipient.isSome && d.subject.isSome

/-- The row that run number `i` of the handler leaves in `EmailLog`, read off
`processJob`: created as `sending`, then updated after the transport call;
`none` when `EmailLog.create` turns the payload down. -/
def attemptRow (cfg : Config) (transport : Nat → MailOptions → Except Str Str)
    (clock : Nat → Nat) (uuid : Nat → Str) (job : Job) (i : Nat) : Option EmailLog :=
  match job.data.recipient, job.data.subject with
  | some recipient, some subject =>
    let created : EmailLog :=
      { id := uuid i, recipient := recipient, subject := subject,
        status := Status.sending, jobId := job.id,
        metadata := job.data.metadata.getD [], messageId := none, sentAt := none,
        error := none }
    match transport i (mailOptionsFor cfg (uuid i) job.data) with
    | .ok messageId =>
      some { created with
             status := Status.sent, messageId := some messageId, sentAt := some (clock i) }
    | .error message => some { created with status := Status.failed, error := some message }
  | _, _ => none

/-- Whether run number `i` of the handler makes its transport call and ends in
the error of that call. -/
def attemptFails (cfg : Config) (transport : Nat → MailOptions → Except Str Str)
    (uuid : Nat → Str) (job : Job) (i : Nat) : Bool :=
  createAccepts job.data &&
    match transport i (mailOptionsFor cfg (uuid i) job.data) with
    | .ok _ => false
    | .error _ => true

/-- Whether run number `i` of the handler throws: `EmailLog.create` turns the
payload down, or the transport call fails. -/
def attemptThrows (cfg : Config) (transport : Nat → MailOptions → Except Str Str)
    (uuid : Nat → Str) (job : Job) (i : Nat) : Bool :=
  !createAccepts job.data || attemptFails cfg transport uuid job i

/-- The item that the controller `sendBulkEmails` hands to the service for
an email of the body. -/
def processedItem (req : Request) (templateId : Option Str) (email : EmailData) : EmailData :=
  { email with
    templateId := orElseStr email.templateId templateId
    metadata := some (requestMetadata (email.metadata.getD []) req) }

/-- An item that bulk admission turns down: it has no recipient, or its
template id (its own, else the batch-level one) does not resolve. -/
def inadmissible (store : Str → Option Template) (templateId : Option Str)
    (email : EmailData) : Bool :=
  !present email.recipient ||
    (present (orElseStr email.templateId templateId) &&
      (store ((orElseStr email.templateId templateId).getD [])).isNone)

/-- The template branch goes through for the item: its template, if any,
resolves and the rendering does not throw. -/
def admitted (rend : Renderer) (store : Str → Option Template) (email : EmailData) : Bool :=
  match applyTemplate rend store email with
  | .ok _ => true
  | .error _ => false

/-- The item of the body has a recipient, and the template branch goes
through for what the controller makes of it. -/
def validatedAndRendered (rend : Renderer) (store : Str → Option Template) (req : Request)
    (templateId : Option Str) (email : EmailData) : Bool :=
  present email.recipient && admitted rend store (processedItem req templateId email)

/-- The payload that `sendBulkEmails` enqueues for an item: the item after
the template branch, stamped with the batch id; `none` when the template
branch throws. -/
def stampedPayload (rend : Renderer) (store : Str → Option Template) (batchId : Str)
    (email : EmailData) : Option EmailData :=
  match applyTemplate rend store email with
  | .ok data =>
    some { data with
           metadata := some (setKey (data.metadata.getD []) "batchId".toList (.str batchId)) }
  | .error _ => none

/-- The single-email validation of the statement: no recipient, or no
subject and no template id, or neither text nor html and no template id. -/
def lacksRequired (body : EmailData) : Bool :=
  !present body.recipient || (!present body.subject && !present body.templateId) ||
    (!present body.text && !present body.html && !present body.templateId)

/-- The jobs that `addBulk` makes of the array `jobs`, numbered from `start`. -/
def numbered (start : Nat) : List (Str × EmailData) → List QueuedJob
  | [] => []
  | (name, data) :: rest => { id := start, name := name, data := data } :: numbered (start + 1) rest

/-- Calls of `handleOpen` for one tracking id, one after the other, each with
its own faults, instant and request: the stores after the last call, and
whether every call completed without error. -/
def handleOpenSeq (geoip : Str → Option Geo) (trackingId : Str) :
    List (Faults × Nat × Visit) → TrackingWorld → TrackingWorld × Bool
  | [], w => (w, true)
  | (faults, now, req) :: rest, w =>
    match emailService.handleOpen geoip faults now trackingId req w with
    | (w1, .ok _) => handleOpenSeq geoip trackingId rest w1
    | (w1, .error _) => ((handleOpenSeq geoip trackingId rest w1).1, false)

/-- An anchor tag with attributes before its `href`: `<a`, white space, the
attributes, white space, `href=`, the quoted URL, the further attributes and
`>`. -/
def attrsFirstAnchor (ws1 attrs ws2 : Str) (q : Char) (url rest : Str) : Str :=
  "<a".toList ++ ws1 ++ attrs ++ ws2 ++ "href=".toList ++ q :: url ++ q :: rest ++ ['>']

/-- The text before the first `</body>`; the whole text when there is none.
This is what stands before the tracking image after it was added. -/
def beforeBodyClose : Str → Str
  | [] => []
  | c :: s => if (matchLit bodyClose (c :: s)).isSome then [] else c :: beforeBodyClose s

/-- Whether the text starts with `href="http`, in any letter case, and holds
no quote character behind that: a URL in double quotes that the text leaves
open. -/
def openUrlAt (s : Str) : Bool :=
  hrefHttpAt s && (s.drop 5).head? == some (Char.ofNat 34) && !(s.drop 10).any isQuote

/-! ## Sample data -/

/-- A configuration for the examples: tracking of clicks off. -/
def cfgOff : Config :=
  { serverUrl := "http://localhost:3000".toList, trackClicks := false,
    fromDefault := "noreply@example.com".toList, replyToDefault := "noreply@example.com".toList }

/-- A configuration for the examples: the defaults of `config/email.js`. -/
def cfgOn : Config := { cfgOff with trackClicks := true }

/-- A tracking id for the examples. -/
def sampleId : Str := "123e4567-e89b-42d3-a456-426614174000".toList

/-- A small document with one closing body marker. -/
def sampleHtml : Str := "<html><body><p>hi</p></body></html>".toList

/-- A template that shows a count. -/
def countTemplate : Rendered :=
  { subject := "You have \x7b\x7bcount\x7d\x7d new messages".toList
    html := "<p>\x7b\x7b count \x7d\x7d</p>".toList
    text := "\x7b\x7bcount\x7d\x7d".toList }

/-- A template that greets by name. -/
def nameTemplate : Rendered :=
  { subject := "Hi \x7b\x7bname\x7d\x7d".toList
    html := "<p>\x7b\x7bname\x7d\x7d</p>".toList
    text := "\x7b\x7bname\x7d\x7d".toList }

/-- A template with one placeholder, `greeting`. -/
def greetingTemplate : Rendered :=
  { subject := "\x7b\x7bgreeting\x7d\x7d".toList
    html := "<p>\x7b\x7bgreeting\x7d\x7d</p>".toList
    text := "\x7b\x7bgreeting\x7d\x7d".toList }

/-- Template data whose `greeting` mentions the placeholder `name`. -/
def greetingData : List (Str × JsValue) :=
  [("name".toList, JsValue.str "Bob".toList),
   ("greeting".toList, JsValue.str "Hello \x7b\x7bname\x7d\x7d".toList)]

/-- A link whose URL holds an apostrophe inside double quotes. -/
def apostropheLink : Str := "<p><a href=\"http://x.com/it\x27s\">it</a></p>".toList

/-- A `mailto:` link whose `title` mentions another link. -/
def mailtoTag : Str :=
  "<a href=\"mailto:a@x.com\" title=\"or see href=\x27http://x.com\x27\">".toList

/-- A `mailto:` link with a plain `title`. -/
def plainMailtoBody : Str := " href=\"mailto:a@x.com\" title=\"write to us\"".toList

/-- An empty log table, counters at zero, nothing sent. -/
def emptyWorld : World := { logs := [], metrics := fun _ => 0, outbox := [] }

/-- The job of the specification's example: `<p>hi</p>` to `a@x.com`. -/
def sampleJob : Job :=
  { id := 7
    data :=
      { recipient := some "a@x.com".toList, subject := some "Hi".toList, text := none,
        html := some "<p>hi</p>".toList, cc := none, bcc := none, sender := none,
        replyTo := none, metadata := none } }

/-- A job whose payload holds a recipient and nothing else, as `POST /bulk`
admits it. -/
def bareJob : Job :=
  { id := 8
    data :=
      { recipient := some "ann@example.com".toList, subject := none, text := none,
        html := none, cc := none, bcc := none, sender := none, replyTo := none,
        metadata := none } }

/-- Html with an ordinary link. -/
def linkHtml : Str := "<p><a href=\"http://x.com\">x</a></p>".toList

/-- A job whose html is `linkHtml`. -/
def linkJob : Job :=
  { sampleJob with data := { sampleJob.data with html := some linkHtml } }

/-- Three tracking ids, one for each run of the handler. -/
def sampleUuid : Nat → Str
  | 0 => "123e4567-e89b-42d3-a456-426614174000".toList
  | 1 => "123e4567-e89b-42d3-a456-426614174001".toList
  | _ => "123e4567-e89b-42d3-a456-426614174002".toList

/-- The clock of the examples. -/
def sampleClock : Nat → Nat := fun i => 1000 + i

/-- A transport that refuses the first call and accepts the later ones. -/
def failFirst : Nat → MailOptions → Except Str Str :=
  fun i _ => if i = 0 then .error "ECONNREFUSED".toList else .ok "<m1@x.com>".toList

/-- A transport that refuses every call. -/
def failAlways : Nat → MailOptions → Except Str Str :=
  fun _ _ => .error "ECONNREFUSED".toList

/-- Html that ends inside the quoted URL of a link. -/
def unclosedLink : Str := "<p>see <a href=\"http://x.com".toList

/-- A job whose html is `unclosedLink`. -/
def unclosedLinkJob : Job :=
  { sampleJob with data := { sampleJob.data with html := some unclosedLink } }

/-- A transport that accepts every call. -/
def acceptAll : MailOptions → Except Str Str :=
  fun _ => .ok "<m1@x.com>".toList

/-- A request of the API user. -/
def sampleRequest : Request := { userId := some "api-user".toList, ip := "203.0.113.7".toList }

/-- A queue without jobs. -/
def emptyQueue : Queue := { jobs := [], nextId := 1 }

/-- A template with the three texts. -/
def welcomeTemplate : Template :=
  { subject := "Welcome, \x7b\x7bname\x7d\x7d!".toList
    html := "<p>Hello \x7b\x7bname\x7d\x7d</p>".toList
    text := some "Hello \x7b\x7bname\x7d\x7d".toList }

/-- A template created with a name, a subject and html, and no text. -/
def htmlOnlyTemplate : Template :=
  { subject := "Welcome, \x7b\x7bname\x7d\x7d!".toList
    html := "<p>Hello \x7b\x7bname\x7d\x7d</p>".toList
    text := none }

/-- The id of `welcomeTemplate` in `sampleStore`. -/
def welcomeId : Str := "0b0e7a52-6f0c-4c3e-9d59-1f2f4a7c9e11".toList

/-- The id of `htmlOnlyTemplate` in `sampleStore`. -/
def htmlOnlyId : Str := "5d2c9f08-3a41-4b7e-8c66-7e90a1b2c3d4".toList

/-- A template table with two rows. -/
def sampleStore : Str → Option Template := fun id =>
  if id = welcomeId then some welcomeTemplate
  else if id = htmlOnlyId then some htmlOnlyTemplate
  else none

/-- A rendering function that leaves the template as it is. In the examples
it fills the parameter of `renderLoop` for keys outside the covered pattern
syntax; the examples hold no such key. -/
def keepTemplate : Renderer := fun template _ => .ok template

/-- An email object with a recipient and nothing else. -/
def bareEmail (recipient : Str) : EmailData :=
  { recipient := some recipient, subject := none, text := none, html := none, cc := none,
    bcc := none, templateId := none, templateData := none, metadata := none }

/-- An email object with recipient, subject and text. -/
def plainEmail (recipient : Str) : EmailData :=
  { bareEmail recipient with subject := some "Hi".toList, text := some "Hello".toList }

/-- A submission that names the template without text and gives data for it. -/
def htmlOnlySubmission : EmailData :=
  { bareEmail "ann@example.com".toList with
    templateId := some htmlOnlyId
    templateData := some [("name".toList, .str "Ann".toList)] }

/-- A batch of three emails, the second one without recipient. -/
def batchWithGap : List EmailData :=
  [plainEmail "ann@example.com".toList,
   { plainEmail [] with recipient := none },
   plainEmail "cy@example.com".toList]

/-- A batch of two emails, the first with metadata that holds a batch id of
the caller. -/
def sampleBatch : List EmailData :=
  [{ plainEmail "ann@example.com".toList with
     metadata := some [("batchId".toList, .str "mine".toList), ("campaign".toList, .num 7)] },
   { bareEmail "bob@example.com".toList with
     templateId := some welcomeId
     templateData := some [("name".toList, .str "Bob".toList)] }]

/-- No call fails. -/
def noFaults : Faults :=
  { lookup := false, resolve := false, update := false, counter := fun _ => false }

/-- Every call fails. -/
def allFaults : Faults :=
  { lookup := true, resolve := true, update := true, counter := fun _ => true }

/-- A geo database that knows one address. -/
def sampleGeo : Str → Option Geo := fun ip =>
  if ip = "203.0.113.7".toList then
    some { country := "KE".toList, region := "30".toList, city := "Nairobi".toList }
  else none

/-- A request from the address that `sampleGeo` knows. -/
def sampleVisit : Visit :=
  { ip := "203.0.113.7".toList, forwardedFor := none, userAgent := some "Mozilla/5.0".toList }

/-- The entry of a mail that was sent and not opened yet. -/
def sampleEntry : TrackedLog :=
  { id := sampleId, status := Status.sent, openedAt := none, openCount := 0, clickAt := none,
    clickCount := 0, clickUrls := [], ipAddress := none, country := none, region := none,
    city := none, metadata := [("userId".toList, "api-user".toList)], clickDetails := none }

/-- The stores with `sampleEntry` and all counters at zero. -/
def sampleTracking : TrackingWorld :=
  { logs := [sampleEntry], metrics := fun _ => 0, clicksByCountry := fun _ => 0,
    clicksByUrl := fun _ => 0 }

/-- An id that `sampleTracking` does not hold. -/
def unknownId : Str := "00000000-0000-4000-8000-000000000000".toList

/-- The query value of a link to `https://a.example/one`. -/
def firstUrl : Str := "https%3A%2F%2Fa.example%2Fone".toList

/-- The query value of a link to `https://a.example/two`. -/
def secondUrl : Str := "https%3A%2F%2Fa.example%2Ftwo".toList

/-- A query value with a bare percent sign, as the query parser hands it over
for a link to `https://a.example/?off=100%`. -/
def malformedUrl : Str := "https://a.example/?off=100%".toList

/-- Three opens without fault, one after the other. -/
def threeOpens : List (Faults × Nat × Visit) :=
  [(noFaults, 1000, sampleVisit), (noFaults, 2000, sampleVisit), (noFaults, 3000, sampleVisit)]

/-- The entry `sampleEntry` after a click from `sampleVisit` at the instant
`now` on a link to `url`, as `handleClick` leaves it. -/
def clickedEntry (now : Nat) (url : Str) : TrackedLog :=
  { sampleEntry with
    status := Status.clicked
    ipAddress := some "203.0.113.7".toList
    country := some "KE".toList
    region := some "30".toList
    city := some "Nairobi".toList
    clickDetails := some
      { timestamp := now, url := url, ip := some "203.0.113.7".toList,
        userAgent := some "Mozilla/5.0".toList } }

/-- Two calls of `handleOpen` that have not started yet. -/
def twoCalls : List OpenCall :=
  [{ now := 1000, req := sampleVisit, stage := .start },
   { now := 1001, req := sampleVisit, stage := .start }]

/-- Three calls of `handleOpen` that have not started yet. -/
def threeCalls : List OpenCall :=
  [{ now := 1000, req := sampleVisit, stage := .start },
   { now := 1001, req := sampleVisit, stage := .start },
   { now := 1002, req := sampleVisit, stage := .start }]

/-- The rows of the query grouped by status for a log of three entries, all
of them sent. -/
def sentRows : List (Str × Nat) := [("sent".toList, 3)]

/-- A queue without jobs in any state. -/
def idleCounts : JobCounts :=
  { waiting := 0, active := 0, completed := 0, failed := 0, delayed := 0, paused := 0 }

/-- A link target with a percent escape of its own. -/
def escapedUrl : Str := "http://a.example/a%20b".toList

/-- A document with one link, to `escapedUrl`. -/
def escapedLink : Str := "<a href=\"http://a.example/a%20b\">x</a>".toList

/-- A link whose `title`, before the `href`, holds a `>`. -/
def gtTitleLink : Str := "<a title=\"a>b\" href=\"http://x.com\">x</a>".toList

/-- A link with a `class` before the `href`, whose URL is the four letters
`http`. -/
def bareHttpLink : Str := "<a class=\"x\" href=\"http\">x</a>".toList

/-- A configuration whose server URL holds the pattern `$&`. -/
def dollarConfig : Config := { cfgOff with serverUrl := "http://h/$&".toList }

/-- A link target whose query value holds an escaped `&`. -/
def ampersandUrl : Str := "http://a.example/?q=a%26b".toList

/-! ## Lemmas on the string primitives -/

theorem matchLit_eq_some {p s r : Str} : matchLit p s = some r ↔ s = p ++ r := by
  induction p generalizing s with
  | nil => simp [matchLit, eq_comm]
  | cons a p ih =>
    cases s with
    | nil => simp [matchLit]
    | cons c s =>
      by_cases h : a = c
      · subst h; simp [matchLit, ih]
      · simp only [matchLit, h, if_false, List.cons_append, List.cons.injEq]
        constructor
        · intro h1; cases h1
        · rintro ⟨h1, -⟩; exact absurd h1.symm h

theorem matchLit_append (p r : Str) : matchLit p (p ++ r) = some r :=
  matchLit_eq_some.2 rfl

theorem getSubstitution_of_no_dollar (m b a : Str) :
    ∀ r : Str, (∀ c ∈ r, c ≠ '$') → getSubstitution m b a r = r
  | [], _ => rfl
  | [_], _ => rfl
  | c :: d :: r, h => by
    have hc : c ≠ '$' := h c (by simp)
    have ih := getSubstitution_of_no_dollar m b a (d :: r) (fun x hx => h x (by simp [hx]))
    rw [getSubstitution, if_neg hc, ih]

theorem includes_iff {pat s : Str} :
    includes pat s = true ↔ ∃ pre post, s = pre ++ pat ++ post := by
  induction s with
  | nil =>
    simp only [includes, Option.isSome_iff_exists, matchLit_eq_some]
    constructor
    · rintro ⟨r, h⟩; exact ⟨[], r, by simpa using h⟩
    · rintro ⟨pre, post, h⟩
      have h1 : pre = [] ∧ pat = [] ∧ post = [] := by simpa [and_assoc] using h.symm
      exact ⟨[], by simp [h1.2.1]⟩
  | cons c s ih =>
    simp only [includes, Bool.or_eq_true, Option.isSome_iff_exists, matchLit_eq_some, ih]
    constructor
    · rintro (⟨r, h⟩ | ⟨pre, post, h⟩)
      · exact ⟨[], r, by simpa using h⟩
      · exact ⟨c :: pre, post, by simp [h]⟩
    · rintro ⟨pre, post, h⟩
      cases pre with
      | nil => exact Or.inl ⟨post, by simpa using h⟩
      | cons a pre =>
        simp only [List.cons_append, List.cons.injEq] at h
        exact Or.inr ⟨pre, post, h.2⟩

/-- What `replaceFirst` does when the pattern occurs: it splits the text at the
first occurrence and puts the expanded replacement in its place. -/
theorem replaceFirst_spec (pat repl : Str) :
    ∀ (s before : Str), includes pat s = true →
      ∃ pre post, s = pre ++ pat ++ post ∧
        (∀ pre1 post1, s = pre1 ++ pat ++ post1 → pre.length ≤ pre1.length) ∧
        replaceFirst pat repl before s =
          pre ++ getSubstitution pat (before.reverse ++ pre) post repl ++ post
  | [], before, h => by
    simp only [includes, Option.isSome_iff_exists] at h
    obtain ⟨r, hr⟩ := h
    have h2 := matchLit_eq_some.1 hr
    refine ⟨[], r, by simpa using h2, fun _ _ _ => Nat.zero_le _, ?_⟩
    simp [replaceFirst, hr]
  | c :: s, before, h => by
    cases hm : matchLit pat (c :: s) with
    | some rest =>
      have h2 := matchLit_eq_some.1 hm
      refine ⟨[], rest, by simpa using h2, fun _ _ _ => Nat.zero_le _, ?_⟩
      simp [replaceFirst, hm]
    | none =>
      have h3 : includes pat s = true := by simpa [includes, hm] using h
      obtain ⟨pre, post, hs, hmin, hrep⟩ := replaceFirst_spec pat repl s (c :: before) h3
      refine ⟨c :: pre, post, by simp [hs], ?_, ?_⟩
      · intro pre1 post1 h4
        cases pre1 with
        | nil =>
          have : matchLit pat (c :: s) = some post1 := matchLit_eq_some.2 (by simpa using h4)
          rw [hm] at this; cases this
        | cons a pre1 =>
          simp only [List.cons_append, List.cons.injEq] at h4
          simpa using hmin pre1 post1 h4.2
      · simp [replaceFirst, hm, hrep]

theorem mem_of_isUuid {id : Str} (h : isUuid id = true) {c : Char} (hc : c ∈ id) :
    c = '-' ∨ (48 ≤ c.toNat ∧ c.toNat ≤ 57) ∨ (97 ≤ c.toNat ∧ c.toNat ≤ 102) := by
  obtain ⟨i, hi, rfl⟩ := List.mem_iff_getElem.1 hc
  simp only [isUuid, Bool.and_eq_true, beq_iff_eq, List.all_eq_true, List.mem_range] at h
  have h1 := h.2 i (by omega)
  rw [List.get?_eq_getElem?, List.getElem?_eq_getElem hi] at h1
  simp only at h1
  split at h1
  · exact Or.inl (by simpa using h1)
  · simp only [Bool.or_eq_true, Bool.and_eq_true, decide_eq_true_eq] at h1
    exact Or.inr h1

theorem isUuid_ne {id : Str} (h : isUuid id = true) {c : Char} (hc : c ∈ id) :
    c ≠ '$' ∧ c ≠ '<' := by
  rcases mem_of_isUuid h hc with h1 | h1 | h1
  · subst h1; decide
  · constructor <;> (intro h2; subst h2; revert h1; decide)
  · constructor <;> (intro h2; subst h2; revert h1; decide)

/-- The tracking image holds no `$` when the server URL and the id hold none. -/
theorem trackingPixel_no_dollar (cfg : Config) (id : Str)
    (hurl : ∀ c ∈ cfg.serverUrl, c ≠ '$') (hid : ∀ c ∈ id, c ≠ '$') :
    ∀ c ∈ trackingPixel cfg id ++ bodyClose, c ≠ '$' := by
  intro c hc
  simp only [trackingPixel, bodyClose, List.mem_append] at hc
  rcases hc with ((((hc | hc) | hc) | hc) | hc) | hc
  · intro h; subst h; revert hc; decide
  · exact hurl c hc
  · intro h; subst h; revert hc; decide
  · exact hid c hc
  · intro h; subst h; revert hc; decide
  · intro h; subst h; revert hc; decide

/-- With a body marker, the tracking image goes right before the first one. -/
theorem withPixel_of_includes (cfg : Config) (html id : Str)
    (hurl : ∀ c ∈ cfg.serverUrl, c ≠ '$') (hid : ∀ c ∈ id, c ≠ '$')
    (h : includes bodyClose html = true) :
    ∃ pre post, html = pre ++ bodyClose ++ post ∧
      (∀ pre1 post1, html = pre1 ++ bodyClose ++ post1 → pre.length ≤ pre1.length) ∧
      withPixel cfg html id = pre ++ trackingPixel cfg id ++ bodyClose ++ post := by
  obtain ⟨pre, post, h1, h2, h3⟩ :=
    replaceFirst_spec bodyClose (trackingPixel cfg id ++ bodyClose) html [] h
  refine ⟨pre, post, h1, h2, ?_⟩
  rw [withPixel, if_pos h, h3,
    getSubstitution_of_no_dollar _ _ _ _ (trackingPixel_no_dollar cfg id hurl hid)]
  simp

theorem bodyClose_eq : bodyClose = ['<', '/', 'b', 'o', 'd', 'y', '>'] := rfl

/-- An occurrence of `</body>` that starts before a `<` does not reach it, so
whether there is one does not depend on what follows that `<`. -/
theorem matchLit_bodyClose_before_lt (u t t1 : Str) (hu : u ≠ [])
    (h : matchLit bodyClose (u ++ '<' :: t) = none) :
    matchLit bodyClose (u ++ '<' :: t1) = none := by
  rw [bodyClose_eq] at h ⊢
  rcases u with _ | ⟨a1, _ | ⟨a2, _ | ⟨a3, _ | ⟨a4, _ | ⟨a5, _ | ⟨a6, _ | ⟨a7, u⟩⟩⟩⟩⟩⟩⟩
  · exact absurd rfl hu
  all_goals
    simp only [matchLit, List.cons_append, List.nil_append] at h ⊢
    repeat' split
    all_goals first | rfl | (simp_all <;> tauto)

theorem replaceFirst_skip (pat repl : Str) :
    ∀ (a before y : Str), (∀ u v, a = u ++ v → v ≠ [] → matchLit pat (v ++ y) = none) →
      replaceFirst pat repl before (a ++ y) = a ++ replaceFirst pat repl (a.reverse ++ before) y
  | [], before, y, _ => by simp
  | c :: a, before, y, h => by
    have h1 : matchLit pat (c :: (a ++ y)) = none := h [] (c :: a) rfl (by simp)
    have ih := replaceFirst_skip pat repl a (c :: before) y
      (fun u v huv hv => h (c :: u) v (by simp [huv]) hv)
    simp [replaceFirst, h1, ih]

theorem matchLit_bodyClose_of_ne (c : Char) (s : Str) (hc : c ≠ '<') :
    matchLit bodyClose (c :: s) = none := by
  rw [bodyClose_eq]
  simp [matchLit, Ne.symm hc]

theorem trackingPixel_shape (cfg : Config) (id : Str)
    (hurl : ∀ c ∈ cfg.serverUrl, c ≠ '<') (hid : ∀ c ∈ id, c ≠ '<') :
    ∃ r, trackingPixel cfg id = '<' :: r ∧ (∃ r1, r = 'i' :: r1) ∧ ∀ c ∈ r, c ≠ '<' := by
  refine ⟨"img src=\"".toList ++ cfg.serverUrl ++ "/api/email/tracking/open/".toList ++ id ++
    "\" width=\"1\" height=\"1\" alt=\"\" style=\"display:none;\">".toList, rfl, ⟨_, rfl⟩, ?_⟩
  intro c hc
  simp only [List.mem_append] at hc
  rcases hc with (((hc | hc) | hc) | hc) | hc
  · intro h; subst h; revert hc; decide
  · exact hurl c hc
  · intro h; subst h; revert hc; decide
  · exact hid c hc
  · intro h; subst h; revert hc; decide

theorem matchLit_bodyClose_pixel (cfg : Config) (id t : Str)
    (hurl : ∀ c ∈ cfg.serverUrl, c ≠ '<') (hid : ∀ c ∈ id, c ≠ '<') :
    matchLit bodyClose (trackingPixel cfg id ++ t) = none := by
  obtain ⟨r, hr, ⟨r1, hr2⟩, -⟩ := trackingPixel_shape cfg id hurl hid
  rw [hr, hr2, bodyClose_eq]
  simp [matchLit]

/-- The second application: the new image goes between the first image and the
body marker. -/
theorem withPixel_after_pixel (cfg : Config) (pre post id : Str)
    (hurl : ∀ c ∈ cfg.serverUrl, c ≠ '$' ∧ c ≠ '<') (hid : ∀ c ∈ id, c ≠ '$' ∧ c ≠ '<')
    (hmin : ∀ pre1 post1, pre ++ bodyClose ++ post = pre1 ++ bodyClose ++ post1 →
      pre.length ≤ pre1.length) :
    withPixel cfg (pre ++ trackingPixel cfg id ++ bodyClose ++ post) id =
      pre ++ trackingPixel cfg id ++ trackingPixel cfg id ++ bodyClose ++ post := by
  have hurl1 : ∀ c ∈ cfg.serverUrl, c ≠ '<' := fun c hc => (hurl c hc).2
  have hid1 : ∀ c ∈ id, c ≠ '<' := fun c hc => (hid c hc).2
  have hinc : includes bodyClose (pre ++ trackingPixel cfg id ++ bodyClose ++ post) = true :=
    includes_iff.2 ⟨pre ++ trackingPixel cfg id, post, rfl⟩
  obtain ⟨r, hr, -, hr1⟩ := trackingPixel_shape cfg id hurl1 hid1
  have hskip : ∀ u v, pre ++ trackingPixel cfg id = u ++ v → v ≠ [] →
      matchLit bodyClose (v ++ (bodyClose ++ post)) = none := by
    intro u v huv hv
    rcases List.append_eq_append_iff.1 huv with ⟨w, hw1, hw2⟩ | ⟨w, hw1, hw2⟩
    · -- the position lies in the image
      cases w with
      | nil =>
        have h1 : v = trackingPixel cfg id := by simpa using hw2.symm
        rw [h1]
        exact matchLit_bodyClose_pixel cfg id _ hurl1 hid1
      | cons x w =>
        cases v with
        | nil => exact absurd rfl hv
        | cons c v =>
          have h1 : w ++ c :: v = r := by
            have h2 : x :: (w ++ c :: v) = '<' :: r := by rw [← hr, hw2]; simp
            exact (List.cons.inj h2).2
          have hc : c ∈ r := by rw [← h1]; simp
          exact matchLit_bodyClose_of_ne c _ (hr1 c hc)
    · -- the position lies before the image
      by_cases hw : w = []
      · subst hw
        have h1 : v = trackingPixel cfg id := by simpa using hw2
        rw [h1]
        exact matchLit_bodyClose_pixel cfg id _ hurl1 hid1
      · have hb : bodyClose ++ post = '<' :: ("/body>".toList ++ post) := rfl
        have h1 : matchLit bodyClose (w ++ '<' :: ("/body>".toList ++ post)) = none := by
          cases hm : matchLit bodyClose (w ++ '<' :: ("/body>".toList ++ post)) with
          | none => rfl
          | some rest =>
            exfalso
            have h2 := matchLit_eq_some.1 hm
            have h3 := hmin u rest (by
              rw [hw1]
              simp only [List.append_assoc, hb, h2])
            have h4 := congrArg List.length hw1
            have h5 : 0 < w.length := List.length_pos.2 hw
            simp only [List.length_append] at h4
            omega
        have h4 := matchLit_bodyClose_before_lt w _ (r ++ (bodyClose ++ post)) hw h1
        rw [hw2, hr]
        simpa using h4
  have h6 := replaceFirst_skip bodyClose (trackingPixel cfg id ++ bodyClose)
    (pre ++ trackingPixel cfg id) [] (bodyClose ++ post) hskip
  have h7 : ∀ before, replaceFirst bodyClose (trackingPixel cfg id ++ bodyClose) before
      (bodyClose ++ post) = trackingPixel cfg id ++ bodyClose ++ post := by
    intro before
    have hb : bodyClose ++ post = '<' :: ("/body>".toList ++ post) := rfl
    have hm : matchLit bodyClose ('<' :: ("/body>".toList ++ post)) = some post := by
      rw [← hb]; exact matchLit_append _ _
    rw [hb, replaceFirst, hm]
    simp only
    rw [getSubstitution_of_no_dollar _ _ _ _ (trackingPixel_no_dollar cfg id
      (fun c hc => (hurl c hc).1) (fun c hc => (hid c hc).1))]
  rw [withPixel, if_pos hinc]
  have h8 : pre ++ trackingPixel cfg id ++ bodyClose ++ post =
      pre ++ trackingPixel cfg id ++ (bodyClose ++ post) := by simp
  rw [h8, h6, h7]
  simp

theorem countOcc_append_ge (pat a s : Str) : countOcc pat s ≤ countOcc pat (a ++ s) := by
  induction a with
  | nil => exact Nat.le_refl _
  | cons c a ih =>
    rw [List.cons_append, countOcc]
    omega

theorem countOcc_pat_append (pat s : Str) (hp : pat ≠ []) :
    countOcc pat s + 1 ≤ countOcc pat (pat ++ s) := by
  cases pat with
  | nil => exact absurd rfl hp
  | cons c p =>
    have h1 : matchLit (c :: p) (c :: (p ++ s)) = some s := matchLit_append (c :: p) s
    have h2 := countOcc_append_ge (c :: p) p s
    rw [List.cons_append, countOcc, h1]
    simp only [Option.isSome_some, if_true]
    omega

/-! ## The worker -/

theorem findByPk_eq_none {logs : List EmailLog} {id : Str} :
    findByPk logs id = none ↔ ∀ e ∈ logs, e.id ≠ id := by
  simp [findByPk]

theorem updateLog_fresh (logs : List EmailLog) (e : EmailLog) (f : EmailLog → EmailLog)
    (h : findByPk logs e.id = none) :
    updateLog (logs ++ [e]) e.id f = logs ++ [f e] := by
  have h1 := findByPk_eq_none.1 h
  simp only [updateLog, List.map_append, List.map_cons, List.map_nil, if_true]
  congr 1
  calc logs.map (fun x => if x.id = e.id then f x else x) = logs.map id :=
        List.map_congr_left (fun x hx => by simp [h1 x hx])
    _ = logs := List.map_id logs

/-- A payload without `to` or without `subject`: the run throws before the
`try` and leaves the stores as they were. -/
theorem processJob_rejected (cfg : Config) (transport : MailOptions → Except Str Str)
    (now : Nat) (id : Str) (job : Job) (w : World) (h : createAccepts job.data = false) :
    processJob cfg transport now id job w = (w, .error "SequelizeValidationError".toList) := by
  unfold processJob
  cases hr : job.data.recipient with
  | none => rfl
  | some recipient =>
    cases hs : job.data.subject with
    | none => rfl
    | some subject => simp [createAccepts, hr, hs] at h

/-- One run of the handler under a fresh tracking id: when `EmailLog.create`
takes the payload one row is added, the mail is handed to the transport, and
one counter moves; otherwise nothing changes and the run throws. -/
theorem processJob_fresh (cfg : Config) (transport : Nat → MailOptions → Except Str Str)
    (clock : Nat → Nat) (uuid : Nat → Str) (job : Job) (i : Nat) (w : World)
    (h : findByPk w.logs (uuid i) = none) :
    (processJob cfg (transport i) (clock i) (uuid i) job w).1.logs =
      w.logs ++ (attemptRow cfg transport clock uuid job i).toList ∧
    (processJob cfg (transport i) (clock i) (uuid i) job w).1.outbox =
      w.outbox ++
        (if createAccepts job.data then [mailOptionsFor cfg (uuid i) job.data] else []) ∧
    (processJob cfg (transport i) (clock i) (uuid i) job w).1.metrics "failed" =
      w.metrics "failed" + (if attemptFails cfg transport uuid job i then 1 else 0) ∧
    (processJob cfg (transport i) (clock i) (uuid i) job w).1.metrics "sent" =
      w.metrics "sent" + (if attemptThrows cfg transport uuid job i then 0 else 1) ∧
    ((processJob cfg (transport i) (clock i) (uuid i) job w).2.toBool =
      !attemptThrows cfg transport uuid job i) := by
  cases hr : job.data.recipient with
  | none =>
    simp [processJob, hr, attemptRow, attemptFails, attemptThrows, createAccepts, Except.toBool]
  | some recipient =>
    cases hs : job.data.subject with
    | none =>
      simp [processJob, hr, hs, attemptRow, attemptFails, attemptThrows, createAccepts,
        Except.toBool]
    | some subject =>
      cases ht : transport i (mailOptionsFor cfg (uuid i) job.data) with
      | ok m =>
        simp only [processJob, hr, hs, h, Option.isSome_none, Bool.false_eq_true, if_false,
          attemptRow, attemptFails, attemptThrows, createAccepts, ht, Option.isSome_some,
          Bool.and_self, Bool.not_true, Bool.or_self, Bool.and_false, if_true, Option.toList]
        refine ⟨updateLog_fresh w.logs _ _ h, ?_, ?_, ?_, ?_⟩ <;>
          first | trivial | rfl | simp [hincrby, Except.toBool]
      | error msg =>
        simp only [processJob, hr, hs, h, Option.isSome_none, Bool.false_eq_true, if_false,
          attemptRow, attemptFails, attemptThrows, createAccepts, ht, Option.isSome_some,
          Bool.and_self, Bool.not_true, Bool.or_self, Bool.false_or, if_true, Option.toList]
        refine ⟨updateLog_fresh w.logs _ _ h, ?_, ?_, ?_, ?_⟩ <;>
          first | trivial | rfl | simp [hincrby, Except.toBool]

theorem runAttempts_succ (cfg : Config) (transport : Nat → MailOptions → Except Str Str)
    (clock : Nat → Nat) (uuid : Nat → Str) (job : Job) (n a : Nat) (w : World) :
    runAttempts cfg transport clock uuid job (n + 1) a w =
      if (processJob cfg (transport a) (clock a) (uuid a) job w).2.toBool then
        ((processJob cfg (transport a) (clock a) (uuid a) job w).1, a + 1)
      else
        runAttempts cfg transport clock uuid job n (a + 1)
          (processJob cfg (transport a) (clock a) (uuid a) job w).1 := by
  rw [runAttempts]
  rcases processJob cfg (transport a) (clock a) (uuid a) job w with ⟨w1, e | m⟩ <;>
    simp [Except.toBool]

theorem attemptRow_id (cfg : Config) (transport : Nat → MailOptions → Except Str Str)
    (clock : Nat → Nat) (uuid : Nat → Str) (job : Job) (i : Nat) (e : EmailLog)
    (h : attemptRow cfg transport clock uuid job i = some e) :
    e.id = uuid i ∧ e.jobId = job.id := by
  unfold attemptRow at h
  split at h
  · split at h <;> (cases h; exact ⟨rfl, rfl⟩)
  · cases h

theorem attemptRow_isSome (cfg : Config) (transport : Nat → MailOptions → Except Str Str)
    (clock : Nat → Nat) (uuid : Nat → Str) (job : Job) (i : Nat) :
    (attemptRow cfg transport clock uuid job i).isSome = createAccepts job.data := by
  unfold attemptRow createAccepts
  cases hr : job.data.recipient with
  | none => rfl
  | some recipient =>
    cases hs : job.data.subject with
    | none => rfl
    | some subject =>
      simp only [Option.isSome_some, Bool.and_self]
      cases transport i (mailOptionsFor cfg (uuid i) job.data) <;> rfl

/-- What the queue leaves behind for one job: the row of each run of the
handler in which `EmailLog.create` took the payload, and one step of the
`failed` counter for each run whose transport call failed. -/
theorem runAttempts_spec (cfg : Config) (transport : Nat → MailOptions → Except Str Str)
    (clock : Nat → Nat) (uuid : Nat → Str) (job : Job) :
    ∀ (n a : Nat) (w : World),
      (∀ i j, i < a + n → j < a + n → uuid i = uuid j → i = j) →
      (∀ i, a ≤ i → i < a + n → findByPk w.logs (uuid i) = none) →
      a ≤ (runAttempts cfg transport clock uuid job n a w).2 ∧
      (runAttempts cfg transport clock uuid job n a w).2 ≤ a + n ∧
      (0 < n → a < (runAttempts cfg transport clock uuid job n a w).2) ∧
      (runAttempts cfg transport clock uuid job n a w).1.logs =
        w.logs ++
          (List.range' a ((runAttempts cfg transport clock uuid job n a w).2 - a)).filterMap
            (attemptRow cfg transport clock uuid job) ∧
      (runAttempts cfg transport clock uuid job n a w).1.metrics "failed" =
        w.metrics "failed" +
          ((List.range' a ((runAttempts cfg transport clock uuid job n a w).2 - a)).countP
            (attemptFails cfg transport uuid job) : Nat) ∧
      ((∀ i, a ≤ i → i < a + n → attemptThrows cfg transport uuid job i = true) →
        (runAttempts cfg transport clock uuid job n a w).2 = a + n)
  | 0, a, w, _, _ => by simp [runAttempts]
  | n + 1, a, w, hinj, hfresh => by
    obtain ⟨h1, -, h3, -, h5⟩ :=
      processJob_fresh cfg transport clock uuid job a w (hfresh a (Nat.le_refl a) (by omega))
    rw [runAttempts_succ, h5]
    cases hf : attemptThrows cfg transport uuid job a with
    | false =>
      have hff : attemptFails cfg transport uuid job a = false := by
        simp only [attemptThrows, Bool.or_eq_false_iff] at hf
        exact hf.2
      simp only [Bool.not_false, if_true]
      refine ⟨by omega, by omega, fun _ => by omega, ?_, ?_, ?_⟩
      · rw [h1]
        cases hrow : attemptRow cfg transport clock uuid job a <;>
          simp [List.filterMap_cons, hrow]
      · rw [h3, hff]; simp [hff]
      · intro hall
        have := hall a (Nat.le_refl a) (by omega)
        rw [hf] at this; cases this
    | true =>
      simp only [Bool.not_true, Bool.false_eq_true, if_false]
      have hfresh1 : ∀ i, a + 1 ≤ i → i < a + 1 + n →
          findByPk (processJob cfg (transport a) (clock a) (uuid a) job w).1.logs (uuid i)
            = none := by
        intro i hi1 hi2
        rw [h1, findByPk_eq_none]
        intro e he
        rcases List.mem_append.1 he with he | he
        · exact findByPk_eq_none.1 (hfresh i (by omega) (by omega)) e he
        · have he1 : attemptRow cfg transport clock uuid job a = some e := by
            simpa [Option.mem_toList] using he
          rw [(attemptRow_id cfg transport clock uuid job a e he1).1]
          intro h
          have := hinj a i (by omega) (by omega) h
          omega
      obtain ⟨i1, i2, i3, i4, i5, i6⟩ := runAttempts_spec cfg transport clock uuid job n (a + 1)
        (processJob cfg (transport a) (clock a) (uuid a) job w).1
        (fun i j hi hj => hinj i j (by omega) (by omega)) hfresh1
      have hr : (runAttempts cfg transport clock uuid job n (a + 1)
          (processJob cfg (transport a) (clock a) (uuid a) job w).1).2 - a =
          ((runAttempts cfg transport clock uuid job n (a + 1)
          (processJob cfg (transport a) (clock a) (uuid a) job w).1).2 - (a + 1)) + 1 := by
        omega
      refine ⟨by omega, by omega, fun _ => by omega, ?_, ?_, ?_⟩
      · rw [i4, h1, hr, List.range'_succ]
        cases hrow : attemptRow cfg transport clock uuid job a <;>
          simp [List.filterMap_cons, hrow]
      · rw [i5, h3, hr, List.range'_succ]
        cases hff : attemptFails cfg transport uuid job a with
        | false => simp [hff]
        | true => simp [hff]; omega
      · intro hall
        rw [i6 (fun i hi1 hi2 => hall i (by omega) (by omega))]
        omega

theorem runJob_spec (cfg : Config) (transport : Nat → MailOptions → Except Str Str)
    (clock : Nat → Nat) (uuid : Nat → Str) (job : Job) (w : World)
    (hinj : ∀ i j, i < maxAttempts → j < maxAttempts → uuid i = uuid j → i = j)
    (hfresh : ∀ i, i < maxAttempts → findByPk w.logs (uuid i) = none) :
    1 ≤ (runJob cfg transport clock uuid job w).2 ∧
    (runJob cfg transport clock uuid job w).2 ≤ maxAttempts ∧
    (runJob cfg transport clock uuid job w).1.logs =
      w.logs ++ (List.range (runJob cfg transport clock uuid job w).2).filterMap
        (attemptRow cfg transport clock uuid job) ∧
    (runJob cfg transport clock uuid job w).1.metrics "failed" =
      w.metrics "failed" +
        ((List.range (runJob cfg transport clock uuid job w).2).countP
          (attemptFails cfg transport uuid job) : Nat) ∧
    ((∀ i, i < maxAttempts → attemptThrows cfg transport uuid job i = true) →
      (runJob cfg transport clock uuid job w).2 = maxAttempts) := by
  obtain ⟨-, h2, h3, h4, h5, h6⟩ := runAttempts_spec cfg transport clock uuid job maxAttempts 0 w
    (fun i j hi hj => hinj i j (by omega) (by omega))
    (fun i _ hi => hfresh i (by omega))
  simp only [Nat.zero_add, Nat.sub_zero, ← List.range_eq_range'] at h2 h3 h4 h5 h6
  exact ⟨h3 (by decide), h2, h4, h5, fun hall => h6 (fun i _ hi => hall i hi)⟩

/-- A job whose payload `EmailLog.create` turns down: every run throws, the
queue makes all its attempts, and the stores stay as they were. -/
theorem runAttempts_rejected (cfg : Config) (transport : Nat → MailOptions → Except Str Str)
    (clock : Nat → Nat) (uuid : Nat → Str) (job : Job) (h : createAccepts job.data = false) :
    ∀ (n a : Nat) (w : World), runAttempts cfg transport clock uuid job n a w = (w, a + n)
  | 0, a, w => by simp [runAttempts]
  | n + 1, a, w => by
    rw [runAttempts, processJob_rejected cfg _ _ _ job w h]
    simp only
    rw [runAttempts_rejected cfg transport clock uuid job h n (a + 1) w]
    congr 1
    omega

/-- With `to` and `subject` in the payload every run leaves a row. -/
theorem filterMap_attemptRow_length (cfg : Config)
    (transport : Nat → MailOptions → Except Str Str) (clock : Nat → Nat) (uuid : Nat → Str)
    (job : Job) (h : createAccepts job.data = true) (l : List Nat) :
    (l.filterMap (attemptRow cfg transport clock uuid job)).length = l.length := by
  induction l with
  | nil => rfl
  | cons i l ih =>
    have h1 := attemptRow_isSome cfg transport clock uuid job i
    rw [h] at h1
    obtain ⟨e, he⟩ := Option.isSome_iff_exists.1 h1
    simp [List.filterMap_cons, he, ih]

theorem sampleUuid_injective :
    ∀ i j, i < maxAttempts → j < maxAttempts → sampleUuid i = sampleUuid j → i = j := by
  intro i j hi hj
  simp only [maxAttempts] at hi hj
  interval_cases i <;> interval_cases j <;> decide

/-- With click tracking off the result holds the tracking image. -/
theorem withPixel_contains (cfg : Config) (html id : Str)
    (hurl : ∀ c ∈ cfg.serverUrl, c ≠ '$') (hid : ∀ c ∈ id, c ≠ '$') :
    ∃ a b, withPixel cfg html id = a ++ trackingPixel cfg id ++ b := by
  cases h : includes bodyClose html with
  | true =>
    obtain ⟨pre, post, -, -, h3⟩ := withPixel_of_includes cfg html id hurl hid h
    exact ⟨pre, bodyClose ++ post, by rw [h3]; simp⟩
  | false => exact ⟨html, [], by simp [withPixel, h]⟩

/-! ## Template rendering -/

theorem replaceFrom_of_no_placeholder (key : List Atom) (repl : Str) :
    ∀ (s : Str) (fuel : Nat) (before : Str), hasPlaceholder key s = false →
      replaceFrom key repl fuel before s = s
  | _, 0, _, _ => by simp [replaceFrom]
  | [], _ + 1, _, _ => by simp [replaceFrom]
  | c :: s, fuel + 1, before, h => by
    simp only [hasPlaceholder, Bool.or_eq_false_iff] at h
    have h1 : matchPlaceholder key (c :: s) = none := by
      cases hm : matchPlaceholder key (c :: s) with
      | none => rfl
      | some r => rw [hm] at h; simp at h
    rw [replaceFrom, h1]
    simp only
    rw [replaceFrom_of_no_placeholder key repl s fuel (c :: before) h.2]

theorem render_cons (t : Rendered) (entry : Str × JsValue) (data : List (Str × JsValue)) :
    render t (entry :: data) =
      match compileKey entry.1 with
      | some key =>
        render { html := replaceAll key (replacementOf entry.2) t.html
                 text := replaceAll key (replacementOf entry.2) t.text
                 subject := replaceAll key (replacementOf entry.2) t.subject } data
      | none => none := by
  have hnone : ∀ l : List (Str × JsValue), List.foldl renderEntry none l = none := by
    intro l
    induction l with
    | nil => rfl
    | cons e l ih => simpa [List.foldl, renderEntry] using ih
  simp only [render, List.foldl]
  cases hk : compileKey entry.1 with
  | none => simp only [renderEntry, hk]; exact hnone data
  | some key => simp only [renderEntry, hk]

/-! ## The click-tracking rewrite -/

theorem anyTail_eq_false {p : Str → Bool} {s : Str} :
    anyTail p s = false ↔ ∀ u v, s = u ++ v → p v = false := by
  induction s with
  | nil =>
    simp only [anyTail]
    constructor
    · intro h u v huv
      have : u = [] ∧ v = [] := by simpa using huv.symm
      rw [this.2]; exact h
    · intro h; exact h [] [] rfl
  | cons c s ih =>
    simp only [anyTail, Bool.or_eq_false_iff, ih]
    constructor
    · rintro ⟨h1, h2⟩ u v huv
      cases u with
      | nil => rw [← show c :: s = v from by simpa using huv]; exact h1
      | cons a u =>
        simp only [List.cons_append, List.cons.injEq] at huv
        exact h2 u v huv.2
    · intro h
      exact ⟨h [] (c :: s) rfl, fun u v huv => h (c :: u) v (by simp [huv])⟩

/-- A case-insensitive literal match that starts before a character the
pattern does not hold ends before that character. -/
theorem matchLitCI_before (p : Str) (c : Char) (hc : ∀ a ∈ p, ciEq a c = false) :
    ∀ (v rest r : Str), matchLitCI p (v ++ c :: rest) = some r →
      ∃ r1, matchLitCI p v = some r1 ∧ r = r1 ++ c :: rest := by
  induction p with
  | nil =>
    intro v rest r h
    simp only [matchLitCI, Option.some.injEq] at h
    exact ⟨v, rfl, h.symm⟩
  | cons a p ih =>
    intro v rest r h
    cases v with
    | nil =>
      simp only [List.nil_append, matchLitCI, hc a (by simp)] at h
      cases h
    | cons d v =>
      simp only [List.cons_append, matchLitCI] at h ⊢
      by_cases hd : ciEq a d = true
      · simp only [hd, if_true] at h ⊢
        exact ih (fun x hx => hc x (by simp [hx])) v rest r h
      · simp only [hd] at h
        cases h

theorem matchLitCI_self (p s : Str) : matchLitCI p (p ++ s) = some s := by
  induction p with
  | nil => rfl
  | cons a p ih => simp [matchLitCI, ciEq, ih]

theorem matchLitCI_length {p s r : Str} (h : matchLitCI p s = some r) :
    r.length + p.length = s.length := by
  induction p generalizing s with
  | nil => simp only [matchLitCI, Option.some.injEq] at h; simp [h]
  | cons a p ih =>
    cases s with
    | nil => simp [matchLitCI] at h
    | cons c s =>
      simp only [matchLitCI] at h
      split at h
      · have := ih h; simp only [List.length_cons]; omega
      · cases h

theorem hrefHttpAt_of_matchHref (v rest : Str) (h : hrefHttpAt v = false) :
    matchHref (v ++ '>' :: rest) = none := by
  have hc1 : ∀ a ∈ "href=".toList, ciEq a '>' = false := by decide
  have hc2 : ∀ a ∈ "http".toList, ciEq a '>' = false := by decide
  unfold matchHref
  cases h1 : matchLitCI "href=".toList (v ++ '>' :: rest) with
  | none => rfl
  | some s1 =>
    obtain ⟨r1, hr1, hs1⟩ := matchLitCI_before _ '>' hc1 v rest s1 h1
    cases r1 with
    | nil =>
      have hs2 : s1 = '>' :: rest := by simpa using hs1
      have hq : isQuote '>' = false := by decide
      rw [hs2]
      simp only [hq, Bool.false_eq_true, if_false]
    | cons q r2 =>
      have hs2 : s1 = q :: (r2 ++ '>' :: rest) := by simpa using hs1
      rw [hs2]
      by_cases hq : isQuote q = true
      · cases h2 : matchLitCI "http".toList (r2 ++ '>' :: rest) with
        | none => simp only [hq, if_true, h2]
        | some s3 =>
          obtain ⟨r3, hr3, -⟩ := matchLitCI_before _ '>' hc2 r2 rest s3 h2
          have : hrefHttpAt v = true := by
            unfold hrefHttpAt
            rw [hr1]
            simp only [hq, hr3, Option.isSome_some, Bool.and_self]
          rw [h] at this; cases this
      · simp only [hq, Bool.false_eq_true, if_false]

theorem spacesStar_none_upto {α : Type} (k : Str → Option α) (rest : Str) :
    ∀ w : Str, (∀ u v, w = u ++ v → k (v ++ '>' :: rest) = none) →
      spacesStar k (w ++ '>' :: rest) = none
  | [], h => by
    have h1 := h [] [] rfl
    have h2 : isJsSpace '>' = false := by decide
    simp only [List.nil_append] at h1 ⊢
    simp [spacesStar, h2, h1]
  | c :: w, h => by
    have h1 := h [] (c :: w) rfl
    have ih := spacesStar_none_upto k rest w (fun u v huv => h (c :: u) v (by simp [huv]))
    simp only [List.cons_append] at h1 ⊢
    simp only [spacesStar, ih, h1]
    split <;> rfl

theorem spacesPlus_none_upto {α : Type} (k : Str → Option α) (rest : Str) (w : Str)
    (h : ∀ u v, w = u ++ v → k (v ++ '>' :: rest) = none) :
    spacesPlus k (w ++ '>' :: rest) = none := by
  cases w with
  | nil =>
    have h2 : isJsSpace '>' = false := by decide
    simp [spacesPlus, h2]
  | cons c w =>
    simp only [List.cons_append, spacesPlus]
    split
    · exact spacesStar_none_upto k rest w (fun u v huv => h (c :: u) v (by simp [huv]))
    · rfl

theorem lazyNotGt_none_upto {α : Type} (k : Str → Option α) (rest : Str) :
    ∀ w : Str, (∀ u v, w = u ++ v → k (v ++ '>' :: rest) = none) →
      lazyNotGt k (w ++ '>' :: rest) = none
  | [], h => by
    have h1 := h [] [] rfl
    simp only [List.nil_append] at h1 ⊢
    simp [lazyNotGt, h1]
  | c :: w, h => by
    have h1 := h [] (c :: w) rfl
    have ih := lazyNotGt_none_upto k rest w (fun u v huv => h (c :: u) v (by simp [huv]))
    simp only [List.cons_append] at h1 ⊢
    simp only [lazyNotGt, h1, ih]
    split <;> rfl

/-- No `href=`, quote, `http` before the first `>`: the part of the pattern
behind `<a\s+` finds no match. -/
theorem matchGroupHref_none_upto (rest : Str) (w : Str)
    (h : anyTail hrefHttpAt w = false) :
    ∀ u v, w = u ++ v → matchGroupHref (v ++ '>' :: rest) = none := by
  have h0 := anyTail_eq_false.1 h
  have h1 : ∀ u v, w = u ++ v → matchHref (v ++ '>' :: rest) = none :=
    fun u v huv => hrefHttpAt_of_matchHref v rest (h0 u v huv)
  have h2 : ∀ u v, w = u ++ v → spacesPlus matchHref (v ++ '>' :: rest) = none :=
    fun u v huv => spacesPlus_none_upto matchHref rest v
      (fun u1 v1 h3 => h1 (u ++ u1) v1 (by rw [huv, h3]; simp))
  intro u v huv
  have h3 := lazyNotGt_none_upto (spacesPlus matchHref) rest v
    (fun u1 v1 h4 => h2 (u ++ u1) v1 (by rw [huv, h4]; simp))
  simp [matchGroupHref, h3, h1 u v huv]

/-- A tag that holds no `href=`, quote, `http` before its `>` is no match of
the anchor pattern. -/
theorem matchAnchor_none_of_tag (c d : Char) (body rest : Str)
    (h : anyTail hrefHttpAt body = false) :
    matchAnchor (c :: d :: (body ++ '>' :: rest)) = none := by
  have h1 := spacesPlus_none_upto matchGroupHref rest body (matchGroupHref_none_upto rest body h)
  simp only [matchAnchor, matchLitCI]
  split
  · rfl
  · rename_i s1 hs1
    split at hs1
    · split at hs1
      · cases hs1; exact h1
      · cases hs1
    · cases hs1

theorem urlChars_lt (q : Char) :
    ∀ (s u r : Str), urlChars q s = some (u, r) → r.length < s.length
  | [], _, _, h => by simp [urlChars] at h
  | c :: s, u, r, h => by
    simp only [urlChars] at h
    split at h
    · split at h
      · simp only [Option.some.injEq, Prod.mk.injEq] at h
        rw [← h.2]; simp
      · cases h
    · split at h
      · rename_i u1 r1 h1
        simp only [Option.some.injEq, Prod.mk.injEq] at h
        have := urlChars_lt q s u1 r1 h1
        rw [← h.2]; simp only [List.length_cons]; omega
      · split at h
        · simp only [Option.some.injEq, Prod.mk.injEq] at h
          rw [← h.2]; simp
        · cases h

theorem matchHref_lt {s : Str} {x : Char × Str × Str} (h : matchHref s = some x) :
    x.2.2.length < s.length := by
  unfold matchHref at h
  split at h
  · cases h
  · cases h
  · rename_i q s2 h1
    have l1 := matchLitCI_length h1
    split at h
    · split at h
      · cases h
      · cases h
      · rename_i c s4 h2
        have l2 := matchLitCI_length h2
        split at h
        · cases h
        · split at h
          · rename_i u r h3
            have l3 := urlChars_lt q s4 u r h3
            simp only [Option.some.injEq] at h
            rw [← h]
            simp only [List.length_cons] at l1 l2 ⊢
            omega
          · cases h
    · cases h

theorem spacesStar_le {α : Type} (f : α → Nat) (k : Str → Option α)
    (hk : ∀ t x, k t = some x → f x ≤ t.length) :
    ∀ (s : Str) (x : α), spacesStar k s = some x → f x ≤ s.length
  | [], x, h => hk [] x (by simpa [spacesStar] using h)
  | c :: s, x, h => by
    simp only [spacesStar] at h
    split at h
    · split at h
      · rename_i r h1
        simp only [Option.some.injEq] at h
        have := spacesStar_le f k hk s r h1
        rw [← h]; simp only [List.length_cons]; omega
      · exact hk _ x h
    · exact hk _ x h

theorem spacesPlus_le {α : Type} (f : α → Nat) (k : Str → Option α)
    (hk : ∀ t x, k t = some x → f x ≤ t.length) (s : Str) (x : α)
    (h : spacesPlus k s = some x) : f x ≤ s.length := by
  cases s with
  | nil => simp [spacesPlus] at h
  | cons c s =>
    simp only [spacesPlus] at h
    split at h
    · have := spacesStar_le f k hk s x h
      simp only [List.length_cons]; omega
    · cases h

theorem lazyNotGt_le {α : Type} (f : α → Nat) (k : Str → Option α)
    (hk : ∀ t x, k t = some x → f x ≤ t.length) :
    ∀ (s : Str) (x : α), lazyNotGt k s = some x → f x ≤ s.length
  | [], x, h => hk [] x (by simpa [lazyNotGt] using h)
  | c :: s, x, h => by
    simp only [lazyNotGt] at h
    split at h
    · rename_i r h1
      simp only [Option.some.injEq] at h
      rw [← h]; exact hk _ r h1
    · split at h
      · cases h
      · have := lazyNotGt_le f k hk s x h
        simp only [List.length_cons]; omega

/-- A match of the anchor pattern consumes text. -/
theorem matchAnchor_lt {s : Str} {x : Char × Str × Str} (h : matchAnchor s = some x) :
    x.2.2.length < s.length := by
  have hk1 : ∀ t x, matchHref t = some x → x.2.2.length ≤ t.length :=
    fun t x hx => Nat.le_of_lt (matchHref_lt hx)
  have hk2 : ∀ t x, matchGroupHref t = some x → x.2.2.length ≤ t.length := by
    intro t x hx
    unfold matchGroupHref at hx
    split at hx
    · rename_i r h1
      simp only [Option.some.injEq] at hx
      rw [← hx]
      exact lazyNotGt_le (fun x => x.2.2.length) _
        (fun t x hx => spacesPlus_le (fun x => x.2.2.length) _ hk1 t x hx) t r h1
    · exact hk1 t x hx
  unfold matchAnchor at h
  split at h
  · cases h
  · rename_i s1 h1
    have l1 := matchLitCI_length h1
    have l2 := spacesPlus_le (fun x => x.2.2.length) _ hk2 s1 x h
    simp only [String.toList, List.length_cons, List.length_nil] at l1
    simp only at l2
    omega

/-- The global replace does not depend on the fuel once there is enough. -/
theorem rewriteFrom_fuel (cfg : Config) (id : Str) :
    ∀ (n : Nat) (s : Str) (f1 f2 : Nat), s.length ≤ n → s.length < f1 → s.length < f2 →
      rewriteFrom cfg id f1 s = rewriteFrom cfg id f2 s
  | _, [], f1 + 1, f2 + 1, _, _, _ => by simp [rewriteFrom]
  | 0, c :: s, _, _, h, _, _ => by simp at h
  | n + 1, c :: s, f1 + 1, f2 + 1, hn, h1, h2 => by
    simp only [List.length_cons] at hn h1 h2
    simp only [rewriteFrom]
    cases hm : matchAnchor (c :: s) with
    | none =>
      simp only
      rw [rewriteFrom_fuel cfg id n s f1 f2 (by omega) (by omega) (by omega)]
    | some x =>
      obtain ⟨q, url, rest⟩ := x
      have hlt := matchAnchor_lt hm
      simp only [List.length_cons] at hlt
      simp only
      rw [rewriteFrom_fuel cfg id n rest f1 f2 (by omega) (by omega) (by omega)]

theorem isQuote_cases {q : Char} (h : isQuote q = true) :
    q = Char.ofNat 34 ∨ q = Char.ofNat 39 := by
  simp only [isQuote, Bool.or_eq_true, beq_iff_eq] at h
  rcases h with h | h
  · left; rw [← Char.ofNat_toNat q, h]
  · right; rw [← Char.ofNat_toNat q, h]

theorem spacesStar_of_not_space {α : Type} (k : Str → Option α) (c : Char) (s : Str)
    (hc : isJsSpace c = false) : spacesStar k (c :: s) = k (c :: s) := by
  simp [spacesStar, hc]

theorem spacesStar_of_spaces {α : Type} (k : Str → Option α) (c : Char) (s : Str) (r : α)
    (hc : isJsSpace c = false) (hk : k (c :: s) = some r) :
    ∀ ws : Str, ws.all isJsSpace = true → spacesStar k (ws ++ c :: s) = some r
  | [], _ => by rw [List.nil_append, spacesStar_of_not_space k c s hc, hk]
  | a :: ws, h => by
    simp only [List.all_cons, Bool.and_eq_true] at h
    have ih := spacesStar_of_spaces k c s r hc hk ws h.2
    simp [spacesStar, h.1, ih]

theorem spacesPlus_of_spaces {α : Type} (k : Str → Option α) (c : Char) (s : Str) (r : α)
    (hc : isJsSpace c = false) (hk : k (c :: s) = some r) (ws : Str) (hne : ws ≠ [])
    (hws : ws.all isJsSpace = true) : spacesPlus k (ws ++ c :: s) = some r := by
  cases ws with
  | nil => exact absurd rfl hne
  | cons a ws =>
    simp only [List.all_cons, Bool.and_eq_true] at hws
    simp only [List.cons_append, spacesPlus, hws.1, if_true]
    exact spacesStar_of_spaces k c s r hc hk ws hws.2

theorem urlChars_of_no_quote (q : Char) (rest : Str) (hq : isQuote q = true) :
    ∀ u : Str, u.any isQuote = false → urlChars q (u ++ q :: rest) = some (u, rest)
  | [], _ => by simp [urlChars, hq]
  | c :: u, h => by
    simp only [List.any_cons, Bool.or_eq_false_iff] at h
    have ih := urlChars_of_no_quote q rest hq u h.2
    simp [urlChars, h.1, ih]

/-- The part `href=(["'])(http[^"']+)\1` at a quoted URL that begins with
`http` and holds no quote character. -/
theorem matchHref_of_url (q c : Char) (u rest : Str) (hq : isQuote q = true)
    (hu : (c :: u).any isQuote = false) :
    matchHref ("href=".toList ++ q :: ("http".toList ++ c :: u) ++ q :: rest) =
      some (q, "http".toList ++ c :: u, rest) := by
  simp only [List.any_cons, Bool.or_eq_false_iff] at hu
  have h1 : matchLitCI "href=".toList
      ("href=".toList ++ q :: ("http".toList ++ c :: u) ++ q :: rest) =
      some (q :: (("http".toList ++ c :: u) ++ q :: rest)) := by
    have := matchLitCI_self "href=".toList (q :: (("http".toList ++ c :: u) ++ q :: rest))
    simpa using this
  have h2 : matchLitCI "http".toList (("http".toList ++ c :: u) ++ q :: rest) =
      some (c :: (u ++ q :: rest)) := by
    have := matchLitCI_self "http".toList (c :: (u ++ q :: rest))
    simpa using this
  have h3 := urlChars_of_no_quote q rest hq u hu.2
  unfold matchHref
  rw [h1]
  simp only [hq, if_true, h2, hu.1, Bool.false_eq_true, if_false, h3]
  rfl

theorem anyTail_cons (p : Str → Bool) (c : Char) (s : Str) :
    anyTail p (c :: s) = (p (c :: s) || anyTail p s) := rfl

theorem hrefHttpAt_of_head (c : Char) (s : Str) (hc : ciEq 'h' c = false) :
    hrefHttpAt (c :: s) = false := by
  have e : "href=".toList = 'h' :: "ref=".toList := rfl
  unfold hrefHttpAt
  rw [e, matchLitCI, hc]
  rfl

theorem ciEq_h_quote {q : Char} (hq : isQuote q = true) : ciEq 'h' q = false := by
  rcases isQuote_cases hq with rfl | rfl <;> decide

theorem isJsSpace_quote {q : Char} (hq : isQuote q = true) : isJsSpace q = false := by
  rcases isQuote_cases hq with rfl | rfl <;> decide

/-- The anchor pattern at an anchor tag whose first attribute is `href`, with
a URL that begins with `http`, goes on with at least one character and holds no
quote character, when no further `href=`, quote, `http` follows in the tag. -/
theorem matchAnchor_hrefFirst (ws : Str) (q c : Char) (u attrs post : Str)
    (hne : ws ≠ []) (hws : ws.all isJsSpace = true) (hq : isQuote q = true)
    (hu : (c :: u).any isQuote = false)
    (hhref : anyTail hrefHttpAt (("http".toList ++ c :: u) ++ q :: attrs) = false) :
    matchAnchor (hrefFirstAnchor ws q ("http".toList ++ c :: u) attrs ++ post) =
      some (q, "http".toList ++ c :: u, attrs ++ '>' :: post) := by
  -- the text behind `<a` and the white space
  have hH : matchGroupHref ('h' :: ("ref=".toList ++ q :: ("http".toList ++ c :: u) ++
      q :: (attrs ++ '>' :: post))) = some (q, "http".toList ++ c :: u, attrs ++ '>' :: post) := by
    have htail : anyTail hrefHttpAt ("ref=".toList ++ q :: (("http".toList ++ c :: u) ++
        q :: attrs)) = false := by
      have e : "ref=".toList ++ q :: (("http".toList ++ c :: u) ++ q :: attrs) =
          'r' :: 'e' :: 'f' :: '=' :: q :: (("http".toList ++ c :: u) ++ q :: attrs) := rfl
      rw [e, anyTail_cons, anyTail_cons, anyTail_cons, anyTail_cons, anyTail_cons, hhref,
        hrefHttpAt_of_head _ _ (ciEq_h_quote hq), hrefHttpAt_of_head 'r' _ (by decide),
        hrefHttpAt_of_head 'e' _ (by decide), hrefHttpAt_of_head 'f' _ (by decide),
        hrefHttpAt_of_head '=' _ (by decide)]
      rfl
    have h0 := anyTail_eq_false.1 htail
    have hgroup : lazyNotGt (spacesPlus matchHref)
        (('h' :: ("ref=".toList ++ q :: (("http".toList ++ c :: u) ++ q :: attrs))) ++
          '>' :: post) = none := by
      apply lazyNotGt_none_upto
      intro u1 v huv
      cases u1 with
      | nil =>
        have hv : v = 'h' :: ("ref=".toList ++ q :: (("http".toList ++ c :: u) ++ q :: attrs)) := by
          simpa using huv.symm
        rw [hv]
        have : isJsSpace 'h' = false := by decide
        simp [spacesPlus, this]
      | cons a u1 =>
        have huv1 : "ref=".toList ++ q :: (("http".toList ++ c :: u) ++ q :: attrs) =
            u1 ++ v := by
          simp only [List.cons_append, List.cons.injEq] at huv
          exact huv.2
        apply spacesPlus_none_upto
        intro u2 v2 h2
        exact hrefHttpAt_of_matchHref v2 post (h0 (u1 ++ u2) v2 (by rw [huv1, h2]; simp))
    have hm := matchHref_of_url q c u (attrs ++ '>' :: post) hq hu
    have e1 : ('h' :: ("ref=".toList ++ q :: (("http".toList ++ c :: u) ++ q :: attrs))) ++
        '>' :: post =
        'h' :: ("ref=".toList ++ q :: ("http".toList ++ c :: u) ++ q :: (attrs ++ '>' :: post)) := by
      simp
    have e2 : "href=".toList ++ q :: ("http".toList ++ c :: u) ++ q :: (attrs ++ '>' :: post) =
        'h' :: ("ref=".toList ++ q :: ("http".toList ++ c :: u) ++ q :: (attrs ++ '>' :: post)) := by
      simp
    rw [e1] at hgroup
    rw [e2] at hm
    unfold matchGroupHref
    rw [hgroup, hm]
  have e3 : hrefFirstAnchor ws q ("http".toList ++ c :: u) attrs ++ post =
      '<' :: 'a' :: (ws ++ 'h' :: ("ref=".toList ++ q :: ("http".toList ++ c :: u) ++
        q :: (attrs ++ '>' :: post))) := by
    simp [hrefFirstAnchor]
  have e4 : matchLitCI "<a".toList ('<' :: 'a' :: (ws ++ 'h' :: ("ref=".toList ++
      q :: ("http".toList ++ c :: u) ++ q :: (attrs ++ '>' :: post)))) =
      some (ws ++ 'h' :: ("ref=".toList ++ q :: ("http".toList ++ c :: u) ++
        q :: (attrs ++ '>' :: post))) :=
    matchLitCI_self "<a".toList _
  rw [e3]
  unfold matchAnchor
  rw [e4]
  exact spacesPlus_of_spaces matchGroupHref 'h' _ _ (by decide) hH ws hne hws

theorem rewriteFrom_skip (cfg : Config) (id : Str) :
    ∀ (pre : Str) (fuel : Nat) (y : Str),
      (∀ u v, pre = u ++ v → v ≠ [] → matchAnchor (v ++ y) = none) → pre.length ≤ fuel →
      rewriteFrom cfg id fuel (pre ++ y) = pre ++ rewriteFrom cfg id (fuel - pre.length) y
  | [], fuel, y, _, _ => by simp
  | c :: pre, 0, y, _, h => by simp at h
  | c :: pre, fuel + 1, y, h, hl => by
    have h1 : matchAnchor (c :: (pre ++ y)) = none := h [] (c :: pre) rfl (by simp)
    have ih := rewriteFrom_skip cfg id pre fuel y
      (fun u v huv hv => h (c :: u) v (by simp [huv]) hv)
      (by simp only [List.length_cons] at hl; omega)
    rw [List.cons_append, rewriteFrom, h1]
    simp only [ih, List.length_cons, Nat.add_sub_add_right, List.cons_append]

theorem matchAnchor_of_ne (c : Char) (s : Str) (hc : c ≠ '<') : matchAnchor (c :: s) = none := by
  have h1 : ciEq '<' c = false := by
    have e : ('<' : Char).toNat = 60 := rfl
    simp [ciEq, e, Ne.symm hc]
  have e2 : "<a".toList = '<' :: "a".toList := rfl
  unfold matchAnchor
  rw [e2, matchLitCI, h1]
  rfl

/-- No anchor starts in a text without `<`. -/
theorem no_anchor_of_no_lt (pre y : Str) (h : pre.all (fun c => c != '<') = true) :
    ∀ u v, pre = u ++ v → v ≠ [] → matchAnchor (v ++ y) = none := by
  intro u v huv hv
  cases v with
  | nil => exact absurd rfl hv
  | cons c v =>
    have hc : c ∈ pre := by rw [huv]; simp
    have := List.all_eq_true.1 h c hc
    exact matchAnchor_of_ne c _ (by simpa using this)

/-- No anchor starts in a text without `<a` when the text behind it does not
start with `a`. -/
theorem no_anchor_of_no_open (pre y : Str) (h : hasAnchorOpen pre = false)
    (hy : ∀ d y1, y = d :: y1 → ciEq 'a' d = false) :
    ∀ u v, pre = u ++ v → v ≠ [] → matchAnchor (v ++ y) = none := by
  intro u v huv hv
  have h0 := anyTail_eq_false.1 h u v huv
  have e2 : "<a".toList = ['<', 'a'] := rfl
  have hlit : matchLitCI "<a".toList (v ++ y) = none := by
    rw [e2] at h0 ⊢
    rcases v with _ | ⟨c, _ | ⟨d, v⟩⟩
    · exact absurd rfl hv
    · cases y with
      | nil => simp [matchLitCI]
      | cons d y1 => simp [matchLitCI, hy d y1 rfl]
    · simp only [matchLitCI] at h0
      simp only [List.cons_append, matchLitCI]
      split
      · split
        · rename_i h1 h2; simp [h1, h2] at h0
        · rfl
      · rfl
  unfold matchAnchor
  rw [hlit]

theorem replaceFirst_before (pat repl : Str) (hrepl : ∀ c ∈ repl, c ≠ '$') :
    ∀ (s b1 b2 : Str), replaceFirst pat repl b1 s = replaceFirst pat repl b2 s
  | [], b1, b2 => by
    simp only [replaceFirst]
    split
    · rw [getSubstitution_of_no_dollar _ _ _ _ hrepl, getSubstitution_of_no_dollar _ _ _ _ hrepl]
    · rfl
  | c :: s, b1, b2 => by
    simp only [replaceFirst]
    split
    · rw [getSubstitution_of_no_dollar _ _ _ _ hrepl, getSubstitution_of_no_dollar _ _ _ _ hrepl]
    · rw [replaceFirst_before pat repl hrepl s (c :: b1) (c :: b2)]

theorem includes_skip (pat : Str) :
    ∀ (a y : Str), (∀ u v, a = u ++ v → v ≠ [] → matchLit pat (v ++ y) = none) →
      includes pat (a ++ y) = includes pat y
  | [], y, _ => rfl
  | c :: a, y, h => by
    have h1 : matchLit pat (c :: (a ++ y)) = none := h [] (c :: a) rfl (by simp)
    have ih := includes_skip pat a y (fun u v huv hv => h (c :: u) v (by simp [huv]) hv)
    simp [includes, h1, ih]

/-- An occurrence of `</body>` that starts in a text ending in `>` lies in
that text. -/
theorem matchLit_bodyClose_in_gt (v post r : Str)
    (h : matchLit bodyClose (v ++ '>' :: post) = some r) :
    ∃ r1, matchLit bodyClose (v ++ ['>']) = some r1 := by
  rw [bodyClose_eq] at h ⊢
  rcases v with _ | ⟨a1, _ | ⟨a2, _ | ⟨a3, _ | ⟨a4, _ | ⟨a5, _ | ⟨a6, _ | ⟨a7, v⟩⟩⟩⟩⟩⟩⟩
  all_goals
    simp only [matchLit, List.cons_append, List.nil_append] at h ⊢
    repeat' split at h
    all_goals first | cases h | skip
    all_goals try simp_all
    all_goals (repeat' constructor) <;> assumption

/-- No `</body>` starts in a text that ends in `>` and holds none. -/
theorem no_bodyClose_of_gt (h post : Str) (hinc : includes bodyClose (h ++ ['>']) = false) :
    ∀ u v, h ++ ['>'] = u ++ v → v ≠ [] → matchLit bodyClose (v ++ post) = none := by
  intro u v huv hv
  rcases List.eq_nil_or_concat v with hnil | ⟨v1, b, hv1⟩
  · exact absurd hnil hv
  · rw [List.concat_eq_append] at hv1
    have h1 : h ++ ['>'] = (u ++ v1) ++ [b] := by rw [huv, hv1]; simp
    have h2 := List.append_inj' h1 rfl
    have hb : b = '>' := by simpa using h2.2.symm
    cases hm : matchLit bodyClose (v ++ post) with
    | none => rfl
    | some r =>
      exfalso
      have hm1 : matchLit bodyClose (v1 ++ '>' :: post) = some r := by
        rw [← hm, hv1, hb]; simp
      obtain ⟨r1, hr1⟩ := matchLit_bodyClose_in_gt v1 post r hm1
      have h3 := matchLit_eq_some.1 hr1
      have h4 : includes bodyClose (h ++ ['>']) = true :=
        includes_iff.2 ⟨u, r1, by rw [huv, hv1, hb, h3]; simp⟩
      rw [hinc] at h4; cases h4

/-- The tracking image is added behind a leading text that ends in `>` and
holds no `</body>`. -/
theorem withPixel_append (cfg : Config) (h post id : Str)
    (hurl : ∀ c ∈ cfg.serverUrl, c ≠ '$') (hid : ∀ c ∈ id, c ≠ '$')
    (hinc : includes bodyClose (h ++ ['>']) = false) :
    withPixel cfg ((h ++ ['>']) ++ post) id = (h ++ ['>']) ++ withPixel cfg post id := by
  have hskip := no_bodyClose_of_gt h post hinc
  have h1 := includes_skip bodyClose (h ++ ['>']) post hskip
  unfold withPixel
  rw [h1]
  cases hp : includes bodyClose post with
  | true =>
    simp only [if_true]
    rw [replaceFirst_skip bodyClose _ (h ++ ['>']) [] post hskip,
      replaceFirst_before bodyClose _ (trackingPixel_no_dollar cfg id hurl hid) post _ []]
  | false => simp

theorem matchLitCI_open_cons (c d : Char) (t : Str) :
    (matchLitCI "<a".toList (c :: d :: t)).isSome = (ciEq '<' c && ciEq 'a' d) := by
  have e : "<a".toList = ['<', 'a'] := rfl
  rw [e]
  simp only [matchLitCI]
  cases ciEq '<' c <;> cases ciEq 'a' d <;> rfl

theorem matchLitCI_open_short (v : Str) (h : v.length < 2) :
    (matchLitCI "<a".toList v).isSome = false := by
  have e : "<a".toList = ['<', 'a'] := rfl
  rw [e]
  rcases v with _ | ⟨c, _ | ⟨d, v⟩⟩
  · rfl
  · simp only [matchLitCI]; split <;> rfl
  · simp only [List.length_cons] at h; omega

/-- No `<a` in two texts, and the second does not start with `a`: no `<a` in
the two put together. -/
theorem hasAnchorOpen_append (a b : Str) (ha : hasAnchorOpen a = false)
    (hb : hasAnchorOpen b = false) (hj : ∀ d t, b = d :: t → ciEq 'a' d = false) :
    hasAnchorOpen (a ++ b) = false := by
  have ha0 := anyTail_eq_false.1 ha
  have hb0 := anyTail_eq_false.1 hb
  apply anyTail_eq_false.2
  intro u v huv
  rcases List.append_eq_append_iff.1 huv with ⟨w, hw1, hw2⟩ | ⟨w, hw1, hw2⟩
  · exact hb0 w v hw2
  · rw [hw2]
    rcases w with _ | ⟨c, _ | ⟨d, w⟩⟩
    · exact hb0 [] b rfl
    · cases b with
      | nil => exact matchLitCI_open_short _ (by simp)
      | cons d t =>
        simp only [List.cons_append, List.nil_append]
        rw [matchLitCI_open_cons, hj d t rfl, Bool.and_false]
    · have h1 := ha0 u (c :: d :: w) hw1
      simp only [List.cons_append] at h1 ⊢
      rw [matchLitCI_open_cons] at h1 ⊢
      exact h1

theorem hasAnchorOpen_left (a b : Str) (h : hasAnchorOpen (a ++ b) = false) :
    hasAnchorOpen a = false := by
  have h0 := anyTail_eq_false.1 h
  apply anyTail_eq_false.2
  intro u v huv
  rcases v with _ | ⟨c, _ | ⟨d, v⟩⟩
  · exact matchLitCI_open_short _ (by simp)
  · exact matchLitCI_open_short _ (by simp)
  · have h1 := h0 u (c :: d :: v ++ b) (by rw [huv]; simp)
    simp only [List.cons_append] at h1
    rw [matchLitCI_open_cons] at h1 ⊢
    exact h1

theorem hasAnchorOpen_right (a b : Str) (h : hasAnchorOpen (a ++ b) = false) :
    hasAnchorOpen b = false := by
  have h0 := anyTail_eq_false.1 h
  apply anyTail_eq_false.2
  intro u v huv
  exact h0 (a ++ u) v (by rw [huv]; simp)

theorem hasAnchorOpen_pixel (cfg : Config) (id : Str)
    (hurl : ∀ c ∈ cfg.serverUrl, c ≠ '<') (hid : ∀ c ∈ id, c ≠ '<') :
    hasAnchorOpen (trackingPixel cfg id) = false := by
  obtain ⟨r, hr, ⟨r1, hr2⟩, hr3⟩ := trackingPixel_shape cfg id hurl hid
  apply anyTail_eq_false.2
  intro u v huv
  rcases v with _ | ⟨c, _ | ⟨d, v⟩⟩
  · exact matchLitCI_open_short _ (by simp)
  · exact matchLitCI_open_short _ (by simp)
  · rw [matchLitCI_open_cons]
    cases u with
    | nil =>
      have h1 : '<' :: 'i' :: r1 = c :: d :: v := by rw [← hr2, ← hr]; simpa using huv
      have h2 : d = 'i' := by
        simp only [List.cons.injEq] at h1
        exact h1.2.1.symm
      rw [h2]
      have : ciEq 'a' 'i' = false := by decide
      rw [this, Bool.and_false]
    | cons x u =>
      have h1 : r = u ++ c :: d :: v := by
        have h2 : '<' :: r = x :: (u ++ c :: d :: v) := by rw [← hr, huv]; simp
        exact (List.cons.inj h2).2
      have hc : c ≠ '<' := hr3 c (by rw [h1]; simp)
      have : ciEq '<' c = false := by
        have e : ('<' : Char).toNat = 60 := rfl
        simp [ciEq, e, Ne.symm hc]
      rw [this, Bool.false_and]

/-- Adding the tracking image brings no `<a` into a text that holds none. -/
theorem hasAnchorOpen_withPixel (cfg : Config) (html id : Str)
    (hurl : ∀ c ∈ cfg.serverUrl, c ≠ '$' ∧ c ≠ '<') (hid : ∀ c ∈ id, c ≠ '$' ∧ c ≠ '<')
    (h : hasAnchorOpen html = false) : hasAnchorOpen (withPixel cfg html id) = false := by
  have hpx := hasAnchorOpen_pixel cfg id (fun c hc => (hurl c hc).2) (fun c hc => (hid c hc).2)
  obtain ⟨r, hr, -, -⟩ := trackingPixel_shape cfg id (fun c hc => (hurl c hc).2)
    (fun c hc => (hid c hc).2)
  have hlt : ciEq 'a' '<' = false := by decide
  have hjp : ∀ d t, trackingPixel cfg id = d :: t → ciEq 'a' d = false := by
    intro d t hd
    rw [hr] at hd
    rw [← (List.cons.inj hd).1]; exact hlt
  cases hinc : includes bodyClose html with
  | false =>
    simp only [withPixel, hinc, Bool.false_eq_true, if_false]
    exact hasAnchorOpen_append html _ h hpx hjp
  | true =>
    obtain ⟨pre, post, h1, -, h3⟩ := withPixel_of_includes cfg html id
      (fun c hc => (hurl c hc).1) (fun c hc => (hid c hc).1) hinc
    rw [h3]
    rw [h1, List.append_assoc] at h
    have hpre := hasAnchorOpen_left pre _ h
    have hpost := hasAnchorOpen_right pre _ h
    have h4 : hasAnchorOpen (trackingPixel cfg id ++ (bodyClose ++ post)) = false :=
      hasAnchorOpen_append _ _ hpx hpost (by
        intro d t hd
        have : d = '<' := by
          rw [bodyClose_eq] at hd
          simp only [List.cons_append, List.cons.injEq] at hd
          exact hd.1.symm
        rw [this]; exact hlt)
    have h5 := hasAnchorOpen_append pre _ hpre h4 (by
      intro d t hd
      rw [hr] at hd
      simp only [List.cons_append, List.cons.injEq] at hd
      rw [← hd.1]; exact hlt)
    simpa [List.append_assoc] using h5

/-- The click-tracking rewrite leaves a text without `<a` as it is. -/
theorem rewriteFrom_of_no_open (cfg : Config) (id : Str) :
    ∀ (s : Str) (fuel : Nat), hasAnchorOpen s = false → rewriteFrom cfg id fuel s = s
  | _, 0, _ => by simp [rewriteFrom]
  | [], _ + 1, _ => by simp [rewriteFrom]
  | c :: s, fuel + 1, h => by
    have h1 : matchAnchor (c :: s) = none := by
      have := no_anchor_of_no_open (c :: s) [] h (fun d y1 hd => by cases hd) [] (c :: s) rfl
        (by simp)
      simpa using this
    have h2 : hasAnchorOpen s = false := hasAnchorOpen_right [c] s h
    rw [rewriteFrom, h1]
    simp only
    rw [rewriteFrom_of_no_open cfg id s fuel h2]

/-- Without a link to rewrite, `addTrackingToEmail` only adds the tracking
image: click tracking is off, or the html holds no `<a`. -/
theorem addTrackingToEmail_eq_withPixel (cfg : Config) (html id : Str) (hne : html ≠ [])
    (hurl : ∀ c ∈ cfg.serverUrl, c ≠ '$' ∧ c ≠ '<') (hid : ∀ c ∈ id, c ≠ '$' ∧ c ≠ '<')
    (hcase : cfg.trackClicks = false ∨ hasAnchorOpen html = false) :
    addTrackingToEmail cfg html id = withPixel cfg html id := by
  have hne1 : html.isEmpty = false := by
    cases html with
    | nil => exact absurd rfl hne
    | cons _ _ => rfl
  cases hc : cfg.trackClicks with
  | false => simp [addTrackingToEmail, hne1, hc]
  | true =>
    have hno : hasAnchorOpen html = false := by
      rcases hcase with h | h
      · rw [hc] at h; cases h
      · exact h
    simp only [addTrackingToEmail, hne1, hc, Bool.false_eq_true, if_false, if_true,
      rewriteLinks]
    exact rewriteFrom_of_no_open cfg id _ _ (hasAnchorOpen_withPixel cfg html id hurl hid hno)

/-- The result holds the tracking image when click tracking is off, and also
when it is on and the html holds no `<a`. -/
theorem addTrackingToEmail_contains (cfg : Config) (html id : Str) (hne : html ≠ [])
    (hurl : ∀ c ∈ cfg.serverUrl, c ≠ '$' ∧ c ≠ '<') (hid : isUuid id = true)
    (hcase : cfg.trackClicks = false ∨ hasAnchorOpen html = false) :
    ∃ a b, addTrackingToEmail cfg html id = a ++ trackingPixel cfg id ++ b := by
  have hid1 : ∀ c ∈ id, c ≠ '$' ∧ c ≠ '<' := fun c hc => isUuid_ne hid hc
  rw [addTrackingToEmail_eq_withPixel cfg html id hne hurl hid1 hcase]
  exact withPixel_contains cfg html id (fun c hc => (hurl c hc).1) (fun c hc => (hid1 c hc).1)

/-! ## Placeholders of unknown names -/

theorem openBraces_eq : "\x7b\x7b".toList = [Char.ofNat 123, Char.ofNat 123] := rfl

theorem closeBraces_eq : "\x7d\x7d".toList = [Char.ofNat 125, Char.ofNat 125] := rfl

theorem compileKey_of_plain : ∀ key : Str, plainKey key = true →
    compileKey key = some (key.map Atom.lit)
  | [], _ => rfl
  | c :: key, h => by
    simp only [plainKey, List.all_cons, Bool.and_eq_true, Bool.not_eq_true'] at h
    have ih := compileKey_of_plain key (by simpa [plainKey] using h.2)
    have hc : c ≠ '.' := by
      intro hc; rw [hc] at h
      exact absurd h.1 (by decide)
    simp [compileKey, hc, h.1, ih]

theorem matchAtoms_lit : ∀ (key s r : Str), matchAtoms (key.map Atom.lit) s = some r →
    s = key ++ r
  | [], s, r, h => by
    simp only [List.map_nil, matchAtoms, Option.some.injEq] at h
    simp [h]
  | a :: key, [], r, h => by simp [matchAtoms] at h
  | a :: key, c :: s, r, h => by
    simp only [List.map_cons, matchAtoms, Atom.accepts, beq_iff_eq] at h
    split at h
    · rename_i hac
      rw [matchAtoms_lit key s r h, hac]; rfl
    · cases h

theorem spacesStar_sound {α : Type} (k : Str → Option α) :
    ∀ (s : Str) (r : α), spacesStar k s = some r →
      ∃ a t, s = a ++ t ∧ a.all isJsSpace = true ∧ k t = some r
  | [], r, h => ⟨[], [], rfl, rfl, by simpa [spacesStar] using h⟩
  | c :: s, r, h => by
    simp only [spacesStar] at h
    split at h
    · rename_i hc
      split at h
      · rename_i r1 h1
        simp only [Option.some.injEq] at h
        obtain ⟨a, t, hs, ha, hk⟩ := spacesStar_sound k s r1 h1
        exact ⟨c :: a, t, by simp [hs], by simp [hc, ha], by rw [hk, h]⟩
      · exact ⟨[], c :: s, rfl, rfl, h⟩
    · exact ⟨[], c :: s, rfl, rfl, h⟩

/-- A match of the pattern of a plain key is `{{`, white space, the key, white
space, `}}`. -/
theorem matchPlaceholder_sound (key s rest : Str)
    (h : matchPlaceholder (key.map Atom.lit) s = some rest) :
    ∃ a b, a.all isJsSpace = true ∧ b.all isJsSpace = true ∧
      s = Char.ofNat 123 :: Char.ofNat 123 ::
        (a ++ key ++ b ++ Char.ofNat 125 :: Char.ofNat 125 :: rest) := by
  unfold matchPlaceholder at h
  cases h1 : matchLit "\x7b\x7b".toList s with
  | none => rw [h1] at h; cases h
  | some s1 =>
    rw [h1, Option.bind] at h
    have e1 := matchLit_eq_some.1 h1
    obtain ⟨a, t, hs1, ha, hk⟩ := spacesStar_sound _ s1 rest h
    cases h2 : matchAtoms (key.map Atom.lit) t with
    | none => rw [h2] at hk; cases hk
    | some s2 =>
      rw [h2, Option.bind] at hk
      have e2 := matchAtoms_lit key t s2 h2
      obtain ⟨b, t2, hs2, hb, hk2⟩ := spacesStar_sound _ s2 rest hk
      have e3 := matchLit_eq_some.1 hk2
      refine ⟨a, b, ha, hb, ?_⟩
      rw [e1, hs1, e2, hs2, e3, openBraces_eq, closeBraces_eq]
      simp

theorem matchPlaceholder_of_head (key : List Atom) (c : Char) (s : Str)
    (hc : c ≠ Char.ofNat 123) : matchPlaceholder key (c :: s) = none := by
  unfold matchPlaceholder
  rw [openBraces_eq]
  simp [matchLit, Ne.symm hc]

theorem matchPlaceholder_of_second (key : List Atom) (c d : Char) (s : Str)
    (hd : d ≠ Char.ofNat 123) : matchPlaceholder key (c :: d :: s) = none := by
  unfold matchPlaceholder
  rw [openBraces_eq]
  simp [matchLit, Ne.symm hd]

theorem not_brace_of_space {c : Char} (h : isJsSpace c = true) :
    c ≠ Char.ofNat 123 ∧ c ≠ Char.ofNat 125 := by
  constructor <;> (intro hc; rw [hc] at h; revert h; decide)

theorem not_brace_of_plain {c : Char} (h : isRegexSyntax c = false) :
    c ≠ Char.ofNat 123 ∧ c ≠ Char.ofNat 125 := by
  constructor <;> (intro hc; rw [hc] at h; revert h; decide)

/-- The text between the braces of a match of a plain key holds no brace. -/
theorem padded_no_brace (key a b : Str) (hkey : plainKey key = true)
    (ha : a.all isJsSpace = true) (hb : b.all isJsSpace = true) :
    ∀ c ∈ a ++ key ++ b, c ≠ Char.ofNat 123 ∧ c ≠ Char.ofNat 125 := by
  intro c hc
  simp only [List.mem_append] at hc
  rcases hc with (hc | hc) | hc
  · exact not_brace_of_space (List.all_eq_true.1 ha c hc)
  · have := List.all_eq_true.1 hkey c hc
    exact not_brace_of_plain (by simpa using this)
  · exact not_brace_of_space (List.all_eq_true.1 hb c hc)

theorem placeholder_append (name suf : Str) :
    placeholder name ++ suf =
      Char.ofNat 123 :: Char.ofNat 123 :: (name ++ Char.ofNat 125 :: Char.ofNat 125 :: suf) := by
  simp [placeholder, openBraces_eq, closeBraces_eq]

theorem plainName_mem {name : Str} (h : plainName name = true) {c : Char} (hc : c ∈ name) :
    isJsSpace c = false ∧ c ≠ Char.ofNat 123 ∧ c ≠ Char.ofNat 125 := by
  have := List.all_eq_true.1 h c hc
  simpa [and_assoc] using this

/-- Two texts without `}` that are followed by `}` in the same text are equal. -/
theorem eq_of_append_rbrace : ∀ (x y r1 r2 : Str),
    (∀ c ∈ x, c ≠ Char.ofNat 125) → (∀ c ∈ y, c ≠ Char.ofNat 125) →
    x ++ Char.ofNat 125 :: r1 = y ++ Char.ofNat 125 :: r2 → x = y
  | [], [], _, _, _, _, _ => rfl
  | [], d :: y, _, _, _, hy, h => by
    simp only [List.nil_append, List.cons_append, List.cons.injEq] at h
    exact absurd h.1.symm (hy d (by simp))
  | c :: x, [], _, _, hx, _, h => by
    simp only [List.nil_append, List.cons_append, List.cons.injEq] at h
    exact absurd h.1 (hx c (by simp))
  | c :: x, d :: y, r1, r2, hx, hy, h => by
    simp only [List.cons_append, List.cons.injEq] at h
    rw [h.1, eq_of_append_rbrace x y r1 r2 (fun a ha => hx a (by simp [ha]))
      (fun a ha => hy a (by simp [ha])) h.2]

/-- The pattern of a plain key does not match the placeholder of another
name. -/
theorem matchPlaceholder_other_name (key name suf : Str) (hkey : plainKey key = true)
    (hname : plainName name = true) (hne : key ≠ name) :
    matchPlaceholder (key.map Atom.lit) (placeholder name ++ suf) = none := by
  cases hm : matchPlaceholder (key.map Atom.lit) (placeholder name ++ suf) with
  | none => rfl
  | some rest =>
    exfalso
    obtain ⟨a, b, ha, hb, hs⟩ := matchPlaceholder_sound key _ rest hm
    rw [placeholder_append] at hs
    have h1 : name ++ Char.ofNat 125 :: Char.ofNat 125 :: suf =
        (a ++ key ++ b) ++ Char.ofNat 125 :: Char.ofNat 125 :: rest := by
      simp only [List.cons.injEq, true_and] at hs
      exact hs
    have h2 := eq_of_append_rbrace name (a ++ key ++ b) _ _
      (fun c hc => (plainName_mem hname hc).2.2)
      (fun c hc => (padded_no_brace key a b hkey ha hb c hc).2) h1
    have ha0 : a = [] := by
      cases a with
      | nil => rfl
      | cons x a =>
        have hx : x ∈ name := by rw [h2]; simp
        have h3 := (plainName_mem hname hx).1
        simp only [List.all_cons, Bool.and_eq_true] at ha
        rw [ha.1] at h3; cases h3
    have hb0 : b = [] := by
      cases b with
      | nil => rfl
      | cons x b =>
        have hx : x ∈ name := by rw [h2]; simp
        have h3 := (plainName_mem hname hx).1
        simp only [List.all_cons, Bool.and_eq_true] at hb
        rw [hb.1] at h3; cases h3
    rw [ha0, hb0] at h2
    exact hne (by simpa using h2.symm)

/-- A match of the pattern of a plain key that starts before a placeholder
ends before it. -/
theorem matchPlaceholder_ends_before (key v name suf rest : Str) (hkey : plainKey key = true)
    (hv : v ≠ [])
    (h : matchPlaceholder (key.map Atom.lit) (v ++ (placeholder name ++ suf)) = some rest) :
    ∃ w, rest = w ++ (placeholder name ++ suf) ∧ w.length < v.length := by
  obtain ⟨a, b, ha, hb, hs⟩ := matchPlaceholder_sound key _ rest h
  have hmid := padded_no_brace key a b hkey ha hb
  have hlr : (Char.ofNat 123 : Char) ≠ Char.ofNat 125 := by decide
  rw [placeholder_append] at hs ⊢
  rcases v with _ | ⟨c, _ | ⟨d, v⟩⟩
  · exact absurd rfl hv
  · -- the match would need a brace as its third character
    exfalso
    simp only [List.cons_append, List.nil_append, List.cons.injEq] at hs
    obtain ⟨-, -, h3⟩ := hs
    cases hab : a ++ key ++ b with
    | nil =>
      rw [hab] at h3
      simp only [List.nil_append, List.cons.injEq] at h3
      exact hlr h3.1
    | cons x m =>
      rw [hab] at h3 hmid
      simp only [List.cons_append, List.cons.injEq] at h3
      exact (hmid x (by simp)).1 h3.1.symm
  · simp only [List.cons_append, List.cons.injEq] at hs
    obtain ⟨-, -, h3⟩ := hs
    have h4 : v ++ (Char.ofNat 123 :: Char.ofNat 123 ::
        (name ++ Char.ofNat 125 :: Char.ofNat 125 :: suf)) =
        (a ++ key ++ b) ++ (Char.ofNat 125 :: Char.ofNat 125 :: rest) := by
      simpa using h3
    rcases List.append_eq_append_iff.1 h4 with ⟨w, hw1, hw2⟩ | ⟨w, hw1, hw2⟩
    · exfalso
      cases w with
      | nil =>
        simp only [List.nil_append, List.cons.injEq] at hw2
        exact hlr hw2.1
      | cons x w =>
        simp only [List.cons_append, List.cons.injEq] at hw2
        exact (hmid x (by rw [hw1]; simp)).1 hw2.1.symm
    · rcases w with _ | ⟨x, _ | ⟨y, w⟩⟩
      · exfalso
        simp only [List.nil_append, List.cons.injEq] at hw2
        exact hlr hw2.1.symm
      · exfalso
        simp only [List.cons_append, List.nil_append, List.cons.injEq] at hw2
        exact hlr hw2.2.1.symm
      · simp only [List.cons_append, List.cons.injEq] at hw2
        refine ⟨w, hw2.2.2, ?_⟩
        rw [hw1]; simp; omega

theorem replaceFrom_over_no_lbrace (key : List Atom) (repl suf : Str) :
    ∀ (w : Str), (∀ c ∈ w, c ≠ Char.ofNat 123) → ∀ (fuel : Nat) (before : Str),
      ∃ b, replaceFrom key repl fuel before (w ++ suf) = w ++ b
  | [], _, fuel, before => ⟨replaceFrom key repl fuel before suf, rfl⟩
  | c :: w, _, 0, _ => ⟨suf, by simp [replaceFrom]⟩
  | c :: w, h, fuel + 1, before => by
    obtain ⟨b, hb⟩ := replaceFrom_over_no_lbrace key repl suf w
      (fun x hx => h x (by simp [hx])) fuel (c :: before)
    refine ⟨b, ?_⟩
    rw [List.cons_append, replaceFrom, matchPlaceholder_of_head key c _ (h c (by simp))]
    simp only [hb, List.cons_append]

/-- The scan passes a placeholder of a plain name that is not the key. -/
theorem replaceFrom_at_placeholder (key repl name suf : Str) (hkey : plainKey key = true)
    (hname : plainName name = true) (hne : key ≠ name) (fuel : Nat) (before : Str) :
    ∃ b, replaceFrom (key.map Atom.lit) repl fuel before (placeholder name ++ suf) =
      placeholder name ++ b := by
  have h0 := matchPlaceholder_other_name key name suf hkey hname hne
  rw [placeholder_append] at h0 ⊢
  have h1 : matchPlaceholder (key.map Atom.lit)
      (Char.ofNat 123 :: (name ++ Char.ofNat 125 :: Char.ofNat 125 :: suf)) = none := by
    cases name with
    | nil => exact matchPlaceholder_of_second _ _ _ _ (by decide)
    | cons x name =>
      exact matchPlaceholder_of_second _ _ _ _ (plainName_mem hname (by simp)).2.1
  have hw : ∀ c ∈ name ++ [Char.ofNat 125, Char.ofNat 125], c ≠ Char.ofNat 123 := by
    intro c hc
    rcases List.mem_append.1 hc with hc | hc
    · exact (plainName_mem hname hc).2.1
    · intro h; rw [h] at hc; revert hc; decide
  have e : name ++ Char.ofNat 125 :: Char.ofNat 125 :: suf =
      (name ++ [Char.ofNat 125, Char.ofNat 125]) ++ suf := by simp
  rcases fuel with _ | _ | fuel
  · exact ⟨suf, by rw [placeholder_append]; simp [replaceFrom]⟩
  · exact ⟨suf, by rw [placeholder_append, replaceFrom, h0]; simp [replaceFrom]⟩
  · obtain ⟨b, hb⟩ := replaceFrom_over_no_lbrace (key.map Atom.lit) repl suf _ hw fuel
      (Char.ofNat 123 :: Char.ofNat 123 :: before)
    refine ⟨b, ?_⟩
    rw [placeholder_append, replaceFrom, h0]
    simp only
    rw [replaceFrom, h1]
    simp only
    rw [e, hb]
    simp

/-- One global replace keeps a placeholder of a plain name that is not the
key. -/
theorem replaceFrom_keeps (key repl name suf : Str) (hkey : plainKey key = true)
    (hname : plainName name = true) (hne : key ≠ name) :
    ∀ (n : Nat) (v : Str), v.length ≤ n → ∀ (fuel : Nat) (before : Str),
      ∃ a b, replaceFrom (key.map Atom.lit) repl fuel before (v ++ (placeholder name ++ suf)) =
        a ++ placeholder name ++ b
  | _, [], _, fuel, before => by
    obtain ⟨b, hb⟩ := replaceFrom_at_placeholder key repl name suf hkey hname hne fuel before
    exact ⟨[], b, by simpa using hb⟩
  | _, c :: v, _, 0, _ => ⟨c :: v, suf, by simp [replaceFrom]⟩
  | 0, c :: v, h, _ + 1, _ => by simp at h
  | n + 1, c :: v, h, fuel + 1, before => by
    simp only [List.length_cons] at h
    rw [List.cons_append, replaceFrom]
    cases hm : matchPlaceholder (key.map Atom.lit) (c :: (v ++ (placeholder name ++ suf))) with
    | none =>
      obtain ⟨a, b, hab⟩ := replaceFrom_keeps key repl name suf hkey hname hne n v (by omega)
        fuel (c :: before)
      exact ⟨c :: a, b, by simp only [hab, List.cons_append]⟩
    | some rest =>
      obtain ⟨w, hw, hlen⟩ := matchPlaceholder_ends_before key (c :: v) name suf rest hkey
        (by simp) hm
      simp only [List.length_cons] at hlen
      simp only
      rw [hw]
      obtain ⟨a, b, hab⟩ := replaceFrom_keeps key repl name suf hkey hname hne n w (by omega)
        fuel ((List.take ((c :: (v ++ (placeholder name ++ suf))).length -
          (w ++ (placeholder name ++ suf)).length)
          (c :: (v ++ (placeholder name ++ suf)))).reverse ++ before)
      rw [hab]
      exact ⟨getSubstitution
        (List.take ((c :: (v ++ (placeholder name ++ suf))).length -
          (w ++ (placeholder name ++ suf)).length) (c :: (v ++ (placeholder name ++ suf))))
        before.reverse (w ++ (placeholder name ++ suf)) repl ++ a, b,
        by simp only [List.append_assoc]⟩

theorem replaceAll_keeps (key repl name pre suf : Str) (hkey : plainKey key = true)
    (hname : plainName name = true) (hne : key ≠ name) :
    ∃ a b, replaceAll (key.map Atom.lit) repl (pre ++ placeholder name ++ suf) =
      a ++ placeholder name ++ b := by
  rw [replaceAll, List.append_assoc]
  exact replaceFrom_keeps key repl name suf hkey hname hne pre.length pre (Nat.le_refl _) _ _

/-- For data whose keys hold no character of the regular expression syntax,
the rendering keeps, in each of the three texts, a placeholder whose name (no
white space, no braces) is not a key of the data. -/
theorem render_keeps_unknown_placeholder (data : List (Str × JsValue)) (name : Str)
    (hkeys : ∀ e ∈ data, plainKey e.1 = true) (hname : plainName name = true)
    (hnot : ∀ e ∈ data, e.1 ≠ name) :
    ∀ t : Rendered, ∃ r, render t data = some r ∧
      ((∃ a b, t.subject = a ++ placeholder name ++ b) →
        ∃ a b, r.subject = a ++ placeholder name ++ b) ∧
      ((∃ a b, t.html = a ++ placeholder name ++ b) →
        ∃ a b, r.html = a ++ placeholder name ++ b) ∧
      ((∃ a b, t.text = a ++ placeholder name ++ b) →
        ∃ a b, r.text = a ++ placeholder name ++ b) := by
  induction data with
  | nil => intro t; exact ⟨t, rfl, id, id, id⟩
  | cons e data ih =>
    intro t
    have hk := hkeys e (by simp)
    have hn := hnot e (by simp)
    obtain ⟨r, hr, h1, h2, h3⟩ := ih (fun x hx => hkeys x (by simp [hx]))
      (fun x hx => hnot x (by simp [hx]))
      { html := replaceAll (e.1.map Atom.lit) (replacementOf e.2) t.html
        text := replaceAll (e.1.map Atom.lit) (replacementOf e.2) t.text
        subject := replaceAll (e.1.map Atom.lit) (replacementOf e.2) t.subject }
    refine ⟨r, ?_, ?_, ?_, ?_⟩
    · rw [render_cons, compileKey_of_plain e.1 hk]
      exact hr
    · rintro ⟨a, b, hab⟩
      apply h1
      simp only [hab]
      exact replaceAll_keeps e.1 _ name a b hk hname hn
    · rintro ⟨a, b, hab⟩
      apply h2
      simp only [hab]
      exact replaceAll_keeps e.1 _ name a b hk hname hn
    · rintro ⟨a, b, hab⟩
      apply h3
      simp only [hab]
      exact replaceAll_keeps e.1 _ name a b hk hname hn

/-! ## The fuel of the template rendering -/

theorem matchLit_le {p s r : Str} (h : matchLit p s = some r) : r.length ≤ s.length := by
  rw [matchLit_eq_some.1 h]; simp

theorem matchAtoms_le : ∀ (key : List Atom) (s r : Str), matchAtoms key s = some r →
    r.length ≤ s.length
  | [], s, r, h => by
    simp only [matchAtoms, Option.some.injEq] at h
    rw [h]
  | _ :: _, [], r, h => by simp [matchAtoms] at h
  | a :: key, c :: s, r, h => by
    simp only [matchAtoms] at h
    split at h
    · have := matchAtoms_le key s r h
      simp only [List.length_cons]; omega
    · cases h

/-- A match of the placeholder pattern consumes text. -/
theorem matchPlaceholder_lt {key : List Atom} {s rest : Str}
    (h : matchPlaceholder key s = some rest) : rest.length < s.length := by
  unfold matchPlaceholder at h
  cases h1 : matchLit "\x7b\x7b".toList s with
  | none => rw [h1] at h; cases h
  | some s1 =>
    rw [h1, Option.bind] at h
    have e1 := matchLit_eq_some.1 h1
    have l1 : s1.length + 2 = s.length := by rw [e1, openBraces_eq]; simp
    have l2 := spacesStar_le (fun r : Str => r.length) _ (by
      intro t x hx
      cases h2 : matchAtoms key t with
      | none => rw [h2] at hx; cases hx
      | some s2 =>
        rw [h2, Option.bind] at hx
        have l3 := matchAtoms_le key t s2 h2
        have l4 := spacesStar_le (fun r : Str => r.length) _
          (fun t2 x2 hx2 => matchLit_le hx2) s2 x hx
        simp only at l4 ⊢
        omega) s1 rest h
    simp only at l2
    omega

/-- The global replace of the rendering does not depend on the fuel once there
is enough: the fuel `s.length + 1` of `replaceAll` never runs out. -/
theorem replaceFrom_fuel (key : List Atom) (repl : Str) :
    ∀ (n : Nat) (s : Str) (f1 f2 : Nat) (before : Str), s.length ≤ n → s.length < f1 →
      s.length < f2 → replaceFrom key repl f1 before s = replaceFrom key repl f2 before s
  | _, [], f1 + 1, f2 + 1, _, _, _, _ => by simp [replaceFrom]
  | 0, c :: s, _, _, _, h, _, _ => by simp at h
  | n + 1, c :: s, f1 + 1, f2 + 1, before, hn, h1, h2 => by
    simp only [List.length_cons] at hn h1 h2
    simp only [replaceFrom]
    cases hm : matchPlaceholder key (c :: s) with
    | none =>
      simp only
      rw [replaceFrom_fuel key repl n s f1 f2 _ (by omega) (by omega) (by omega)]
    | some rest =>
      have hlt := matchPlaceholder_lt hm
      simp only [List.length_cons] at hlt
      simp only
      rw [replaceFrom_fuel key repl n rest f1 f2 _ (by omega) (by omega) (by omega)]

/-! ## The submission paths -/

theorem errorHandler_api (message : Str) (code : Nat) (hm : message ≠ []) (hc : code ≠ 0) :
    errorHandler ⟨message, some code⟩ = .json code (.failure message) := by
  cases message with
  | nil => exact absurd rfl hm
  | cons c cs => simp [errorHandler, hc]

theorem errorHandler_plain (err : JsError) (h : err.statusCode = none) :
    ∃ message, errorHandler err = .json 500 (.failure message) := by
  refine ⟨if err.message.isEmpty then "Internal Server Error".toList else err.message, ?_⟩
  simp [errorHandler, h]

theorem applyTemplate_error_status {rend : Renderer} {store : Str → Option Template}
    {email : EmailData} {err : JsError} (h : applyTemplate rend store email = .error err) :
    err.statusCode = none := by
  cases hid : email.templateId with
  | none => simp [applyTemplate, hid] at h
  | some id =>
    by_cases he : id.isEmpty = true
    · simp [applyTemplate, hid, he] at h
    · cases hs : store id with
      | none =>
        simp [applyTemplate, hid, he, hs] at h
        rw [← h]
      | some template =>
        cases hd : email.templateData with
        | none => simp [applyTemplate, hid, he, hs, hd] at h
        | some data =>
          cases hr : rend template data with
          | ok t => simp [applyTemplate, hid, he, hs, hd, hr] at h
          | error message =>
            simp [applyTemplate, hid, he, hs, hd, hr] at h
            rw [← h]

theorem applyTemplate_ok_fields {rend : Renderer} {store : Str → Option Template}
    {email data : EmailData} (h : applyTemplate rend store email = .ok data) :
    data.metadata = email.metadata ∧ data.recipient = email.recipient ∧
      data.templateId = email.templateId ∧ data.templateData = email.templateData ∧
      data.cc = email.cc ∧ data.bcc = email.bcc := by
  cases hid : email.templateId with
  | none =>
    simp [applyTemplate, hid] at h
    subst h
    simp [hid]
  | some id =>
    by_cases he : id.isEmpty = true
    · simp [applyTemplate, hid, he] at h
      subst h
      simp [hid]
    · cases hs : store id with
      | none => simp [applyTemplate, hid, he, hs] at h
      | some template =>
        cases hd : email.templateData with
        | none =>
          simp [applyTemplate, hid, he, hs, hd] at h
          rw [← h]
          simp [hid, hd]
        | some d =>
          cases hr : rend template d with
          | ok t =>
            simp [applyTemplate, hid, he, hs, hd, hr] at h
            rw [← h]
            simp [hid, hd]
          | error message => simp [applyTemplate, hid, he, hs, hd, hr] at h

theorem applyTemplate_unresolved (rend : Renderer) (store : Str → Option Template)
    (email : EmailData) (hp : present email.templateId = true)
    (hs : store (email.templateId.getD []) = none) : admitted rend store email = false := by
  unfold admitted applyTemplate
  cases hid : email.templateId with
  | none => simp [present, hid] at hp
  | some id =>
    have hne : id.isEmpty = false := by simpa [present, hid] using hp
    have hs2 : store id = none := by simpa [hid] using hs
    simp [hne, hs2]

theorem processedEmails_ok (req : Request) (templateId : Option Str) :
    ∀ (es ps : List EmailData), processedEmails req templateId es = .ok ps →
      ps = es.map (processedItem req templateId) ∧
        es.all (fun e => present e.recipient) = true := by
  intro es
  induction es with
  | nil => intro ps h; simp [processedEmails] at h; subst h; simp
  | cons e rest ih =>
    intro ps h
    unfold processedEmails at h
    cases hr : present e.recipient with
    | false => simp [hr] at h
    | true =>
      simp only [hr, Bool.not_true] at h
      cases hrest : processedEmails req templateId rest with
      | error err => simp [hrest] at h
      | ok qs =>
        simp only [hrest] at h
        have h2 := ih qs hrest
        simp at h
        subst h
        simp [processedItem, h2.1, hr]
        exact List.all_eq_true.mp h2.2 |> fun hall => by simpa using hall

theorem processedEmails_error (req : Request) (templateId : Option Str) :
    ∀ (es : List EmailData) (err : JsError), processedEmails req templateId es = .error err →
      err = ⟨"Each email must have a recipient".toList, some 400⟩ := by
  intro es
  induction es with
  | nil => intro err h; simp [processedEmails] at h
  | cons e rest ih =>
    intro err h
    unfold processedEmails at h
    cases hr : present e.recipient with
    | false => simp [hr] at h; exact h.symm
    | true =>
      simp only [hr, Bool.not_true] at h
      cases hrest : processedEmails req templateId rest with
      | error err2 =>
        simp [hrest] at h
        subst h
        exact ih _ hrest
      | ok qs => simp [hrest] at h

theorem bulkJobs_ok (rend : Renderer) (store : Str → Option Template) (batchId : Str) :
    ∀ (es : List EmailData) (jobs : List (Str × EmailData)),
      bulkJobs rend store batchId es = .ok jobs →
        jobs.map (fun j => some j.2) = es.map (stampedPayload rend store batchId) ∧
          jobs.map (fun j => j.1) = es.map (fun _ => "send-email".toList) ∧
          es.all (admitted rend store) = true ∧
          jobs.map (fun j => j.2.metadata) =
            es.map (fun e => some (setKey (e.metadata.getD []) "batchId".toList (.str batchId))) ∧
          jobs.map (fun j => j.2.recipient) = es.map (fun e => e.recipient) := by
  intro es
  induction es with
  | nil => intro jobs h; simp [bulkJobs] at h; subst h; simp
  | cons e rest ih =>
    intro jobs h
    unfold bulkJobs at h
    cases ha : applyTemplate rend store e with
    | error err => simp [ha] at h
    | ok data =>
      simp only [ha] at h
      cases hrest : bulkJobs rend store batchId rest with
      | error err => simp [hrest] at h
      | ok js =>
        simp only [hrest] at h
        have h2 := ih js hrest
        have hf := applyTemplate_ok_fields ha
        simp at h
        subst h
        refine ⟨?_, ?_, ?_, ?_, ?_⟩
        · simp [stampedPayload, ha, h2.1]
        · simp [h2.2.1]
        · simp only [List.all_cons, admitted, ha, h2.2.2.1, Bool.and_self]
        · simp [h2.2.2.2.1, hf.1]
        · simp [h2.2.2.2.2, hf.2.1]

theorem bulkJobs_error (rend : Renderer) (store : Str → Option Template) (batchId : Str) :
    ∀ (es : List EmailData) (err : JsError), bulkJobs rend store batchId es = .error err →
      err.statusCode = none ∧ es.all (admitted rend store) = false := by
  intro es
  induction es with
  | nil => intro err h; simp [bulkJobs] at h
  | cons e rest ih =>
    intro err h
    unfold bulkJobs at h
    cases ha : applyTemplate rend store e with
    | error err2 =>
      simp [ha] at h
      subst h
      exact ⟨applyTemplate_error_status ha, by simp [admitted, ha]⟩
    | ok data =>
      simp only [ha] at h
      cases hrest : bulkJobs rend store batchId rest with
      | error err2 =>
        simp [hrest] at h
        subst h
        have h2 := ih _ hrest
        refine ⟨h2.1, ?_⟩
        have h3 := h2.2
        simp only [List.all_cons, h3, Bool.and_false]
      | ok js => simp [hrest] at h

theorem queueAddBulk_eq : ∀ (jobs : List (Str × EmailData)) (q : Queue),
    queueAddBulk q jobs =
      { jobs := q.jobs ++ numbered q.nextId jobs, nextId := q.nextId + jobs.length } := by
  intro jobs
  induction jobs with
  | nil => intro q; simp [queueAddBulk, numbered]
  | cons j rest ih =>
    intro q
    obtain ⟨name, data⟩ := j
    simp [queueAddBulk, numbered, ih, queueAdd]
    omega

theorem numbered_data : ∀ (jobs : List (Str × EmailData)) (start : Nat),
    (numbered start jobs).map (fun j => j.data) = jobs.map (fun j => j.2) ∧
      (numbered start jobs).map (fun j => j.name) = jobs.map (fun j => j.1) ∧
      (numbered start jobs).map (fun j => j.id) = (List.range jobs.length).map (fun i => start + i) ∧
      (numbered start jobs).length = jobs.length := by
  intro jobs
  induction jobs with
  | nil => intro start; simp [numbered]
  | cons j rest ih =>
    intro start
    obtain ⟨name, data⟩ := j
    have h := ih (start + 1)
    refine ⟨?_, ?_, ?_, ?_⟩
    · simp [numbered, h.1]
    · simp [numbered, h.2.1]
    · simp only [numbered, List.map_cons, h.2.2.1, List.length_cons, List.range_succ_eq_map,
        List.map_map]
      simp
      intro a _
      omega
    · simp [numbered, h.2.2.2]

theorem bulkJobs_of_admitted (rend : Renderer) (store : Str → Option Template) (batchId : Str)
    (es : List EmailData) (h : es.all (admitted rend store) = true) :
    ∃ jobs, bulkJobs rend store batchId es = .ok jobs := by
  cases hb : bulkJobs rend store batchId es with
  | ok jobs => exact ⟨jobs, rfl⟩
  | error err =>
    have h2 := (bulkJobs_error rend store batchId es err hb).2
    rw [h] at h2
    cases h2

theorem getKey_map_set (key : Str) (value : JsValue) :
    ∀ (obj : List (Str × JsValue)), (obj.any fun p => p.1 = key) = true →
      getKey (obj.map fun p => if p.1 = key then (p.1, value) else p) key = some value := by
  intro obj
  induction obj with
  | nil => intro h; simp at h
  | cons p rest ih =>
    intro h
    by_cases hp : p.1 = key
    · simp [getKey, hp]
    · have hrest : (rest.any fun p => p.1 = key) = true := by
        rw [List.any_cons] at h
        simpa only [hp, decide_False, Bool.false_or] using h
      have h2 := ih hrest
      simp only [getKey] at h2 ⊢
      simp only [List.map_cons, hp, if_false, List.find?_cons, decide_False]
      exact h2

theorem getKey_map_other (key other : Str) (value : JsValue) (hne : other ≠ key) :
    ∀ (obj : List (Str × JsValue)),
      getKey (obj.map fun p => if p.1 = key then (p.1, value) else p) other = getKey obj other := by
  intro obj
  induction obj with
  | nil => rfl
  | cons p rest ih =>
    simp only [getKey] at ih ⊢
    by_cases hp : p.1 = key
    · have hpo : ¬ p.1 = other := fun h => hne (h.symm.trans hp)
      simp only [List.map_cons, hp, if_true, List.find?_cons]
      simp only [← hp, hpo, decide_False]
      simpa [hp] using ih
    · by_cases hpo : p.1 = other
      · subst hpo
        simp only [List.map_cons, hp, ↓reduceIte, List.find?_cons, decide_True]
      · simp only [List.map_cons, hp, if_false, List.find?_cons, hpo, decide_False]
        exact ih

theorem getKey_append_absent (key : Str) (value : JsValue) :
    ∀ (obj : List (Str × JsValue)), (obj.any fun p => p.1 = key) = false →
      getKey (obj ++ [(key, value)]) key = some value := by
  intro obj
  induction obj with
  | nil => intro _; simp [getKey]
  | cons p rest ih =>
    intro h
    have hp : ¬ p.1 = key := by
      intro hp
      simp [hp] at h
    have hrest : (rest.any fun p => p.1 = key) = false := by
      rw [List.any_cons] at h
      simpa only [hp, decide_False, Bool.false_or] using h
    have h2 := ih hrest
    simp only [getKey] at h2 ⊢
    simp only [List.cons_append, List.find?_cons, hp, decide_False]
    exact h2

theorem getKey_append_other (key other : Str) (value : JsValue) (hne : other ≠ key) :
    ∀ (obj : List (Str × JsValue)), getKey (obj ++ [(key, value)]) other = getKey obj other := by
  intro obj
  induction obj with
  | nil =>
    have : ¬ key = other := fun h => hne h.symm
    simp [getKey, this]
  | cons p rest ih =>
    simp only [getKey] at ih ⊢
    by_cases hpo : p.1 = other
    · simp [hpo]
    · simp only [List.cons_append, List.find?_cons, hpo, decide_False]
      exact ih

theorem getKey_setKey_same (obj : List (Str × JsValue)) (key : Str) (value : JsValue) :
    getKey (setKey obj key value) key = some value := by
  unfold setKey
  cases h : obj.any fun p => decide (p.1 = key) with
  | true => simpa using getKey_map_set key value obj h
  | false => simpa using getKey_append_absent key value obj h

theorem getKey_setKey_other (obj : List (Str × JsValue)) (key other : Str) (value : JsValue)
    (hne : other ≠ key) : getKey (setKey obj key value) other = getKey obj other := by
  unfold setKey
  cases h : obj.any fun p => decide (p.1 = key) with
  | true => simpa using getKey_map_other key other value hne obj
  | false => simpa using getKey_append_other key other value hne obj

theorem inadmissible_not_rendered (rend : Renderer) (store : Str → Option Template)
    (req : Request) (templateId : Option Str) (email : EmailData)
    (h : inadmissible store templateId email = true) :
    validatedAndRendered rend store req templateId email = false := by
  unfold validatedAndRendered
  cases hr : present email.recipient with
  | false => rfl
  | true =>
    have h2 : present (orElseStr email.templateId templateId) = true ∧
        (store ((orElseStr email.templateId templateId).getD [])).isNone = true := by
      simpa [inadmissible, hr] using h
    have h3 := applyTemplate_unresolved rend store (processedItem req templateId email)
      (by simpa [processedItem] using h2.1)
      (by simpa [processedItem, Option.isNone_iff_eq_none] using h2.2)
    simp [h3]

theorem sendBulkEmails_cases (rend : Renderer) (store : Str → Option Template) (now : Nat)
    (req : Request) (emails : List EmailData) (templateId : Option Str) (q : Queue) :
    ((emailController.sendBulkEmails rend store now req (some emails) templateId q).1 = q ∧
      ∃ message,
        (emailController.sendBulkEmails rend store now req (some emails) templateId q).2 =
            .json 400 (.failure message) ∨
          (emailController.sendBulkEmails rend store now req (some emails) templateId q).2 =
            .json 500 (.failure message)) ∨
    (emails.all (validatedAndRendered rend store req templateId) = true ∧
      ∃ jobs, bulkJobs rend store (batchIdAt now) (emails.map (processedItem req templateId)) =
          .ok jobs ∧
        emailController.sendBulkEmails rend store now req (some emails) templateId q =
          (queueAddBulk q jobs, .json 202 (.bulkQueued jobs.length (batchIdAt now)))) := by
  by_cases hempty : emails.isEmpty = true
  · left
    have hval : emailController.sendBulkEmails rend store now req (some emails) templateId q =
        (q, errorHandler ⟨"Invalid emails array".toList, some 400⟩) := by
      simp only [emailController.sendBulkEmails, hempty, ↓reduceIte]
    rw [hval]
    exact ⟨rfl, _, Or.inl (errorHandler_api _ 400 (by decide) (by decide))⟩
  · have hval : emailController.sendBulkEmails rend store now req (some emails) templateId q =
        match processedEmails req templateId emails with
        | .error e => (q, errorHandler e)
        | .ok ps =>
          match emailService.sendBulkEmails rend store now ps q with
          | (q1, .ok r) => (q1, .json 202 (.bulkQueued r.count r.batchId))
          | (q1, .error e) => (q1, errorHandler e) := by
      simp only [emailController.sendBulkEmails, hempty, ↓reduceIte, Bool.false_eq_true]
    rw [hval]
    cases hp : processedEmails req templateId emails with
    | error err =>
      left
      have he := processedEmails_error req templateId emails err hp
      subst he
      exact ⟨rfl, _, Or.inl (errorHandler_api _ 400 (by decide) (by decide))⟩
    | ok ps =>
      have hps := processedEmails_ok req templateId emails ps hp
      simp only [emailService.sendBulkEmails]
      cases hb : bulkJobs rend store (batchIdAt now) ps with
      | error err =>
        left
        have he := (bulkJobs_error rend store (batchIdAt now) ps err hb).1
        obtain ⟨message, hm⟩ := errorHandler_plain err he
        exact ⟨rfl, message, Or.inr hm⟩
      | ok jobs =>
        right
        have hall := (bulkJobs_ok rend store (batchIdAt now) ps jobs hb).2.2.1
        refine ⟨?_, jobs, ?_, rfl⟩
        · rw [hps.1] at hall
          rw [List.all_eq_true] at hall ⊢
          intro e he
          have h1 := hall (processedItem req templateId e) (List.mem_map_of_mem _ he)
          have h2 := List.all_eq_true.mp hps.2 e he
          simp [validatedAndRendered, h1, h2]
        · rw [← hps.1]; exact hb

/-- The controller `sendEmail` on every body: the response is a 400 exactly
when the validation of the body fails, and then the queue is left as it was;
a body that passes validation and whose template branch goes through is put
on the queue once, as the job with the next id, and answered with 202 and
that id. -/
theorem sendEmail_validation (rend : Renderer) (store : Str → Option Template)
    (req : Request) (body : EmailData) (q : Queue) :
    ((∃ message, (emailController.sendEmail rend store req body q).2 =
        .json 400 (.failure message)) ↔ lacksRequired body = true) ∧
    (lacksRequired body = true → (emailController.sendEmail rend store req body q).1 = q) ∧
    (lacksRequired body = false → ∀ data,
      applyTemplate rend store { body with metadata := some (requestMetadata [] req) } =
        .ok data →
      emailController.sendEmail rend store req body q =
        ({ jobs := q.jobs ++ [{ id := q.nextId, name := "send-email".toList, data := data }],
           nextId := q.nextId + 1 }, .json 202 (.queued q.nextId))) := by
  cases h1 : present body.recipient with
  | false =>
    have hv : emailController.sendEmail rend store req body q =
        (q, errorHandler ⟨"Recipient email is required".toList, some 400⟩) := by
      simp [emailController.sendEmail, h1]
    have hl : lacksRequired body = true := by simp [lacksRequired, h1]
    rw [hv, hl]
    refine ⟨⟨fun _ => rfl, fun _ => ⟨_, errorHandler_api _ 400 (by decide) (by decide)⟩⟩,
      fun _ => rfl, fun h => by cases h⟩
  | true =>
    cases h2 : (!present body.subject && !present body.templateId) with
    | true =>
      have hv : emailController.sendEmail rend store req body q =
          (q, errorHandler ⟨"Subject is required".toList, some 400⟩) := by
        simp only [emailController.sendEmail, h1, h2]
        simp
      have hl : lacksRequired body = true := by simp [lacksRequired, h1, h2]
      rw [hv, hl]
      refine ⟨⟨fun _ => rfl, fun _ => ⟨_, errorHandler_api _ 400 (by decide) (by decide)⟩⟩,
        fun _ => rfl, fun h => by cases h⟩
    | false =>
      cases h3 : (!present body.text && !present body.html && !present body.templateId) with
      | true =>
        have hv : emailController.sendEmail rend store req body q =
            (q, errorHandler ⟨"Email content or template ID is required".toList, some 400⟩) := by
          simp only [emailController.sendEmail, h1, h2, h3]
          simp
        have hl : lacksRequired body = true := by simp [lacksRequired, h1, h3]
        rw [hv, hl]
        refine ⟨⟨fun _ => rfl, fun _ => ⟨_, errorHandler_api _ 400 (by decide) (by decide)⟩⟩,
          fun _ => rfl, fun h => by cases h⟩
      | false =>
        have hl : lacksRequired body = false := by simp [lacksRequired, h1, h2, h3]
        have hv : emailController.sendEmail rend store req body q =
            match emailService.sendEmail rend store
                { body with metadata := some (requestMetadata [] req) } q with
            | (q1, .ok jobId) => (q1, .json 202 (.queued jobId))
            | (q1, .error e) => (q1, errorHandler e) := by
          simp only [emailController.sendEmail, h1, h2, h3]
          simp
        rw [hv, hl]
        cases ha : applyTemplate rend store
            { body with metadata := some (requestMetadata [] req) } with
        | error err =>
          obtain ⟨message, hm⟩ := errorHandler_plain err (applyTemplate_error_status ha)
          have hs : emailService.sendEmail rend store
              { body with metadata := some (requestMetadata [] req) } q = (q, .error err) := by
            simp only [emailService.sendEmail, ha]
          rw [hs]
          dsimp only
          rw [hm]
          refine ⟨⟨?_, ?_⟩, ?_, ?_⟩
          · rintro ⟨m, hm2⟩
            cases hm2
          · intro h
            cases h
          · intro h
            cases h
          · intro _ data hd
            cases hd
        | ok data =>
          have hs : emailService.sendEmail rend store
              { body with metadata := some (requestMetadata [] req) } q =
              ({ jobs := q.jobs ++ [{ id := q.nextId, name := "send-email".toList, data := data }],
                 nextId := q.nextId + 1 }, .ok q.nextId) := by
            simp only [emailService.sendEmail, ha, queueAdd]
          rw [hs]
          dsimp only
          refine ⟨⟨?_, ?_⟩, ?_, ?_⟩
          · rintro ⟨m, hm2⟩
            cases hm2
          · intro h
            cases h
          · intro h
            cases h
          · intro _ data2 hd
            cases hd
            rfl

theorem numbered_map {β : Type} (f : EmailData → β) (jobs : List (Str × EmailData))
    (start : Nat) :
    (numbered start jobs).map (fun j => f j.data) = jobs.map (fun j => f j.2) := by
  have h := congrArg (List.map f) (numbered_data jobs start).1
  simpa [List.map_map] using h

/-! ## The tracking endpoints -/

theorem findLog_updateTracked (f : TrackedLog → TrackedLog) (id : Str)
    (hf : ∀ x, (f x).id = x.id) :
    ∀ (logs : List TrackedLog) (e : TrackedLog), findLog logs id = some e →
      findLog (updateTracked logs id f) id = some (f e) := by
  intro logs
  induction logs with
  | nil => intro e h; simp [findLog] at h
  | cons x rest ih =>
    intro e h
    by_cases hx : x.id = id
    · have he : x = e := by simpa [findLog, hx] using h
      subst he
      simp [findLog, updateTracked, hx, hf]
    · have hrest : findLog rest id = some e := by simpa [findLog, hx] using h
      have h2 := ih e hrest
      simp only [findLog, updateTracked] at h2 ⊢
      simp only [List.map_cons, hx, if_false, List.find?_cons, decide_False]
      exact h2

theorem updateTracked_absent (f : TrackedLog → TrackedLog) (id : Str) :
    ∀ (logs : List TrackedLog), findLog logs id = none → updateTracked logs id f = logs := by
  intro logs
  induction logs with
  | nil => intro _; rfl
  | cons x rest ih =>
    intro h
    by_cases hx : x.id = id
    · simp [findLog, hx] at h
    · have hrest : findLog rest id = none := by simpa [findLog, hx] using h
      have h2 := ih hrest
      simp only [updateTracked] at h2 ⊢
      simp only [List.map_cons, hx, if_false, h2]

/-- A call of `handleOpen` for a known id that completes without error leaves
the stores with the row updated and the counter `opened` incremented. -/
theorem handleOpen_known (geoip : Str → Option Geo) (faults : Faults) (now : Nat)
    (trackingId : Str) (req : Visit) (w : TrackingWorld) (e : TrackedLog)
    (h : findLog w.logs trackingId = some e)
    (hok : (emailService.handleOpen geoip faults now trackingId req w).2 = .ok ()) :
    (emailService.handleOpen geoip faults now trackingId req w).1 =
      { w with
        logs := updateTracked w.logs trackingId fun x =>
          { x with
            openCount := e.openCount + 1
            openedAt := some now
            ipAddress := some req.ip
            country := geoOr (geoip req.ip) Geo.country (some "Unknown".toList)
            region := geoOr (geoip req.ip) Geo.region (some "Unknown".toList)
            city := geoOr (geoip req.ip) Geo.city (some "Unknown".toList) }
        metrics := hincrby w.metrics "opened" 1 } := by
  unfold emailService.handleOpen at hok ⊢
  cases h1 : faults.lookup with
  | true => simp [h1] at hok
  | false =>
    cases h2 : faults.resolve with
    | true => simp [h1, h, h2] at hok
    | false =>
      cases h3 : faults.update with
      | true => simp [h1, h, h2, h3] at hok
      | false =>
        cases h4 : faults.counter 0 with
        | true => simp [h1, h, h2, h3, h4] at hok
        | false => simp [h1, h, h2, h3, h4]

theorem handleOpen_unknown (geoip : Str → Option Geo) (faults : Faults) (now : Nat)
    (trackingId : Str) (req : Visit) (w : TrackingWorld)
    (h : findLog w.logs trackingId = none) (hl : faults.lookup = false) :
    emailService.handleOpen geoip faults now trackingId req w = (w, .ok ()) := by
  simp [emailService.handleOpen, h, hl]

/-- After the calls of `handleOpenSeq` for a known id, all completed without
error, the open counter of the entry and the counter `opened` have grown by
the number of calls. -/
theorem handleOpenSeq_counts (geoip : Str → Option Geo) (trackingId : Str) :
    ∀ (calls : List (Faults × Nat × Visit)) (w : TrackingWorld) (e : TrackedLog),
      findLog w.logs trackingId = some e →
      (handleOpenSeq geoip trackingId calls w).2 = true →
      ∃ e2, findLog (handleOpenSeq geoip trackingId calls w).1.logs trackingId = some e2 ∧
        e2.openCount = e.openCount + calls.length ∧
        (handleOpenSeq geoip trackingId calls w).1.metrics "opened" =
          w.metrics "opened" + calls.length := by
  intro calls
  induction calls with
  | nil =>
    intro w e h _
    exact ⟨e, h, by simp, by simp [handleOpenSeq]⟩
  | cons c rest ih =>
    intro w e h hall
    obtain ⟨faults, now, req⟩ := c
    cases hrun : emailService.handleOpen geoip faults now trackingId req w with
    | mk w1 r =>
      cases r with
      | error m => simp [handleOpenSeq, hrun] at hall
      | ok u =>
        have hok : (emailService.handleOpen geoip faults now trackingId req w).2 = .ok () := by
          rw [hrun]
        have hw1 := handleOpen_known geoip faults now trackingId req w e h hok
        rw [hrun] at hw1
        simp only at hw1
        have hfind := findLog_updateTracked
          (fun x : TrackedLog =>
            { x with
              openCount := e.openCount + 1
              openedAt := some now
              ipAddress := some req.ip
              country := geoOr (geoip req.ip) Geo.country (some "Unknown".toList)
              region := geoOr (geoip req.ip) Geo.region (some "Unknown".toList)
              city := geoOr (geoip req.ip) Geo.city (some "Unknown".toList) })
          trackingId (fun _ => rfl) w.logs e h
        have hall2 : (handleOpenSeq geoip trackingId rest w1).2 = true := by
          simpa [handleOpenSeq, hrun] using hall
        have hfind1 : findLog w1.logs trackingId = some
            { e with
              openCount := e.openCount + 1
              openedAt := some now
              ipAddress := some req.ip
              country := geoOr (geoip req.ip) Geo.country (some "Unknown".toList)
              region := geoOr (geoip req.ip) Geo.region (some "Unknown".toList)
              city := geoOr (geoip req.ip) Geo.city (some "Unknown".toList) } := by
          rw [hw1]; exact hfind
        obtain ⟨e2, he2, hc, hm⟩ := ih w1 _ hfind1 hall2
        refine ⟨e2, ?_, ?_, ?_⟩
        · simpa [handleOpenSeq, hrun] using he2
        · rw [hc]; simp only [List.length_cons]; omega
        · have hm1 : w1.metrics "opened" = w.metrics "opened" + 1 := by
            rw [hw1]; simp [hincrby]
          simp only [handleOpenSeq, hrun, hm, hm1, List.length_cons]
          push_cast
          omega

/-- The `try` block of `handleClick` on a url that is present and decodable
ends with the redirect to the decoded url or with an error thrown. -/
theorem clickTry_decodable (geoip : Str → Option Geo) (faults : Faults) (now : Nat)
    (trackingId : Str) (url decodedUrl : Str) (req : Visit) (w : TrackingWorld)
    (hne : url ≠ []) (hdec : decodeURIComponent url = some decodedUrl) :
    (clickTry geoip faults now trackingId (some url) req w).2.2 =
        .ok (.redirect 302 decodedUrl) ∨
      ∃ message, (clickTry geoip faults now trackingId (some url) req w).2.2 =
        .error message := by
  have hp : present (some url) = true := by
    cases url with
    | nil => exact absurd rfl hne
    | cons _ _ => rfl
  cases hf : findLog w.logs trackingId with
  | none => cases h1 : faults.lookup <;> simp [clickTry, hp, hdec, hf, h1]
  | some e =>
    simp only [clickTry, hp, hdec, hf, Bool.not_true, Bool.false_eq_true, if_false,
      Option.getD_some, apply_ite Prod.snd]
    split_ifs <;>
      first
        | exact Or.inl rfl
        | exact Or.inr ⟨_, rfl⟩

theorem handleClick_unknown (geoip : Str → Option Geo) (faults : Faults) (now : Nat)
    (trackingId : Str) (url decodedUrl : Str) (req : Visit) (w : TrackingWorld)
    (hne : url ≠ []) (hdec : decodeURIComponent url = some decodedUrl)
    (hf : findLog w.logs trackingId = none) :
    (emailService.handleClick geoip faults now trackingId (some url) req w).world = w ∧
      (emailService.handleClick geoip faults now trackingId (some url) req w).trace =
        [.lookup trackingId] := by
  have hp : present (some url) = true := by
    cases url with
    | nil => exact absurd rfl hne
    | cons _ _ => rfl
  unfold emailService.handleClick clickTry
  simp only [hp, Bool.not_true, Bool.false_eq_true, if_false, Option.getD_some, hdec, hf]
  cases faults.lookup <;> simp

theorem handleClick_malformed (geoip : Str → Option Geo) (faults : Faults) (now : Nat)
    (trackingId : Str) (url : Str) (req : Visit) (w : TrackingWorld)
    (hne : url ≠ []) (hdec : decodeURIComponent url = none) :
    (emailService.handleClick geoip faults now trackingId (some url) req w).ending =
        .uncaught "URI malformed".toList ∧
      (emailService.handleClick geoip faults now trackingId (some url) req w).trace = [] := by
  have hp : present (some url) = true := by
    cases url with
    | nil => exact absurd rfl hne
    | cons _ _ => rfl
  unfold emailService.handleClick clickTry
  simp [hp, hdec]

/-- A call of `handleClick` for a known id with a decodable url, where the
lookup, the resolution and the update go through, leaves the entry with status
`clicked` and with the record of this click as its `clickDetails`, in place
of the record that was there; `clickUrls`, `clickCount` and `clickAt` keep
their values. -/
theorem handleClick_known (geoip : Str → Option Geo) (faults : Faults) (now : Nat)
    (trackingId : Str) (url decodedUrl : Str) (req : Visit) (w : TrackingWorld)
    (e : TrackedLog) (hne : url ≠ []) (hdec : decodeURIComponent url = some decodedUrl)
    (hf : findLog w.logs trackingId = some e) (h1 : faults.lookup = false)
    (h2 : faults.resolve = false) (h3 : faults.update = false) :
    ∃ e2, findLog (emailService.handleClick geoip faults now trackingId (some url) req
        w).world.logs trackingId = some e2 ∧
      e2.status = Status.clicked ∧
      e2.clickDetails = some
        { timestamp := now, url := decodedUrl,
          ip := orElseStr req.forwardedFor (some req.ip), userAgent := req.userAgent } ∧
      e2.metadata = e.metadata ∧ e2.clickUrls = e.clickUrls ∧ e2.clickCount = e.clickCount ∧
      e2.clickAt = e.clickAt ∧ e2.openCount = e.openCount := by
  have hp : present (some url) = true := by
    cases url with
    | nil => exact absurd rfl hne
    | cons _ _ => rfl
  have hfind := findLog_updateTracked
    (fun x : TrackedLog =>
      { x with
        status := Status.clicked
        ipAddress := orElseStr req.forwardedFor (some req.ip)
        country := geoOr (if present (orElseStr req.forwardedFor (some req.ip)) then
          geoip ((orElseStr req.forwardedFor (some req.ip)).getD []) else none) Geo.country
            e.country
        region := geoOr (if present (orElseStr req.forwardedFor (some req.ip)) then
          geoip ((orElseStr req.forwardedFor (some req.ip)).getD []) else none) Geo.region
            e.region
        city := geoOr (if present (orElseStr req.forwardedFor (some req.ip)) then
          geoip ((orElseStr req.forwardedFor (some req.ip)).getD []) else none) Geo.city e.city
        metadata := e.metadata
        clickDetails := some
          { timestamp := now, url := decodedUrl,
            ip := orElseStr req.forwardedFor (some req.ip), userAgent := req.userAgent } })
    trackingId (fun _ => rfl) w.logs e hf
  refine ⟨{ e with
      status := Status.clicked
      ipAddress := orElseStr req.forwardedFor (some req.ip)
      country := geoOr (if present (orElseStr req.forwardedFor (some req.ip)) then
        geoip ((orElseStr req.forwardedFor (some req.ip)).getD []) else none) Geo.country
          e.country
      region := geoOr (if present (orElseStr req.forwardedFor (some req.ip)) then
        geoip ((orElseStr req.forwardedFor (some req.ip)).getD []) else none) Geo.region
          e.region
      city := geoOr (if present (orElseStr req.forwardedFor (some req.ip)) then
        geoip ((orElseStr req.forwardedFor (some req.ip)).getD []) else none) Geo.city e.city
      metadata := e.metadata
      clickDetails := some
        { timestamp := now, url := decodedUrl,
          ip := orElseStr req.forwardedFor (some req.ip), userAgent := req.userAgent } },
    ?_, rfl, rfl, rfl, rfl, rfl, rfl, rfl⟩
  rw [← hfind]
  simp only [emailService.handleClick, clickTry, hp, Bool.not_true, Bool.false_eq_true, if_false,
    Option.getD_some, hdec, hf, h1, h2, h3]
  split_ifs <;> rfl

/-! ## Concurrent opens, statistics, and the click link on its way back -/

/-- The three steps of one call of `handleOpen`, made without another call in
between, leave the stores as `emailService.handleOpen` does when nothing
fails. -/
theorem openStep_thrice (geoip : Str → Option Geo) (trackingId : Str) (now : Nat)
    (req : Visit) (w : TrackingWorld) :
    (runSchedule geoip trackingId [0, 0, 0] [{ now := now, req := req, stage := .start }] w).2 =
      (emailService.handleOpen geoip noFaults now trackingId req w).1 := by
  cases h : findLog w.logs trackingId with
  | none => simp [runSchedule, openStep, emailService.handleOpen, noFaults, h]
  | some e => simp [runSchedule, openStep, emailService.handleOpen, noFaults, h]

theorem rateOf_finite (totalEmails : Nat) (x : ℚ) :
    rateOf totalEmails (.finite x) =
      if totalEmails > 0 then .finite (x / totalEmails * 100) else .finite 0 := by
  unfold rateOf
  by_cases h : totalEmails > 0
  · have hq : (totalEmails : ℚ) ≠ 0 := by
      have : totalEmails ≠ 0 := by omega
      exact_mod_cast this
    simp [h, JsNumber.div, JsNumber.mul, hq]
  · simp [h]

theorem rateOf_nan (totalEmails : Nat) (h : totalEmails > 0) :
    rateOf totalEmails .nan = .nan := by
  simp [rateOf, h, JsNumber.div, JsNumber.mul]

theorem mem_setField {α : Type} (obj : List (Str × α)) (key : Str) (value : α)
    (p : Str × α) (hp : p ∈ setField obj key value) : p ∈ obj ∨ p = (key, value) := by
  unfold setField at hp
  split at hp
  · rw [List.mem_map] at hp
    obtain ⟨a, ha, hap⟩ := hp
    by_cases hk : a.1 = key
    · right
      rw [if_pos hk] at hap
      rw [← hap, hk]
    · left
      rw [if_neg hk] at hap
      rw [← hap]; exact ha
  · rw [List.mem_append] at hp
    rcases hp with hp | hp
    · exact Or.inl hp
    · right
      simpa using hp

/-- Every rate that the `reduce` of the controller puts into `rates` is a
finite number. -/
theorem ratesReduce_finite (totalEmails : Nat) :
    ∀ (rows : List (Str × Nat)) (acc : List (Str × Nat) × List (Str × JsNumber)),
      (∀ p ∈ acc.2, ∃ q, p.2 = JsNumber.finite q) →
      ∀ p ∈ (rows.foldl
          (fun acc row =>
            (setField acc.1 row.1 row.2,
              setField acc.2 (row.1 ++ "Rate".toList) (rateOf totalEmails (.finite row.2))))
          acc).2, ∃ q, p.2 = JsNumber.finite q := by
  intro rows
  induction rows with
  | nil => intro acc h; exact h
  | cons row rest ih =>
    intro acc h
    rw [List.foldl_cons]
    apply ih
    intro p hp
    rcases mem_setField _ _ _ p hp with hp | hp
    · exact h p hp
    · rw [hp, rateOf_finite]
      split
      · exact ⟨_, rfl⟩
      · exact ⟨_, rfl⟩

/-- The statistics of the controller: the delivery and bounce rates are the
count divided by the total, times 100, when the total is positive, and 0
otherwise; every per-status rate is a finite number. -/
theorem controller_rates (statusRows : List (Str × Nat))
    (totalEmails deliveryStats bounceStats : Nat) :
    (emailController.getEmailStats statusRows totalEmails deliveryStats bounceStats).deliveryStats.rate
        = (if totalEmails > 0 then .finite ((deliveryStats : ℚ) / totalEmails * 100)
          else .finite 0) ∧
    (emailController.getEmailStats statusRows totalEmails deliveryStats bounceStats).bounceStats.rate
        = (if totalEmails > 0 then .finite ((bounceStats : ℚ) / totalEmails * 100)
          else .finite 0) ∧
    ∀ p ∈ (emailController.getEmailStats statusRows totalEmails deliveryStats bounceStats).rates,
      ∃ q, p.2 = JsNumber.finite q := by
  refine ⟨?_, ?_, ?_⟩
  · simp only [emailController.getEmailStats]
    exact rateOf_finite totalEmails deliveryStats
  · simp only [emailController.getEmailStats]
    exact rateOf_finite totalEmails bounceStats
  · simp only [emailController.getEmailStats, ratesReduce]
    exact ratesReduce_finite totalEmails statusRows ([], []) (fun p hp => by cases hp)

/-- The rate computation of the service: when the total is positive and no
row has the status `bounced`, the bounce rate is `NaN`. -/
theorem formatStats_bounceRate_nan (statusRows : List (Str × Nat)) (totalEmails : Nat)
    (redisMetrics : Option (String → Option Int)) (h : totalEmails > 0)
    (hb : getField (countsObject statusRows) "bounced".toList = none) :
    (formatStats statusRows totalEmails redisMetrics).bounceRate = .nan := by
  simp only [formatStats, hb, toNumber]
  exact rateOf_nan totalEmails h

/-! ## Anchors with attributes before `href` -/

theorem isJsSpace_toNat {w : Char} (hw : isJsSpace w = true) :
    w.toNat ≤ 32 ∨ 160 ≤ w.toNat := by
  simp only [isJsSpace, Bool.or_eq_true, beq_iff_eq, Bool.and_eq_true, decide_eq_true_eq] at hw
  omega

/-- No character of the `\s` class is matched, under the `i` flag, by a
pattern character between `=` and `z`. -/
theorem ciEq_space (p w : Char) (hp : 60 < p.toNat ∧ p.toNat < 123)
    (hw : isJsSpace w = true) : ciEq p w = false := by
  have h1 := isJsSpace_toNat hw
  cases h : ciEq p w with
  | false => rfl
  | true =>
    exfalso
    simp only [ciEq, Bool.or_eq_true, beq_iff_eq, Bool.and_eq_true, decide_eq_true_eq] at h
    rcases h with (h | h) | h
    · rw [h] at hp; omega
    · omega
    · omega

theorem isQuote_space {w : Char} (hw : isJsSpace w = true) : isQuote w = false := by
  have h1 := isJsSpace_toNat hw
  cases h : isQuote w with
  | false => rfl
  | true =>
    exfalso
    simp only [isQuote, Bool.or_eq_true, beq_iff_eq] at h
    omega

theorem matchHref_of_head (c : Char) (s : Str) (hc : ciEq 'h' c = false) :
    matchHref (c :: s) = none := by
  have e : "href=".toList = 'h' :: "ref=".toList := rfl
  unfold matchHref
  rw [e, matchLitCI, hc]
  rfl

/-- No `href=`, quote, `http` in a text that is followed by white space: the
part `href=(["'])(http[^"']+)\1` does not match at its head. -/
theorem matchHref_none_before (w : Char) (hw : isJsSpace w = true) (v rest : Str)
    (h : hrefHttpAt v = false) : matchHref (v ++ w :: rest) = none := by
  have hc1 : ∀ a ∈ "href=".toList, ciEq a w = false := by
    intro a ha
    apply ciEq_space a w _ hw
    simp only [String.toList, List.mem_cons, List.mem_singleton] at ha
    rcases ha with rfl | rfl | rfl | rfl | rfl | ha
    · decide
    · decide
    · decide
    · decide
    · decide
    · cases ha
  have hc2 : ∀ a ∈ "http".toList, ciEq a w = false := by
    intro a ha
    apply ciEq_space a w _ hw
    simp only [String.toList, List.mem_cons, List.mem_singleton] at ha
    rcases ha with rfl | rfl | rfl | rfl | ha
    · decide
    · decide
    · decide
    · decide
    · cases ha
  unfold matchHref
  cases h1 : matchLitCI "href=".toList (v ++ w :: rest) with
  | none => rfl
  | some s1 =>
    obtain ⟨r1, hr1, hs1⟩ := matchLitCI_before _ w hc1 v rest s1 h1
    cases r1 with
    | nil =>
      have hs2 : s1 = w :: rest := by simpa using hs1
      rw [hs2]
      simp only [isQuote_space hw, Bool.false_eq_true, if_false]
    | cons q r2 =>
      have hs2 : s1 = q :: (r2 ++ w :: rest) := by simpa using hs1
      rw [hs2]
      by_cases hq : isQuote q = true
      · cases h2 : matchLitCI "http".toList (r2 ++ w :: rest) with
        | none => simp only [hq, if_true, h2]
        | some s3 =>
          obtain ⟨r3, hr3, -⟩ := matchLitCI_before _ w hc2 r2 rest s3 h2
          have : hrefHttpAt v = true := by
            unfold hrefHttpAt
            rw [hr1]
            simp only [hq, hr3, Option.isSome_some, Bool.and_self]
          rw [h] at this; cases this
      · simp only [hq, Bool.false_eq_true, if_false]

/-- A property of the tails of `a ++ b`, from the tails of `b` and the tails
of `a` followed by `b`. -/
theorem tails_append {P : Str → Prop} (b : Str) (hb : ∀ u v, b = u ++ v → P v) :
    ∀ a : Str, (∀ u v, a = u ++ v → v ≠ [] → P (v ++ b)) → ∀ u v, a ++ b = u ++ v → P v
  | [], _, u, v, h => hb u v (by simpa using h)
  | c :: a, ha, u, v, h => by
    cases u with
    | nil =>
      have hv : v = (c :: a) ++ b := by simpa using h.symm
      rw [hv]
      exact ha [] (c :: a) rfl (by simp)
    | cons d u =>
      have h2 : a ++ b = u ++ v := by
        simp only [List.cons_append, List.cons.injEq] at h
        exact h.2
      exact tails_append b hb a (fun u1 v1 h1 hv => ha (c :: u1) v1 (by simp [h1]) hv) u v h2

theorem spacesStar_none_self {α : Type} (k : Str → Option α) :
    ∀ s : Str, spacesStar k s = none → k s = none
  | [], h => by simpa [spacesStar] using h
  | c :: s, h => by
    simp only [spacesStar] at h
    split at h
    · split at h
      · cases h
      · exact h
    · exact h

/-- When greedy `\s*` followed by `k` finds nothing, `k` finds nothing behind
the white space. -/
theorem spacesStar_none_inv {α : Type} (k : Str → Option α) (t : Str) :
    ∀ ws : Str, ws.all isJsSpace = true → spacesStar k (ws ++ t) = none → k t = none
  | [], _, h => spacesStar_none_self k t (by simpa using h)
  | c :: ws, hws, h => by
    simp only [List.all_cons, Bool.and_eq_true] at hws
    simp only [List.cons_append, spacesStar, hws.1, if_true] at h
    split at h
    · cases h
    · rename_i h1
      exact spacesStar_none_inv k t ws hws.2 h1

theorem spacesPlus_none_inv {α : Type} (k : Str → Option α) (t : Str) (ws : Str)
    (hne : ws ≠ []) (hws : ws.all isJsSpace = true) (h : spacesPlus k (ws ++ t) = none) :
    k t = none := by
  cases ws with
  | nil => exact absurd rfl hne
  | cons c ws =>
    simp only [List.all_cons, Bool.and_eq_true] at hws
    simp only [List.cons_append, spacesPlus, hws.1, if_true] at h
    exact spacesStar_none_inv k t ws hws.2 h

theorem lazyNotGt_none_self {α : Type} (k : Str → Option α) :
    ∀ s : Str, lazyNotGt k s = none → k s = none
  | [], h => by simpa [lazyNotGt] using h
  | c :: s, h => by
    simp only [lazyNotGt] at h
    split at h
    · cases h
    · rename_i h1
      exact h1

/-- When lazy `[^>]*?` followed by `k` finds nothing, `k` finds nothing
behind a run without `>`. -/
theorem lazyNotGt_none_inv {α : Type} (k : Str → Option α) (t : Str) :
    ∀ x : Str, x.all (fun c => c != '>') = true → lazyNotGt k (x ++ t) = none → k t = none
  | [], _, h => lazyNotGt_none_self k t (by simpa using h)
  | c :: x, hx, h => by
    simp only [List.all_cons, Bool.and_eq_true, bne_iff_ne, ne_eq] at hx
    simp only [List.cons_append, lazyNotGt] at h
    split at h
    · cases h
    · rw [if_neg hx.1] at h
      exact lazyNotGt_none_inv k t x (by simpa using hx.2) h

theorem spacesStar_only_upto {α : Type} (k : Str → Option α) (r : α) (rest : Str) :
    ∀ w : Str,
      (∀ u v, w = u ++ v → k (v ++ '>' :: rest) = none ∨ k (v ++ '>' :: rest) = some r) →
      spacesStar k (w ++ '>' :: rest) = none ∨ spacesStar k (w ++ '>' :: rest) = some r
  | [], h => by
    have h1 := h [] [] rfl
    have h2 : isJsSpace '>' = false := by decide
    simp only [List.nil_append] at h1 ⊢
    simpa [spacesStar, h2] using h1
  | c :: w, h => by
    have h1 := h [] (c :: w) rfl
    have ih := spacesStar_only_upto k r rest w (fun u v huv => h (c :: u) v (by simp [huv]))
    simp only [List.cons_append] at h1 ⊢
    simp only [spacesStar]
    split
    · rcases ih with ih | ih
      · rw [ih]; exact h1
      · rw [ih]; exact Or.inr rfl
    · exact h1

theorem spacesPlus_only_upto {α : Type} (k : Str → Option α) (r : α) (rest : Str) (w : Str)
    (h : ∀ u v, w = u ++ v → k (v ++ '>' :: rest) = none ∨ k (v ++ '>' :: rest) = some r) :
    spacesPlus k (w ++ '>' :: rest) = none ∨ spacesPlus k (w ++ '>' :: rest) = some r := by
  cases w with
  | nil =>
    have h2 : isJsSpace '>' = false := by decide
    left
    simp [spacesPlus, h2]
  | cons c w =>
    simp only [List.cons_append, spacesPlus]
    split
    · exact spacesStar_only_upto k r rest w (fun u v huv => h (c :: u) v (by simp [huv]))
    · exact Or.inl rfl

theorem lazyNotGt_only_upto {α : Type} (k : Str → Option α) (r : α) (rest : Str) :
    ∀ w : Str,
      (∀ u v, w = u ++ v → k (v ++ '>' :: rest) = none ∨ k (v ++ '>' :: rest) = some r) →
      lazyNotGt k (w ++ '>' :: rest) = none ∨ lazyNotGt k (w ++ '>' :: rest) = some r
  | [], h => by
    have h1 := h [] [] rfl
    simp only [List.nil_append] at h1 ⊢
    rcases h1 with h1 | h1
    · left; simp [lazyNotGt, h1]
    · right; simp [lazyNotGt, h1]
  | c :: w, h => by
    have h1 := h [] (c :: w) rfl
    have ih := lazyNotGt_only_upto k r rest w (fun u v huv => h (c :: u) v (by simp [huv]))
    simp only [List.cons_append] at h1 ⊢
    simp only [lazyNotGt]
    rcases h1 with h1 | h1
    · rw [h1]
      simp only
      split
      · exact Or.inl rfl
      · exact ih
    · rw [h1]
      exact Or.inr rfl

/-- When the part `href=(["'])(http[^"']+)\1` matches at no tail of the tag
but with the one result `r`, the pattern behind `<a\s+` matches with `r` or
not at all. -/
theorem matchGroupHref_only_upto (r : Char × Str × Str) (rest : Str) (w : Str)
    (h : ∀ u v, w = u ++ v →
      matchHref (v ++ '>' :: rest) = none ∨ matchHref (v ++ '>' :: rest) = some r) :
    ∀ u v, w = u ++ v →
      matchGroupHref (v ++ '>' :: rest) = none ∨ matchGroupHref (v ++ '>' :: rest) = some r := by
  have h2 : ∀ u v, w = u ++ v → spacesPlus matchHref (v ++ '>' :: rest) = none ∨
      spacesPlus matchHref (v ++ '>' :: rest) = some r :=
    fun u v huv => spacesPlus_only_upto matchHref r rest v
      (fun u1 v1 h3 => h (u ++ u1) v1 (by rw [huv, h3]; simp))
  intro u v huv
  have h3 := lazyNotGt_only_upto (spacesPlus matchHref) r rest v
    (fun u1 v1 h4 => h2 (u ++ u1) v1 (by rw [huv, h4]; simp))
  unfold matchGroupHref
  rcases h3 with h3 | h3
  · rw [h3]
    exact h u v huv
  · rw [h3]
    exact Or.inr rfl

theorem matchHref_of_space_head (v t : Str) (ws : Str) (hws : ws.all isJsSpace = true)
    (u : Str) (huv : ws = u ++ v) (hv : v ≠ []) : matchHref (v ++ t) = none := by
  cases v with
  | nil => exact absurd rfl hv
  | cons d v1 =>
    have hd : isJsSpace d = true := by
      have hall := List.all_eq_true.mp hws d (by rw [huv]; simp)
      exact hall
    rw [List.cons_append]
    exact matchHref_of_head d _ (ciEq_space 'h' d (by decide) hd)

/-- The anchor pattern at a tag `<a`, white space, attributes, white space
and a text `T` at whose head, and at no other place of the tag, the part
`href=(["'])(http[^"']+)\1` matches: the result is the match of that part. -/
theorem matchAnchor_attrs_core (ws1 attrs ws2 T post : Str) (r : Char × Str × Str)
    (hne1 : ws1 ≠ []) (hws1 : ws1.all isJsSpace = true)
    (hne2 : ws2 ≠ []) (hws2 : ws2.all isJsSpace = true)
    (hgt : attrs.all (fun x => x != '>') = true)
    (hattrs : anyTail hrefHttpAt attrs = false)
    (hT : matchHref (T ++ '>' :: post) = some r)
    (hTt : ∀ u v, T = u ++ v →
      matchHref (v ++ '>' :: post) = none ∨ matchHref (v ++ '>' :: post) = some r) :
    matchAnchor ("<a".toList ++ ((ws1 ++ (attrs ++ (ws2 ++ T))) ++ '>' :: post)) = some r := by
  have h0 := anyTail_eq_false.1 hattrs
  -- the tails of the tag
  have t2 : ∀ u v, ws2 ++ T = u ++ v →
      matchHref (v ++ '>' :: post) = none ∨ matchHref (v ++ '>' :: post) = some r :=
    tails_append (P := fun v =>
        matchHref (v ++ '>' :: post) = none ∨ matchHref (v ++ '>' :: post) = some r) T hTt ws2
      (fun u v huv hv => Or.inl (by
        rw [List.append_assoc]
        exact matchHref_of_space_head v _ ws2 hws2 u huv hv))
  have t3 : ∀ u v, attrs ++ (ws2 ++ T) = u ++ v →
      matchHref (v ++ '>' :: post) = none ∨ matchHref (v ++ '>' :: post) = some r :=
    tails_append (P := fun v =>
        matchHref (v ++ '>' :: post) = none ∨ matchHref (v ++ '>' :: post) = some r)
      (ws2 ++ T) t2 attrs
      (fun u v huv _ => Or.inl (by
        cases ws2 with
        | nil => exact absurd rfl hne2
        | cons w ws3 =>
          have hw : isJsSpace w = true := by
            simp only [List.all_cons, Bool.and_eq_true] at hws2
            exact hws2.1
          have := matchHref_none_before w hw v (ws3 ++ T ++ '>' :: post) (h0 u v huv)
          simpa using this))
  have t4 : ∀ u v, ws1 ++ (attrs ++ (ws2 ++ T)) = u ++ v →
      matchHref (v ++ '>' :: post) = none ∨ matchHref (v ++ '>' :: post) = some r :=
    tails_append (P := fun v =>
        matchHref (v ++ '>' :: post) = none ∨ matchHref (v ++ '>' :: post) = some r)
      (attrs ++ (ws2 ++ T)) t3 ws1
      (fun u v huv hv => Or.inl (by
        rw [List.append_assoc]
        exact matchHref_of_space_head v _ ws1 hws1 u huv hv))
  have honly := spacesPlus_only_upto matchGroupHref r post (ws1 ++ (attrs ++ (ws2 ++ T)))
    (matchGroupHref_only_upto r post _ t4)
  -- a match is found
  have hsome : spacesPlus matchGroupHref ((ws1 ++ (attrs ++ (ws2 ++ T))) ++ '>' :: post) ≠
      none := by
    intro hnone
    have e1 : (ws1 ++ (attrs ++ (ws2 ++ T))) ++ '>' :: post =
        ws1 ++ (attrs ++ (ws2 ++ (T ++ '>' :: post))) := by simp
    rw [e1] at hnone
    have h1 := spacesPlus_none_inv matchGroupHref _ ws1 hne1 hws1 hnone
    have h2 : lazyNotGt (spacesPlus matchHref) (attrs ++ (ws2 ++ (T ++ '>' :: post))) = none := by
      unfold matchGroupHref at h1
      split at h1
      · cases h1
      · rename_i h3
        exact h3
    have h3 := lazyNotGt_none_inv (spacesPlus matchHref) _ attrs hgt h2
    have h4 := spacesPlus_none_inv matchHref _ ws2 hne2 hws2 h3
    rw [hT] at h4
    cases h4
  have e4 : matchLitCI "<a".toList
      ("<a".toList ++ ((ws1 ++ (attrs ++ (ws2 ++ T))) ++ '>' :: post)) =
      some ((ws1 ++ (attrs ++ (ws2 ++ T))) ++ '>' :: post) :=
    matchLitCI_self "<a".toList _
  unfold matchAnchor
  rw [e4]
  rcases honly with h | h
  · exact absurd h hsome
  · exact h

/-- The anchor pattern at an anchor tag with attributes before its `href`:
the attributes hold no `>` and no `href=`, quote, `http`; the URL begins with
`http`, goes on with at least one character and holds no quote character; no
further `href=`, quote, `http` follows in the tag. -/
theorem matchAnchor_attrsFirst (ws1 attrs ws2 : Str) (q c : Char) (u rest post : Str)
    (hne1 : ws1 ≠ []) (hws1 : ws1.all isJsSpace = true)
    (hne2 : ws2 ≠ []) (hws2 : ws2.all isJsSpace = true)
    (hgt : attrs.all (fun x => x != '>') = true)
    (hattrs : anyTail hrefHttpAt attrs = false)
    (hq : isQuote q = true) (hu : (c :: u).any isQuote = false)
    (hhref : anyTail hrefHttpAt (("http".toList ++ c :: u) ++ q :: rest) = false) :
    matchAnchor (attrsFirstAnchor ws1 attrs ws2 q ("http".toList ++ c :: u) rest ++ post) =
      some (q, "http".toList ++ c :: u, rest ++ '>' :: post) := by
  have hm := matchHref_of_url q c u (rest ++ '>' :: post) hq hu
  have htail : anyTail hrefHttpAt ("ref=".toList ++ q :: (("http".toList ++ c :: u) ++
      q :: rest)) = false := by
    have e : "ref=".toList ++ q :: (("http".toList ++ c :: u) ++ q :: rest) =
        'r' :: 'e' :: 'f' :: '=' :: q :: (("http".toList ++ c :: u) ++ q :: rest) := rfl
    rw [e, anyTail_cons, anyTail_cons, anyTail_cons, anyTail_cons, anyTail_cons, hhref,
      hrefHttpAt_of_head _ _ (ciEq_h_quote hq), hrefHttpAt_of_head 'r' _ (by decide),
      hrefHttpAt_of_head 'e' _ (by decide), hrefHttpAt_of_head 'f' _ (by decide),
      hrefHttpAt_of_head '=' _ (by decide)]
    rfl
  have h0 := anyTail_eq_false.1 htail
  have hT : matchHref (('h' :: ("ref=".toList ++ q :: (("http".toList ++ c :: u) ++
      q :: rest))) ++ '>' :: post) = some (q, "http".toList ++ c :: u, rest ++ '>' :: post) := by
    have e2 : ('h' :: ("ref=".toList ++ q :: (("http".toList ++ c :: u) ++ q :: rest))) ++
        '>' :: post =
        "href=".toList ++ q :: ("http".toList ++ c :: u) ++ q :: (rest ++ '>' :: post) := by
      simp
    rw [e2]
    exact hm
  have hTt : ∀ u1 v, 'h' :: ("ref=".toList ++ q :: (("http".toList ++ c :: u) ++ q :: rest)) =
      u1 ++ v →
      matchHref (v ++ '>' :: post) = none ∨
        matchHref (v ++ '>' :: post) =
          some (q, "http".toList ++ c :: u, rest ++ '>' :: post) := by
    intro u1 v huv
    cases u1 with
    | nil =>
      right
      have hv : v = 'h' :: ("ref=".toList ++ q :: (("http".toList ++ c :: u) ++ q :: rest)) := by
        simpa using huv.symm
      rw [hv]
      exact hT
    | cons a u2 =>
      left
      have huv1 : "ref=".toList ++ q :: (("http".toList ++ c :: u) ++ q :: rest) = u2 ++ v := by
        simp only [List.cons_append, List.cons.injEq] at huv
        exact huv.2
      exact hrefHttpAt_of_matchHref v post (h0 u2 v huv1)
  have hcore := matchAnchor_attrs_core ws1 attrs ws2 _ post _ hne1 hws1 hne2 hws2 hgt hattrs
    hT hTt
  have e3 : attrsFirstAnchor ws1 attrs ws2 q ("http".toList ++ c :: u) rest ++ post =
      "<a".toList ++ ((ws1 ++ (attrs ++ (ws2 ++
        'h' :: ("ref=".toList ++ q :: (("http".toList ++ c :: u) ++ q :: rest))))) ++
        '>' :: post) := by
    simp [attrsFirstAnchor]
  rw [e3]
  exact hcore

/-! ## The tracking image under the click-tracking rewrite -/

theorem matchLitCI_drop {p s r : Str} (h : matchLitCI p s = some r) : r = s.drop p.length := by
  induction p generalizing s with
  | nil => simp only [matchLitCI, Option.some.injEq] at h; simp [h]
  | cons a p ih =>
    cases s with
    | nil => simp [matchLitCI] at h
    | cons c s =>
      simp only [matchLitCI] at h
      split at h
      · simpa using ih h
      · cases h

theorem beforeBodyClose_of_not_includes :
    ∀ s : Str, includes bodyClose s = false → beforeBodyClose s = s
  | [], _ => rfl
  | c :: s, h => by
    simp only [includes, Bool.or_eq_false_iff] at h
    rw [beforeBodyClose, h.1]
    simp only [Bool.false_eq_true, if_false]
    rw [beforeBodyClose_of_not_includes s h.2]

theorem replaceFirst_beforeBodyClose (repl : Str) (hrepl : ∀ c ∈ repl, c ≠ '$') :
    ∀ (s before : Str), includes bodyClose s = true →
      ∃ post, replaceFirst bodyClose repl before s = beforeBodyClose s ++ repl ++ post
  | [], before, h => by
    rw [bodyClose_eq] at h
    simp [includes, matchLit] at h
  | c :: s, before, h => by
    cases hm : matchLit bodyClose (c :: s) with
    | some rest =>
      refine ⟨rest, ?_⟩
      rw [replaceFirst, hm, beforeBodyClose, hm]
      simp only [Option.isSome_some, if_true, List.nil_append]
      rw [getSubstitution_of_no_dollar _ _ _ _ hrepl]
    | none =>
      have h3 : includes bodyClose s = true := by simpa [includes, hm] using h
      obtain ⟨post, hp⟩ := replaceFirst_beforeBodyClose repl hrepl s (c :: before) h3
      refine ⟨post, ?_⟩
      rw [replaceFirst, hm, beforeBodyClose, hm]
      simp only [Option.isSome_none, Bool.false_eq_true, if_false]
      rw [hp]
      simp

/-- After the tracking image was added the text is: what stood before the
first `</body>` (or all of it), the image, and a rest. -/
theorem withPixel_split (cfg : Config) (html id : Str)
    (hurl : ∀ c ∈ cfg.serverUrl, c ≠ '$') (hid : ∀ c ∈ id, c ≠ '$') :
    ∃ post, withPixel cfg html id = beforeBodyClose html ++ trackingPixel cfg id ++ post := by
  cases h : includes bodyClose html with
  | false =>
    refine ⟨[], ?_⟩
    rw [withPixel, h, beforeBodyClose_of_not_includes html h]
    simp
  | true =>
    obtain ⟨post, hp⟩ := replaceFirst_beforeBodyClose (trackingPixel cfg id ++ bodyClose)
      (trackingPixel_no_dollar cfg id hurl hid) html [] h
    refine ⟨bodyClose ++ post, ?_⟩
    rw [withPixel, if_pos h, hp]
    simp

theorem urlChars_within (q : Char) (X : Str) :
    ∀ r : Str, r.any isQuote = true →
      urlChars q (r ++ X) = none ∨
        ∃ u r1 r2, r = r1 ++ r2 ∧ urlChars q (r ++ X) = some (u, r2 ++ X)
  | [], h => by simp at h
  | c :: r, h => by
    rw [List.cons_append, urlChars]
    by_cases hc : isQuote c = true
    · simp only [hc, if_true]
      by_cases hq : c = q
      · right
        exact ⟨[], [c], r, rfl, by simp [hq]⟩
      · left; simp [hq]
    · simp only [hc, Bool.false_eq_true, if_false]
      have hr : r.any isQuote = true := by
        simp only [List.any_cons, Bool.or_eq_true] at h
        rcases h with h | h
        · exact absurd h hc
        · exact h
      rcases urlChars_within q X r hr with h1 | ⟨u, r1, r2, h1, h2⟩
      · rw [h1]
        by_cases hq : c = q
        · right
          exact ⟨[], [c], r, rfl, by simp [hq]⟩
        · left; simp [hq]
      · right
        rw [h2]
        exact ⟨c :: u, c :: r1, r2, by simp [h1], rfl⟩

theorem urlChars_other_quote (q p : Char) (hq : isQuote q = true) (hp : isQuote p = true)
    (hne : p ≠ q) (rest : Str) :
    ∀ w : Str, w.any isQuote = false → urlChars q (w ++ p :: rest) = none
  | [], _ => by simp [urlChars, hp, hne]
  | c :: w, h => by
    simp only [List.any_cons, Bool.or_eq_false_iff] at h
    have hcq : c ≠ q := by
      intro e
      rw [e, hq] at h
      cases h.1
    rw [List.cons_append, urlChars, urlChars_other_quote q p hq hp hne rest w h.2]
    simp [h.1, hcq]

/-- The part `href=(["'])(http[^"']+)\1` at a place of a text that is followed
by the tracking image: where the text holds no open URL in double quotes, a
match ends in the text, before the image. -/
theorem matchHref_within (v X2 : Str) (hopen : openUrlAt v = false) :
    matchHref (v ++ '<' :: ("img src=".toList ++ Char.ofNat 34 :: X2)) = none ∨
      ∃ q url r1 r2, v = r1 ++ r2 ∧
        matchHref (v ++ '<' :: ("img src=".toList ++ Char.ofNat 34 :: X2)) =
          some (q, url, r2 ++ '<' :: ("img src=".toList ++ Char.ofNat 34 :: X2)) := by
  have hc1 : ∀ a ∈ "href=".toList, ciEq a '<' = false := by decide
  have hc2 : ∀ a ∈ "http".toList, ciEq a '<' = false := by decide
  generalize hX1 : "img src=".toList ++ Char.ofNat 34 :: X2 = X1
  cases h1 : matchLitCI "href=".toList (v ++ '<' :: X1) with
  | none => left; unfold matchHref; rw [h1]
  | some s1 =>
    obtain ⟨r1, hr1, hs1⟩ := matchLitCI_before _ '<' hc1 v X1 s1 h1
    cases r1 with
    | nil =>
      left
      have hs2 : s1 = '<' :: X1 := by simpa using hs1
      have hq : isQuote '<' = false := by decide
      unfold matchHref
      rw [h1, hs2]
      simp only [hq, Bool.false_eq_true, if_false]
    | cons q r2 =>
      have hs2 : s1 = q :: (r2 ++ '<' :: X1) := by simpa using hs1
      by_cases hq : isQuote q = true
      · cases h2 : matchLitCI "http".toList (r2 ++ '<' :: X1) with
        | none =>
          left
          unfold matchHref
          rw [h1, hs2]
          simp only [hq, if_true, h2]
        | some s3 =>
          obtain ⟨r3, hr3, hs3⟩ := matchLitCI_before _ '<' hc2 r2 X1 s3 h2
          have hd5 : v.drop 5 = q :: r2 := by
            have := matchLitCI_drop hr1
            simpa using this.symm
          have hd4 : r2.drop 4 = r3 := by
            have := matchLitCI_drop hr3
            simpa using this.symm
          have hd10 : v.drop 10 = r3 := by
            have e : v.drop 10 = (v.drop 5).drop 5 := by rw [List.drop_drop]
            rw [e, hd5]
            simpa using hd4
          have hh : hrefHttpAt v = true := by
            unfold hrefHttpAt
            rw [hr1]
            simp only [hq, hr3, Option.isSome_some, Bool.and_self]
          by_cases hany : r3.any isQuote = true
          · -- the URL ends in the text
            cases r3 with
            | nil => simp at hany
            | cons c r4 =>
              have hs4 : s3 = c :: (r4 ++ '<' :: X1) := by simpa using hs3
              unfold matchHref
              rw [h1, hs2]
              simp only [hq, if_true, h2, hs4]
              by_cases hcq : isQuote c = true
              · left; simp only [hcq, if_true]
              · simp only [hcq, Bool.false_eq_true, if_false]
                have hany4 : r4.any isQuote = true := by
                  simp only [List.any_cons, Bool.or_eq_true] at hany
                  rcases hany with h | h
                  · exact absurd h hcq
                  · exact h
                rcases urlChars_within q ('<' :: X1) r4 hany4 with hu | ⟨u, p1, p2, hp, hu⟩
                · left; rw [hu]
                · right
                  rw [hu]
                  refine ⟨q, _, v.take 10 ++ c :: p1, p2, ?_, rfl⟩
                  have e := (List.take_append_drop 10 v).symm
                  rw [hd10, hp] at e
                  exact e.trans (by simp)
          · -- the URL is open: its quote is not the double quote
            left
            have hany0 : r3.any isQuote = false := by
              cases h : r3.any isQuote with
              | false => rfl
              | true => exact absurd h hany
            have hq34 : Char.ofNat 34 ≠ q := by
              intro e
              have : openUrlAt v = true := by
                unfold openUrlAt
                rw [hh, hd5, hd10, hany0, ← e]
                rfl
              rw [hopen] at this
              cases this
            obtain ⟨c, W, hW, hWq⟩ : ∃ c W, r3 ++ '<' :: "img src=".toList = c :: W ∧
                (c :: W).any isQuote = false := by
              cases r3 with
              | nil => exact ⟨'<', "img src=".toList, rfl, by decide⟩
              | cons c r4 =>
                refine ⟨c, r4 ++ '<' :: "img src=".toList, rfl, ?_⟩
                simp only [List.any_cons, List.any_append, Bool.or_eq_false_iff] at hany0 ⊢
                exact ⟨hany0.1, hany0.2, by decide⟩
            have hs4 : s3 = c :: (W ++ Char.ofNat 34 :: X2) := by
              rw [hs3, ← hX1]
              have e : r3 ++ '<' :: ("img src=".toList ++ Char.ofNat 34 :: X2) =
                  (r3 ++ '<' :: "img src=".toList) ++ Char.ofNat 34 :: X2 := by simp
              rw [e, hW]
              rfl
            simp only [List.any_cons, Bool.or_eq_false_iff] at hWq
            have hu := urlChars_other_quote q (Char.ofNat 34) hq (by decide) hq34 X2 W hWq.2
            unfold matchHref
            rw [h1, hs2]
            simp only [hq, if_true, h2, hs4, hWq.1, Bool.false_eq_true, if_false, hu]
      · left
        unfold matchHref
        rw [h1, hs2]
        simp only [hq, Bool.false_eq_true, if_false]

theorem spacesStar_upto {α : Type} (Q : Option α → Prop) (k : Str → Option α) (rest : Str) :
    ∀ w : Str, (∀ u v, w = u ++ v → Q (k (v ++ '>' :: rest))) →
      Q (spacesStar k (w ++ '>' :: rest))
  | [], h => by
    have h1 := h [] [] rfl
    have h2 : isJsSpace '>' = false := by decide
    simp only [List.nil_append] at h1 ⊢
    rw [spacesStar_of_not_space k '>' rest h2]
    exact h1
  | c :: w, h => by
    have h1 := h [] (c :: w) rfl
    have ih := spacesStar_upto Q k rest w (fun u v huv => h (c :: u) v (by simp [huv]))
    simp only [List.cons_append, List.nil_append] at h1 ⊢
    simp only [spacesStar]
    split
    · split
      · rename_i r hr
        rw [hr] at ih
        exact ih
      · exact h1
    · exact h1

theorem spacesPlus_upto {α : Type} (Q : Option α → Prop) (hQ : Q none) (k : Str → Option α)
    (rest : Str) (w : Str) (h : ∀ u v, w = u ++ v → Q (k (v ++ '>' :: rest))) :
    Q (spacesPlus k (w ++ '>' :: rest)) := by
  cases w with
  | nil =>
    have h2 : isJsSpace '>' = false := by decide
    simp only [List.nil_append, spacesPlus, h2, Bool.false_eq_true, if_false]
    exact hQ
  | cons c w =>
    simp only [List.cons_append, spacesPlus]
    split
    · exact spacesStar_upto Q k rest w (fun u v huv => h (c :: u) v (by simp [huv]))
    · exact hQ

theorem lazyNotGt_upto {α : Type} (Q : Option α → Prop) (hQ : Q none) (k : Str → Option α)
    (rest : Str) :
    ∀ w : Str, (∀ u v, w = u ++ v → Q (k (v ++ '>' :: rest))) →
      Q (lazyNotGt k (w ++ '>' :: rest))
  | [], h => by
    have h1 := h [] [] rfl
    simp only [List.nil_append] at h1 ⊢
    simp only [lazyNotGt]
    split
    · rename_i r hr
      rw [hr] at h1
      exact h1
    · simp only [if_true]
      exact hQ
  | c :: w, h => by
    have h1 := h [] (c :: w) rfl
    have ih := lazyNotGt_upto Q hQ k rest w (fun u v huv => h (c :: u) v (by simp [huv]))
    simp only [List.cons_append, List.nil_append] at h1 ⊢
    simp only [lazyNotGt]
    split
    · rename_i r hr
      rw [hr] at h1
      exact h1
    · split
      · exact hQ
      · exact ih

/-- What holds of the part `href=(["'])(http[^"']+)\1` at every place of a
tag holds of the pattern behind `<a\s+`. -/
theorem matchGroupHref_upto (Q : Option (Char × Str × Str) → Prop) (hQ : Q none) (rest : Str)
    (w : Str) (h : ∀ u v, w = u ++ v → Q (matchHref (v ++ '>' :: rest))) :
    ∀ u v, w = u ++ v → Q (matchGroupHref (v ++ '>' :: rest)) := by
  have h2 : ∀ u v, w = u ++ v → Q (spacesPlus matchHref (v ++ '>' :: rest)) :=
    fun u v huv => spacesPlus_upto Q hQ matchHref rest v
      (fun u1 v1 h3 => h (u ++ u1) v1 (by rw [huv, h3]; simp))
  intro u v huv
  have h3 := lazyNotGt_upto Q hQ (spacesPlus matchHref) rest v
    (fun u1 v1 h4 => h2 (u ++ u1) v1 (by rw [huv, h4]; simp))
  unfold matchGroupHref
  split
  · rename_i r hr
    rw [hr] at h3
    exact h3
  · exact h u v huv

/-- The anchor pattern at a place of a text that is followed by an image tag
and holds no open URL in double quotes: a match ends in the text, before the
image. The image tag `P` begins with `<img src="`, ends with `>` and holds no
`href=`, quote, `http`. -/
theorem matchAnchor_within (A P P2 Pb B : Str) (hopen : anyTail openUrlAt A = false)
    (hP1 : P = '<' :: ("img src=".toList ++ Char.ofNat 34 :: P2))
    (hP2 : P = Pb ++ ['>']) (hP3 : anyTail hrefHttpAt Pb = false) :
    ∀ u v, A = u ++ v → v ≠ [] →
      matchAnchor (v ++ (P ++ B)) = none ∨
        ∃ q url r1 r2, v = r1 ++ r2 ∧ matchAnchor (v ++ (P ++ B)) = some (q, url, r2 ++ (P ++ B)) := by
  intro u v huv hv
  have hopen0 := anyTail_eq_false.1 hopen
  rcases v with _ | ⟨c, _ | ⟨d, v2⟩⟩
  · exact absurd rfl hv
  · left
    have h1 : (matchLitCI "<a".toList ([c] ++ (P ++ B))).isSome = false := by
      rw [hP1]
      simp only [List.cons_append, List.nil_append]
      rw [matchLitCI_open_cons]
      have : ciEq 'a' '<' = false := by decide
      rw [this, Bool.and_false]
    unfold matchAnchor
    cases h2 : matchLitCI "<a".toList ([c] ++ (P ++ B)) with
    | none => rfl
    | some s1 => rw [h2] at h1; cases h1
  · cases h2 : matchLitCI "<a".toList (c :: d :: v2 ++ (P ++ B)) with
    | none => left; unfold matchAnchor; rw [h2]
    | some s1 =>
      have hs1 : s1 = v2 ++ (P ++ B) := by
        have := matchLitCI_drop h2
        simpa using this
      -- the pattern behind `<a`, on the rest of the text and the image up to its `>`
      have hX : P ++ B = '<' :: ("img src=".toList ++ Char.ofNat 34 :: (P2 ++ B)) := by
        rw [hP1]; simp
      let Q : Option (Char × Str × Str) → Prop := fun res => res = none ∨
        ∃ q url r1 r2, c :: d :: v2 = r1 ++ r2 ∧ res = some (q, url, r2 ++ (P ++ B))
      have hQ : Q none := Or.inl rfl
      have hbase : ∀ u1 t, v2 ++ Pb = u1 ++ t → Q (matchHref (t ++ '>' :: B)) := by
        refine @tails_append (fun t => Q (matchHref (t ++ '>' :: B))) Pb ?_ v2 ?_
        · intro u1 t ht
          left
          exact hrefHttpAt_of_matchHref t B (anyTail_eq_false.1 hP3 u1 t ht)
        · intro u1 t ht _
          have e1 : t ++ Pb ++ '>' :: B = t ++ (P ++ B) := by rw [hP2]; simp
          have ho : openUrlAt t = false :=
            hopen0 (u ++ c :: d :: u1) t (by rw [huv, ht]; simp)
          rw [e1, hX]
          rcases matchHref_within t (P2 ++ B) ho with h3 | ⟨q, url, r1, r2, h3, h4⟩
          · left; exact h3
          · right
            exact ⟨q, url, c :: d :: (u1 ++ r1), r2, by rw [ht, h3]; simp, by rw [h4, hX]⟩
      have hgroup := matchGroupHref_upto Q hQ B (v2 ++ Pb) hbase
      have hplus := spacesPlus_upto Q hQ matchGroupHref B (v2 ++ Pb) hgroup
      have e2 : v2 ++ Pb ++ '>' :: B = v2 ++ (P ++ B) := by rw [hP2]; simp
      rw [e2] at hplus
      unfold matchAnchor
      rw [h2, hs1]
      exact hplus

/-- The global replace over a text in which every match ends before a rest
`X`: the scan arrives at the head of `X`. -/
theorem rewriteFrom_within (cfg : Config) (id A X : Str)
    (h : ∀ u v, A = u ++ v → v ≠ [] →
      matchAnchor (v ++ X) = none ∨
        ∃ q url r1 r2, v = r1 ++ r2 ∧ matchAnchor (v ++ X) = some (q, url, r2 ++ X)) :
    ∀ (n : Nat) (u v : Str), A = u ++ v → v.length ≤ n →
      ∃ a, ∀ fuel, (v ++ X).length < fuel →
        rewriteFrom cfg id fuel (v ++ X) = a ++ rewriteFrom cfg id (X.length + 1) X
  | n, u, [], _, _ => by
    refine ⟨[], fun fuel hf => ?_⟩
    simp only [List.nil_append] at hf ⊢
    exact rewriteFrom_fuel cfg id X.length X fuel (X.length + 1) (Nat.le_refl _) hf
      (Nat.lt_succ_self _)
  | 0, u, c :: v, _, hl => by simp at hl
  | n + 1, u, c :: v, huv, hl => by
    simp only [List.length_cons] at hl
    rcases h u (c :: v) huv (by simp) with hm | ⟨q, url, r1, r2, hr, hm⟩
    · rw [List.cons_append] at hm
      obtain ⟨a, ha⟩ := rewriteFrom_within cfg id A X h n (u ++ [c]) v (by rw [huv]; simp)
        (by omega)
      refine ⟨c :: a, fun fuel hf => ?_⟩
      cases fuel with
      | zero => simp at hf
      | succ f =>
        simp only [List.cons_append, List.length_cons] at hf ⊢
        rw [rewriteFrom, hm]
        simp only
        rw [ha f (by omega)]
    · have hlt := matchAnchor_lt hm
      simp only [List.length_append, List.length_cons] at hlt
      rw [List.cons_append] at hm
      obtain ⟨a, ha⟩ := rewriteFrom_within cfg id A X h n (u ++ r1) r2
        (by rw [huv, hr]; simp) (by omega)
      refine ⟨trackedAnchor cfg id q url ++ a, fun fuel hf => ?_⟩
      cases fuel with
      | zero => simp at hf
      | succ f =>
        simp only [List.cons_append, List.length_cons, List.length_append] at hf ⊢
        rw [rewriteFrom, hm]
        simp only
        rw [ha f (by simp only [List.length_append]; omega)]
        simp

/-- No anchor starts in the tracking image. -/
theorem no_anchor_in_pixel (cfg : Config) (id B : Str)
    (hurl : ∀ c ∈ cfg.serverUrl, c ≠ '<') (hid : ∀ c ∈ id, c ≠ '<') :
    ∀ u v, trackingPixel cfg id = u ++ v → v ≠ [] → matchAnchor (v ++ B) = none := by
  obtain ⟨r, hr, ⟨r1, hr2⟩, hr3⟩ := trackingPixel_shape cfg id hurl hid
  intro u v huv hv
  cases u with
  | nil =>
    have hv1 : v = '<' :: 'i' :: r1 := by rw [← hr2, ← hr]; simpa using huv.symm
    rw [hv1]
    have h1 : (matchLitCI "<a".toList ('<' :: 'i' :: (r1 ++ B))).isSome = false := by
      rw [matchLitCI_open_cons]
      decide
    unfold matchAnchor
    cases h2 : matchLitCI "<a".toList ('<' :: 'i' :: r1 ++ B) with
    | none => rfl
    | some s1 =>
      have h3 : matchLitCI "<a".toList ('<' :: 'i' :: (r1 ++ B)) = some s1 := by
        simpa using h2
      rw [h3] at h1
      cases h1
  | cons x u =>
    cases v with
    | nil => exact absurd rfl hv
    | cons c v =>
      have h1 : r = u ++ c :: v := by
        have h2 : '<' :: r = x :: (u ++ c :: v) := by rw [← hr, huv]; simp
        exact (List.cons.inj h2).2
      have hc : c ≠ '<' := hr3 c (by rw [h1]; simp)
      exact matchAnchor_of_ne c _ hc

theorem anyTail_append_false (p : Str → Bool) (a b : Str)
    (ha : ∀ u v, a = u ++ v → v ≠ [] → p (v ++ b) = false) (hb : anyTail p b = false) :
    anyTail p (a ++ b) = false := by
  apply anyTail_eq_false.2
  exact @tails_append (fun t => p t = false) b (anyTail_eq_false.1 hb) a ha

theorem hrefHttpAt_of_heads (a b : Str) (h : ∀ c ∈ a, ciEq 'h' c = false) :
    ∀ u v, a = u ++ v → v ≠ [] → hrefHttpAt (v ++ b) = false := by
  intro u v huv hv
  cases v with
  | nil => exact absurd rfl hv
  | cons c v => exact hrefHttpAt_of_head c _ (h c (by rw [huv]; simp))

theorem ciEq_h_of_isUuid {id : Str} (hid : isUuid id = true) :
    ∀ c ∈ id, ciEq 'h' c = false := by
  intro c hc
  have h1 := mem_of_isUuid hid hc
  have e : ('h' : Char).toNat = 104 := rfl
  cases hh : ciEq 'h' c with
  | false => rfl
  | true =>
    exfalso
    simp only [ciEq, Bool.or_eq_true, beq_iff_eq, Bool.and_eq_true, decide_eq_true_eq, e] at hh
    rcases hh with (hh | hh) | hh
    · rw [← hh] at h1
      revert h1
      decide
    · rcases h1 with h1 | h1 | h1
      · rw [h1] at hh
        revert hh
        decide
      · omega
      · omega
    · omega

/-- A text without quote character, followed by `/api/`: no `href=`, quote,
`http` starts at its head. -/
theorem hrefHttpAt_no_quote (v rest : Str) (hv : v ≠ []) (hq : v.any isQuote = false) :
    hrefHttpAt (v ++ ("/api/".toList ++ rest)) = false := by
  have e : "href=".toList = ['h', 'r', 'e', 'f', '='] := rfl
  have e2 : "/api/".toList = ['/', 'a', 'p', 'i', '/'] := rfl
  have c1 : ciEq 'r' '/' = false := by decide
  have c2 : ciEq 'e' '/' = false := by decide
  have c3 : ciEq 'f' '/' = false := by decide
  have c4 : ciEq '=' '/' = false := by decide
  have c5 : isQuote '/' = false := by decide
  unfold hrefHttpAt
  rw [e, e2]
  rcases v with _ | ⟨a1, _ | ⟨a2, _ | ⟨a3, _ | ⟨a4, _ | ⟨a5, _ | ⟨a6, v⟩⟩⟩⟩⟩⟩
  · exact absurd rfl hv
  all_goals
    simp only [List.any_cons, Bool.or_eq_false_iff] at hq
    simp only [List.cons_append, List.nil_append, matchLitCI]
    split
    · rename_i heq
      split_ifs at heq
      all_goals
        first
        | (simp_all; done)
        | (simp only [Option.some.injEq, List.cons.injEq] at heq
           obtain ⟨rfl, -⟩ := heq
           simp [c5])
    · rfl

/-- The tracking image holds no `href=`, quote, `http` before its `>`, for a
server URL without quote character and a UUID. -/
theorem trackingPixel_no_href (cfg : Config) (id : Str)
    (hurl : ∀ c ∈ cfg.serverUrl, isQuote c = false) (hid : isUuid id = true) :
    ∃ Pb, trackingPixel cfg id = Pb ++ ['>'] ∧ anyTail hrefHttpAt Pb = false := by
  refine ⟨"<img src=\"".toList ++ (cfg.serverUrl ++ ("/api/".toList ++
    ("email/tracking/open/".toList ++ (id ++
      "\" width=\"1\" height=\"1\" alt=\"\" style=\"display:none;\"".toList)))), ?_, ?_⟩
  · simp [trackingPixel]
  · apply anyTail_append_false
    · exact hrefHttpAt_of_heads _ _ (by decide)
    · apply anyTail_append_false
      · intro u v huv hv
        apply hrefHttpAt_no_quote v _ hv
        cases h : v.any isQuote with
        | false => rfl
        | true =>
          obtain ⟨c, hc, hq⟩ := List.any_eq_true.1 h
          have := hurl c (by rw [huv]; simp [hc])
          rw [this] at hq
          cases hq
      · apply anyTail_append_false
        · exact hrefHttpAt_of_heads _ _ (by decide)
        · apply anyTail_append_false
          · exact hrefHttpAt_of_heads _ _ (by decide)
          · apply anyTail_append_false
            · exact hrefHttpAt_of_heads _ _ (ciEq_h_of_isUuid hid)
            · decide

/-- The tracking image stays in the html: click tracking is off, or the text
before the image holds no URL in double quotes that is left open. -/
theorem addTrackingToEmail_keeps_image (cfg : Config) (html id : Str) (hne : html ≠ [])
    (hurl : ∀ c ∈ cfg.serverUrl, c ≠ '$' ∧ c ≠ '<' ∧ isQuote c = false)
    (hid : isUuid id = true)
    (hcase : cfg.trackClicks = false ∨ anyTail openUrlAt (beforeBodyClose html) = false) :
    ∃ a b, addTrackingToEmail cfg html id = a ++ trackingPixel cfg id ++ b := by
  have hne1 : html.isEmpty = false := by
    cases html with
    | nil => exact absurd rfl hne
    | cons _ _ => rfl
  obtain ⟨post, hsplit⟩ := withPixel_split cfg html id (fun c hc => (hurl c hc).1)
    (fun c hc => (isUuid_ne hid hc).1)
  cases hc : cfg.trackClicks with
  | false =>
    refine ⟨beforeBodyClose html, post, ?_⟩
    simp [addTrackingToEmail, hne1, hc, hsplit]
  | true =>
    have hopen : anyTail openUrlAt (beforeBodyClose html) = false := by
      rcases hcase with h | h
      · rw [hc] at h; cases h
      · exact h
    obtain ⟨Pb, hPb, hPb2⟩ := trackingPixel_no_href cfg id (fun c hc => (hurl c hc).2.2) hid
    have hP1 : trackingPixel cfg id = '<' :: ("img src=".toList ++ Char.ofNat 34 ::
        (cfg.serverUrl ++ "/api/email/tracking/open/".toList ++ id ++
          "\" width=\"1\" height=\"1\" alt=\"\" style=\"display:none;\">".toList)) := by
      simp [trackingPixel]
    have hwithin := matchAnchor_within (beforeBodyClose html) (trackingPixel cfg id) _ Pb post
      hopen hP1 hPb hPb2
    obtain ⟨a, ha⟩ := rewriteFrom_within cfg id (beforeBodyClose html)
      (trackingPixel cfg id ++ post) hwithin (beforeBodyClose html).length []
      (beforeBodyClose html) rfl (Nat.le_refl _)
    have hskip := rewriteFrom_skip cfg id (trackingPixel cfg id)
      ((trackingPixel cfg id ++ post).length + 1) post
      (no_anchor_in_pixel cfg id post (fun c hc => (hurl c hc).2.1)
        (fun c hc => (isUuid_ne hid hc).2))
      (by simp only [List.length_append]; omega)
    refine ⟨a, rewriteFrom cfg id
      ((trackingPixel cfg id ++ post).length + 1 - (trackingPixel cfg id).length) post, ?_⟩
    simp only [addTrackingToEmail, hne1, hc, Bool.false_eq_true, if_false, if_true, rewriteLinks]
    rw [hsplit, List.append_assoc, ha _ (Nat.lt_succ_self _), hskip]
    simp

/-! ## The claims -/

/-- C1 at `count: 0` and `count: false`: the code renders the empty string where
the claim has `0` and `false`; `7` and `true` render as `7` and `true`, and
`null` as the empty string. -/
theorem render_falsy_value_is_empty :
    render countTemplate [("count".toList, JsValue.num 0)] =
      some { subject := "You have  new messages".toList, html := "<p></p>".toList, text := [] } ∧
    render countTemplate [("count".toList, JsValue.bool false)] =
      some { subject := "You have  new messages".toList, html := "<p></p>".toList, text := [] } ∧
    render countTemplate [("count".toList, JsValue.num 7)] =
      some { subject := "You have 7 new messages".toList, html := "<p>7</p>".toList,
             text := "7".toList } ∧
    render countTemplate [("count".toList, JsValue.bool true)] =
      some { subject := "You have true new messages".toList, html := "<p>true</p>".toList,
             text := "true".toList } ∧
    render countTemplate [("count".toList, JsValue.null)] =
      some { subject := "You have  new messages".toList, html := "<p></p>".toList, text := [] } := by
  decide

/-- C2 at the key `n.me`: the key is read as a pattern, its `.` matches the `a`
of `name`, and the placeholder `name`, which is no key of the data, is replaced
in all three texts. -/
theorem render_key_read_as_pattern :
    render nameTemplate [("n.me".toList, JsValue.str "X".toList)] =
      some { subject := "Hi X".toList, html := "<p>X</p>".toList, text := "X".toList } := by
  decide

/-- C3 fails: `greeting` is replaced after `name`, and its value brings a
placeholder `name` into the text; the first rendering leaves it and the second
rendering replaces it. -/
theorem render_not_idempotent :
    render greetingTemplate greetingData =
      some { subject := "Hello \x7b\x7bname\x7d\x7d".toList,
             html := "<p>Hello \x7b\x7bname\x7d\x7d</p>".toList,
             text := "Hello \x7b\x7bname\x7d\x7d".toList } ∧
    render { subject := "Hello \x7b\x7bname\x7d\x7d".toList,
             html := "<p>Hello \x7b\x7bname\x7d\x7d</p>".toList,
             text := "Hello \x7b\x7bname\x7d\x7d".toList } greetingData =
      some { subject := "Hello Bob".toList, html := "<p>Hello Bob</p>".toList,
             text := "Hello Bob".toList } := by
  decide

/-- C3, as the code has it: when the rendered texts hold no placeholder of a
key of the data any more, a second rendering with the same data returns them
unchanged. -/
theorem render_fixed_of_no_placeholder (t r : Rendered) (data : List (Str × JsValue))
    (_hr : render t data = some r) (hnone : noPlaceholderLeft r data = true) :
    render r data = some r := by
  clear _hr
  induction data with
  | nil => rfl
  | cons e data ih =>
    rw [render_cons]
    simp only [noPlaceholderLeft, List.all_cons, Bool.and_eq_true] at hnone
    obtain ⟨h0, hrest⟩ := hnone
    cases hk : compileKey e.1 with
    | none => rw [hk] at h0; cases h0
    | some key =>
      rw [hk] at h0
      simp only [Bool.and_eq_true, Bool.not_eq_true'] at h0
      obtain ⟨⟨h1, h2⟩, h3⟩ := h0
      simp only [replaceAll]
      rw [replaceFrom_of_no_placeholder key _ _ _ _ h1,
        replaceFrom_of_no_placeholder key _ _ _ _ h2,
        replaceFrom_of_no_placeholder key _ _ _ _ h3]
      exact ih hrest

/-- C3, as the code has it, at `nameTemplate` with the name `Bob`. -/
theorem render_fixed_of_no_placeholder_witness :
    render { subject := "Hi Bob".toList, html := "<p>Bob</p>".toList, text := "Bob".toList }
      [("name".toList, JsValue.str "Bob".toList)] =
      some { subject := "Hi Bob".toList, html := "<p>Bob</p>".toList, text := "Bob".toList } :=
  render_fixed_of_no_placeholder nameTemplate _ [("name".toList, JsValue.str "Bob".toList)]
    (by decide) (by decide)

set_option maxRecDepth 1000000 in
/-- C4 fails for a server URL with a `$`: click tracking is off, the id is a
UUID and the html is `a</body>`. The image goes in through `String.replace`,
which expands `$&` in the replacement text to the matched `</body>`: the `src`
of the tag put in is not the server URL followed by the path and the id. -/
theorem addTrackingToEmail_dollar_in_server_url :
    dollarConfig.trackClicks = false ∧ isUuid sampleId = true ∧
    addTrackingToEmail dollarConfig "a</body>".toList sampleId =
      ("a<img src=\"http://h/</body>/api/email/tracking/open/" ++
        "123e4567-e89b-42d3-a456-426614174000\" width=\"1\" height=\"1\" alt=\"\" " ++
        "style=\"display:none;\"></body>").toList ∧
    addTrackingToEmail dollarConfig "a</body>".toList sampleId ≠
      "a".toList ++
        ("<img src=\"".toList ++ dollarConfig.serverUrl ++ "/api/email/tracking/open/".toList ++
          sampleId ++ "\" width=\"1\" height=\"1\" alt=\"\" style=\"display:none;\">".toList) ++
        "</body>".toList := by
  decide

/-- C4, as the code has it: with click tracking off, a server URL without `$`
and a UUID tracking id, `addTrackingToEmail` returns empty html unchanged, and
for non-empty html it inserts exactly the tracking image, the tag
`<img src="` server URL `/api/email/tracking/open/` id
`" width="1" height="1" alt="" style="display:none;">`, and changes nothing
else: the tag stands right before the first `</body>` when there is one, at the
very end otherwise. -/
theorem addTrackingToEmail_pixel_only (cfg : Config) (html id : Str)
    (hoff : cfg.trackClicks = false) (hurl : ∀ c ∈ cfg.serverUrl, c ≠ '$')
    (hid : isUuid id = true) :
    addTrackingToEmail cfg [] id = [] ∧
    (html ≠ [] →
      ((∃ p q, html = p ++ "</body>".toList ++ q) →
        ∃ pre post, html = pre ++ "</body>".toList ++ post ∧
          (∀ pre1 post1, html = pre1 ++ "</body>".toList ++ post1 →
            pre.length ≤ pre1.length) ∧
          addTrackingToEmail cfg html id =
            pre ++
              ("<img src=\"".toList ++ cfg.serverUrl ++ "/api/email/tracking/open/".toList ++
                id ++ "\" width=\"1\" height=\"1\" alt=\"\" style=\"display:none;\">".toList) ++
              "</body>".toList ++ post) ∧
      ((¬ ∃ p q, html = p ++ "</body>".toList ++ q) →
        addTrackingToEmail cfg html id =
          html ++
            ("<img src=\"".toList ++ cfg.serverUrl ++ "/api/email/tracking/open/".toList ++
              id ++ "\" width=\"1\" height=\"1\" alt=\"\" style=\"display:none;\">".toList))) := by
  refine ⟨by simp [addTrackingToEmail], fun hne => ?_⟩
  have hne1 : html.isEmpty = false := by
    cases html with
    | nil => exact absurd rfl hne
    | cons _ _ => rfl
  have hadd : addTrackingToEmail cfg html id = withPixel cfg html id := by
    simp [addTrackingToEmail, hne1, hoff]
  rw [hadd]
  constructor
  · intro hex
    exact withPixel_of_includes cfg html id hurl (fun c hc => (isUuid_ne hid hc).1)
      (includes_iff.2 hex)
  · intro hex
    have h1 : includes bodyClose html = false := by
      rw [← Bool.not_eq_true]; exact fun h => hex (includes_iff.1 h)
    rw [withPixel, h1]
    rfl

set_option maxRecDepth 1000000 in
/-- C4, as the code has it, at `<p>hi</p>`, where the image is appended; and,
evaluated, at `<html><body><p>hi</p></body></html>`, where it goes before
`</body>`. -/
theorem addTrackingToEmail_pixel_only_witness :
    cfgOff.trackClicks = false ∧ isUuid sampleId = true ∧
    addTrackingToEmail cfgOff "<p>hi</p>".toList sampleId =
      ("<p>hi</p><img src=\"http://localhost:3000/api/email/tracking/open/" ++
        "123e4567-e89b-42d3-a456-426614174000\" width=\"1\" height=\"1\" alt=\"\" " ++
        "style=\"display:none;\">").toList ∧
    addTrackingToEmail cfgOff "<html><body><p>hi</p></body></html>".toList sampleId =
      ("<html><body><p>hi</p><img src=\"http://localhost:3000/api/email/tracking/open/" ++
        "123e4567-e89b-42d3-a456-426614174000\" width=\"1\" height=\"1\" alt=\"\" " ++
        "style=\"display:none;\"></body></html>").toList :=
  ⟨rfl, by decide,
    (((addTrackingToEmail_pixel_only cfgOff "<p>hi</p>".toList sampleId rfl (by decide)
      (by decide)).2 (by decide)).2 (by
        rw [← bodyClose, ← includes_iff]; decide)).trans (by decide),
    by decide⟩

set_option maxRecDepth 1000000 in
/-- C5 fails: `sampleHtml` holds `</body>` once, and after two applications of
`addTrackingToEmail` the tracking image is there twice, with click tracking on
and with click tracking off. -/
theorem addTrackingToEmail_twice_duplicates :
    countOcc bodyClose sampleHtml = 1 ∧
    countOcc (trackingPixel cfgOn sampleId)
      (addTrackingToEmail cfgOn (addTrackingToEmail cfgOn sampleHtml sampleId) sampleId) = 2 ∧
    countOcc (trackingPixel cfgOff sampleId)
      (addTrackingToEmail cfgOff (addTrackingToEmail cfgOff sampleHtml sampleId) sampleId) = 2 := by
  decide

/-- C5, as the code has it: two applications of `addTrackingToEmail` to html
that holds `</body>` leave two tracking images, one after the other, right
before the first `</body>`; nothing removes the first image. Shown where the
link rewrite has nothing to do: click tracking is off, or the html holds no
`<a`. -/
theorem addTrackingToEmail_twice (cfg : Config) (html id : Str)
    (hcase : cfg.trackClicks = false ∨ hasAnchorOpen html = false)
    (hurl : ∀ c ∈ cfg.serverUrl, c ≠ '$' ∧ c ≠ '<')
    (hid : isUuid id = true) (hbody : ∃ p q, html = p ++ bodyClose ++ q) :
    ∃ pre post, html = pre ++ bodyClose ++ post ∧
      (∀ pre1 post1, html = pre1 ++ bodyClose ++ post1 → pre.length ≤ pre1.length) ∧
      addTrackingToEmail cfg (addTrackingToEmail cfg html id) id =
        pre ++ trackingPixel cfg id ++ trackingPixel cfg id ++ bodyClose ++ post ∧
      2 ≤ countOcc (trackingPixel cfg id)
        (addTrackingToEmail cfg (addTrackingToEmail cfg html id) id) := by
  have hid1 : ∀ c ∈ id, c ≠ '$' ∧ c ≠ '<' := fun c hc => isUuid_ne hid hc
  obtain ⟨pre, post, h1, h2, h3⟩ := withPixel_of_includes cfg html id
    (fun c hc => (hurl c hc).1) (fun c hc => (hid1 c hc).1) (includes_iff.2 hbody)
  have hne1 : html ≠ [] := by
    rw [h1, bodyClose_eq]; simp
  have hne2 : withPixel cfg html id ≠ [] := by
    rw [h3, bodyClose_eq]; simp
  have hcase2 : cfg.trackClicks = false ∨ hasAnchorOpen (withPixel cfg html id) = false := by
    rcases hcase with h | h
    · exact Or.inl h
    · exact Or.inr (hasAnchorOpen_withPixel cfg html id hurl hid1 h)
  have h4 : addTrackingToEmail cfg (addTrackingToEmail cfg html id) id =
      pre ++ trackingPixel cfg id ++ trackingPixel cfg id ++ bodyClose ++ post := by
    rw [addTrackingToEmail_eq_withPixel cfg html id hne1 hurl hid1 hcase,
      addTrackingToEmail_eq_withPixel cfg _ id hne2 hurl hid1 hcase2, h3]
    exact withPixel_after_pixel cfg pre post id hurl hid1 (by rw [← h1]; exact h2)
  refine ⟨pre, post, h1, h2, h4, ?_⟩
  rw [h4]
  have hp : trackingPixel cfg id ≠ [] := by simp [trackingPixel]
  have h5 := countOcc_pat_append (trackingPixel cfg id)
    (trackingPixel cfg id ++ (bodyClose ++ post)) hp
  have h6 := countOcc_pat_append (trackingPixel cfg id) (bodyClose ++ post) hp
  have h7 := countOcc_append_ge (trackingPixel cfg id) pre
    (trackingPixel cfg id ++ (trackingPixel cfg id ++ (bodyClose ++ post)))
  simp only [List.append_assoc] at h7 ⊢
  omega

set_option maxRecDepth 1000000 in
/-- C5, as the code has it, at `sampleHtml` under the default configuration. -/
theorem addTrackingToEmail_twice_witness :
    hasAnchorOpen sampleHtml = false ∧ isUuid sampleId = true ∧
    2 ≤ countOcc (trackingPixel cfgOn sampleId)
      (addTrackingToEmail cfgOn (addTrackingToEmail cfgOn sampleHtml sampleId) sampleId) :=
  ⟨by decide, by decide,
    by
      obtain ⟨_, _, _, _, _, h⟩ := addTrackingToEmail_twice cfgOn sampleHtml sampleId
        (Or.inr (by decide)) (by decide) (by decide)
        ⟨"<html><body><p>hi</p>".toList, "</html>".toList, rfl⟩
      exact h⟩

set_option maxRecDepth 1000000 in
/-- C6 fails: the URL of `apostropheLink` begins with `http` and holds an
apostrophe inside double quotes; the tag is not rewritten, and the output is the
input followed by the tracking image. -/
theorem addTrackingToEmail_apostrophe_link :
    addTrackingToEmail cfgOn apostropheLink sampleId =
      apostropheLink ++ trackingPixel cfgOn sampleId := by
  decide

/-- C6, as the code has it: with click tracking on, an anchor tag whose first
attribute is `href` (white space between `<a` and `href=`), with a quoted URL
that begins with `http`, goes on with at least one character and holds no quote
character, is rewritten to `<a href=` and, in the quotes of the original, the
server URL, `/api/email/tracking/click/`, the tracking id, `?url=` and the
percent-encoded original URL; the attributes behind the URL stay. Required:
the server URL holds no `$` and the id is a UUID; the text before the tag holds
no `<a` and, with the tag, no `</body>`; behind the URL the tag holds no `<`
and no further `href=`, quote, `http`. The rest of the document is treated
likewise. -/
theorem addTrackingToEmail_hrefFirst (cfg : Config) (id pre ws : Str) (q c : Char)
    (u attrs post : Str) (hon : cfg.trackClicks = true)
    (hurl : ∀ x ∈ cfg.serverUrl, x ≠ '$') (hid : isUuid id = true)
    (hpre : hasAnchorOpen pre = false) (hne : ws ≠ []) (hws : ws.all isJsSpace = true)
    (hq : isQuote q = true) (hu : (c :: u).any isQuote = false)
    (hhref : anyTail hrefHttpAt (("http".toList ++ c :: u) ++ q :: attrs) = false)
    (hattrs : attrs.all (fun x => x != '<') = true)
    (hbody : includes bodyClose
      (pre ++ hrefFirstAnchor ws q ("http".toList ++ c :: u) attrs) = false) :
    addTrackingToEmail cfg
        (pre ++ hrefFirstAnchor ws q ("http".toList ++ c :: u) attrs ++ post) id =
      pre ++
        ("<a href=".toList ++ q :: cfg.serverUrl ++ "/api/email/tracking/click/".toList ++ id ++
          "?url=".toList ++ encodeURIComponent ("http".toList ++ c :: u) ++ [q]) ++
        attrs ++ '>' :: rewriteLinks cfg id (withPixel cfg post id) := by
  -- the tag ends in `>`
  obtain ⟨a1, ha1⟩ : ∃ a1, hrefFirstAnchor ws q ("http".toList ++ c :: u) attrs = a1 ++ ['>'] :=
    ⟨_, rfl⟩
  have hlen : attrs.length + 2 ≤ (hrefFirstAnchor ws q ("http".toList ++ c :: u) attrs).length := by
    simp [hrefFirstAnchor]; omega
  have hne1 : (pre ++ hrefFirstAnchor ws q ("http".toList ++ c :: u) attrs ++ post).isEmpty
      = false := by
    simp [hrefFirstAnchor]
  have hwp : withPixel cfg (pre ++ hrefFirstAnchor ws q ("http".toList ++ c :: u) attrs ++ post)
      id = pre ++ (hrefFirstAnchor ws q ("http".toList ++ c :: u) attrs ++
        withPixel cfg post id) := by
    have := withPixel_append cfg (pre ++ a1) post id hurl
      (fun x hx => (isUuid_ne hid hx).1) (by rw [List.append_assoc, ← ha1]; exact hbody)
    rw [List.append_assoc pre a1, ← ha1] at this
    rw [this]; simp
  rw [addTrackingToEmail, hne1, hon, hwp]
  simp only [Bool.false_eq_true, if_false, if_true]
  generalize withPixel cfg post id = rest
  -- the scan passes the text before the tag
  have hstart : ∀ d y1, hrefFirstAnchor ws q ("http".toList ++ c :: u) attrs ++ rest = d :: y1 →
      ciEq 'a' d = false := by
    intro d y1 hd
    have : d = '<' := by
      simp only [hrefFirstAnchor, String.toList, List.cons_append, List.append_assoc,
        List.cons.injEq] at hd
      exact hd.1.symm
    rw [this]; decide
  have hm := matchAnchor_hrefFirst ws q c u attrs rest hne hws hq hu hhref
  have hcons : ∃ t, hrefFirstAnchor ws q ("http".toList ++ c :: u) attrs ++ rest = '<' :: t :=
    ⟨'a' :: (ws ++ ("href=".toList ++ q :: (("http".toList ++ c :: u) ++
      q :: (attrs ++ '>' :: rest)))), by simp [hrefFirstAnchor]⟩
  obtain ⟨t, ht⟩ := hcons
  rw [rewriteLinks, rewriteFrom_skip cfg id pre _ _
    (no_anchor_of_no_open pre _ hpre hstart) (by simp; omega)]
  have hfuel : ∃ f, (pre ++ (hrefFirstAnchor ws q ("http".toList ++ c :: u) attrs ++ rest)).length
      + 1 - pre.length = f + 1 ∧ attrs.length + 1 + rest.length < f := by
    refine ⟨(hrefFirstAnchor ws q ("http".toList ++ c :: u) attrs).length + rest.length, ?_, ?_⟩
    · simp only [List.length_append]; omega
    · omega
  obtain ⟨f, hf1, hf2⟩ := hfuel
  rw [hf1, ht, rewriteFrom, ← ht, hm]
  simp only
  have e1 : attrs ++ '>' :: rest = (attrs ++ ['>']) ++ rest := by simp
  rw [e1, rewriteFrom_skip cfg id (attrs ++ ['>']) f rest
    (no_anchor_of_no_lt _ _ (by simp [hattrs])) (by simp; omega)]
  rw [rewriteFrom_fuel cfg id rest.length rest _ (rest.length + 1) (Nat.le_refl _)
    (by simp; omega) (by omega)]
  simp [rewriteLinks, trackedAnchor]

set_option maxRecDepth 1000000 in
/-- C6, as the code has it, at `<p>Visit <a href="http://a.com/p?q=1" target="_blank">our
site</a></p>` under the default configuration: the output, with the rewritten
tag and, at the end, the tracking image. -/
theorem addTrackingToEmail_hrefFirst_witness :
    addTrackingToEmail cfgOn
        "<p>Visit <a href=\"http://a.com/p?q=1\" target=\"_blank\">our site</a></p>".toList
        sampleId =
      ("<p>Visit <a href=\"http://localhost:3000/api/email/tracking/click/" ++
        "123e4567-e89b-42d3-a456-426614174000?url=http%3A%2F%2Fa.com%2Fp%3Fq%3D1\" " ++
        "target=\"_blank\">our site</a></p>" ++
        "<img src=\"http://localhost:3000/api/email/tracking/open/" ++
        "123e4567-e89b-42d3-a456-426614174000\" width=\"1\" height=\"1\" alt=\"\" " ++
        "style=\"display:none;\">").toList :=
  (addTrackingToEmail_hrefFirst cfgOn sampleId "<p>Visit ".toList " ".toList (Char.ofNat 34) ':'
    "//a.com/p?q=1".toList " target=\"_blank\"".toList "our site</a></p>".toList rfl
    (by decide) (by decide) (by decide) (by decide) (by decide) (by decide) (by decide)
    (by decide) (by decide) (by decide)).trans (by decide)

set_option maxRecDepth 1000000 in
/-- C7 fails: the `href` of `mailtoTag` is a `mailto:` link, and its `title`
holds white space followed by `href=`, an apostrophe and `http`; the tag is
rewritten to a click-tracking link and its text is gone from the output. -/
theorem addTrackingToEmail_mailto_rewritten :
    addTrackingToEmail cfgOn (mailtoTag ++ "mail</a>".toList) sampleId =
      trackedAnchor cfgOn sampleId (Char.ofNat 39) "http://x.com".toList ++
        "\">mail</a>".toList ++ trackingPixel cfgOn sampleId ∧
    includes mailtoTag (addTrackingToEmail cfgOn (mailtoTag ++ "mail</a>".toList) sampleId)
      = false := by
  decide

/-- C7, as the code has it: with click tracking on, a tag `<a ...>` that holds
no `href=`, quote, `http` anywhere before its `>` (and no `<` behind `<a`) is
left as it is, at its place, when the text before it holds no `<a` and, with
the tag, no `</body>`. The rest of the document is treated likewise. -/
theorem addTrackingToEmail_other_href (cfg : Config) (id pre body post : Str)
    (hon : cfg.trackClicks = true) (hurl : ∀ x ∈ cfg.serverUrl, x ≠ '$')
    (hid : isUuid id = true) (hpre : hasAnchorOpen pre = false)
    (hhref : anyTail hrefHttpAt body = false)
    (hlt : body.all (fun x => x != '<') = true)
    (hclose : includes bodyClose (pre ++ ("<a".toList ++ body ++ ['>'])) = false) :
    addTrackingToEmail cfg (pre ++ ("<a".toList ++ body ++ ['>']) ++ post) id =
      pre ++ ("<a".toList ++ body ++ ['>']) ++ rewriteLinks cfg id (withPixel cfg post id) := by
  have hne1 : (pre ++ ("<a".toList ++ body ++ ['>']) ++ post).isEmpty = false := by simp
  have hwp : withPixel cfg (pre ++ ("<a".toList ++ body ++ ['>']) ++ post) id =
      pre ++ (("<a".toList ++ body ++ ['>']) ++ withPixel cfg post id) := by
    have := withPixel_append cfg (pre ++ ("<a".toList ++ body)) post id hurl
      (fun x hx => (isUuid_ne hid hx).1) (by simpa using hclose)
    simp only [List.append_assoc] at this ⊢
    exact this
  rw [addTrackingToEmail, hne1, hon, hwp]
  simp only [Bool.false_eq_true, if_false, if_true]
  generalize withPixel cfg post id = rest
  have hstart : ∀ d y1, ("<a".toList ++ body ++ ['>']) ++ rest = d :: y1 →
      ciEq 'a' d = false := by
    intro d y1 hd
    have : d = '<' := by
      simp only [String.toList, List.cons_append, List.append_assoc, List.cons.injEq] at hd
      exact hd.1.symm
    rw [this]; decide
  have htag : ∀ u v, "<a".toList ++ body ++ ['>'] = u ++ v → v ≠ [] →
      matchAnchor (v ++ rest) = none := by
    intro u v huv hv
    cases u with
    | nil =>
      have hv1 : v = '<' :: 'a' :: (body ++ ['>']) := by simpa using huv.symm
      rw [hv1]
      have := matchAnchor_none_of_tag '<' 'a' body rest hhref
      simpa using this
    | cons a u =>
      have h1 : 'a' :: (body ++ ['>']) = u ++ v := by
        simp only [String.toList, List.cons_append, List.append_assoc, List.cons.injEq] at huv
        simpa using huv.2
      exact no_anchor_of_no_lt ('a' :: (body ++ ['>'])) rest (by simp [hlt]) u v h1 hv
  rw [rewriteLinks, rewriteFrom_skip cfg id pre _ _
    (no_anchor_of_no_open pre _ hpre hstart) (by simp; omega)]
  rw [rewriteFrom_skip cfg id ("<a".toList ++ body ++ ['>']) _ rest htag (by simp; omega)]
  rw [rewriteFrom_fuel cfg id rest.length rest _ (rest.length + 1) (Nat.le_refl _)
    (by simp; omega) (by omega)]
  simp [rewriteLinks]

set_option maxRecDepth 1000000 in
/-- C7, as the code has it, at `<p>Or <a href="mailto:a@x.com" title="write to us">mail
us</a></p>`. -/
theorem addTrackingToEmail_other_href_witness :
    addTrackingToEmail cfgOn
        ("<p>Or ".toList ++ ("<a".toList ++ plainMailtoBody ++ ['>']) ++
          "mail us</a></p>".toList) sampleId =
      "<p>Or ".toList ++ ("<a".toList ++ plainMailtoBody ++ ['>']) ++
        rewriteLinks cfgOn sampleId (withPixel cfgOn "mail us</a></p>".toList sampleId) :=
  addTrackingToEmail_other_href cfgOn sampleId "<p>Or ".toList plainMailtoBody
    "mail us</a></p>".toList rfl (by decide) (by decide) (by decide) (by decide) (by decide)
    (by decide)

/-- C8 fails: the transport refuses the first call and accepts the second; the
job is run twice and leaves two rows with its job id, under two tracking ids. -/
theorem runJob_retry_two_entries :
    (runJob cfgOn failFirst sampleClock sampleUuid sampleJob emptyWorld).2 = 2 ∧
    ((runJob cfgOn failFirst sampleClock sampleUuid sampleJob emptyWorld).1.logs.filter
      fun e => e.jobId = sampleJob.id).map (fun e => (e.id, e.status)) =
      [(sampleUuid 0, Status.failed), (sampleUuid 1, Status.sent)] ∧
    sampleUuid 0 ≠ sampleUuid 1 := by
  decide

/-- C8, as the code has it: every run of the handler generates a tracking id
of its own and calls `EmailLog.create` with it. For a payload with `to` and
`subject` every run creates a row of its own: a job that took `k` runs (1 to 3)
leaves `k` rows carrying its job id, one for each run, and no run touches the
row of an earlier one. For a payload without `to` or without `subject` the
call `EmailLog.create` throws before the `try`: the job is run 3 times, and the
log table, the counters and the mails handed to the transport stay as they
were. -/
theorem runJob_entry_per_attempt (cfg : Config)
    (transport : Nat → MailOptions → Except Str Str) (clock : Nat → Nat) (uuid : Nat → Str)
    (job : Job) (w : World)
    (hinj : ∀ i j, i < maxAttempts → j < maxAttempts → uuid i = uuid j → i = j)
    (hfresh : ∀ i, i < maxAttempts → findByPk w.logs (uuid i) = none) :
    1 ≤ (runJob cfg transport clock uuid job w).2 ∧
    (runJob cfg transport clock uuid job w).2 ≤ maxAttempts ∧
    (runJob cfg transport clock uuid job w).1.logs =
      w.logs ++ (List.range (runJob cfg transport clock uuid job w).2).filterMap
        (attemptRow cfg transport clock uuid job) ∧
    (createAccepts job.data = true →
      (runJob cfg transport clock uuid job w).1.logs.length =
        w.logs.length + (runJob cfg transport clock uuid job w).2 ∧
      ∀ i, ∃ e, attemptRow cfg transport clock uuid job i = some e ∧
        e.id = uuid i ∧ e.jobId = job.id) ∧
    (createAccepts job.data = false →
      runJob cfg transport clock uuid job w = (w, maxAttempts)) := by
  obtain ⟨h1, h2, h3, -, -⟩ := runJob_spec cfg transport clock uuid job w hinj hfresh
  refine ⟨h1, h2, h3, fun hacc => ⟨?_, fun i => ?_⟩, fun hrej => ?_⟩
  · rw [h3, List.length_append,
      filterMap_attemptRow_length cfg transport clock uuid job hacc, List.length_range]
  · have h4 := attemptRow_isSome cfg transport clock uuid job i
    rw [hacc] at h4
    obtain ⟨e, he⟩ := Option.isSome_iff_exists.1 h4
    exact ⟨e, he, attemptRow_id cfg transport clock uuid job i e he⟩
  · have h4 := runAttempts_rejected cfg transport clock uuid job hrej maxAttempts 0 w
    rw [Nat.zero_add] at h4
    exact h4

/-- C8, as the code has it, at the job whose first transport call is refused:
two runs, two rows; and at a job with a recipient and no subject, whose
transport would accept every call: three runs and no row. -/
theorem runJob_entry_per_attempt_witness :
    (runJob cfgOn failFirst sampleClock sampleUuid sampleJob emptyWorld).1.logs.length =
      emptyWorld.logs.length +
        (runJob cfgOn failFirst sampleClock sampleUuid sampleJob emptyWorld).2 ∧
    createAccepts bareJob.data = false ∧
    runJob cfgOn (fun _ => acceptAll) sampleClock sampleUuid bareJob emptyWorld =
      (emptyWorld, maxAttempts) :=
  ⟨((runJob_entry_per_attempt cfgOn failFirst sampleClock sampleUuid sampleJob emptyWorld
      sampleUuid_injective (fun _ _ => rfl)).2.2.2.1 rfl).1,
    rfl,
    (runJob_entry_per_attempt cfgOn (fun _ => acceptAll) sampleClock sampleUuid bareJob
      emptyWorld sampleUuid_injective (fun _ _ => rfl)).2.2.2.2 rfl⟩

/-- C9 fails: the first transport call is refused while two attempts remain;
that run already marks its row `failed` and moves the `failed` counter to 1.
The job is run again and ends `sent`, with the counter still at 1. A job whose
three calls are all refused moves the counter by 3. -/
theorem failed_marked_while_attempts_remain :
    (findByPk (processJob cfgOn (failFirst 0) (sampleClock 0) (sampleUuid 0) sampleJob
      emptyWorld).1.logs (sampleUuid 0)).map (fun e => (e.status, e.error)) =
      some (Status.failed, some "ECONNREFUSED".toList) ∧
    (processJob cfgOn (failFirst 0) (sampleClock 0) (sampleUuid 0) sampleJob
      emptyWorld).1.metrics "failed" = 1 ∧
    (runJob cfgOn failFirst sampleClock sampleUuid sampleJob emptyWorld).2 = 2 ∧
    (runJob cfgOn failFirst sampleClock sampleUuid sampleJob emptyWorld).1.metrics "failed" = 1 ∧
    (runJob cfgOn failFirst sampleClock sampleUuid sampleJob emptyWorld).1.metrics "sent" = 1 ∧
    (runJob cfgOn failAlways sampleClock sampleUuid sampleJob emptyWorld).1.metrics "failed" = 3 := by
  decide

/-- C9, as the code has it: every run whose transport call fails marks the row
of that run `failed` with the error text and adds 1 to the `failed` counter,
whether or not attempts remain. After the job the counter has grown by the
number of runs whose transport call failed, which is 3 when the attempts are
exhausted by such runs. A transport call is made in the runs whose payload has
`to` and `subject`. -/
theorem runJob_failed_per_attempt (cfg : Config)
    (transport : Nat → MailOptions → Except Str Str) (clock : Nat → Nat) (uuid : Nat → Str)
    (job : Job) (w : World)
    (hinj : ∀ i j, i < maxAttempts → j < maxAttempts → uuid i = uuid j → i = j)
    (hfresh : ∀ i, i < maxAttempts → findByPk w.logs (uuid i) = none) :
    (runJob cfg transport clock uuid job w).1.logs =
      w.logs ++ (List.range (runJob cfg transport clock uuid job w).2).filterMap
        (attemptRow cfg transport clock uuid job) ∧
    (∀ i message, createAccepts job.data = true →
      transport i (mailOptionsFor cfg (uuid i) job.data) = .error message →
      attemptFails cfg transport uuid job i = true ∧
      ∃ e, attemptRow cfg transport clock uuid job i = some e ∧ e.id = uuid i ∧
        e.status = Status.failed ∧ e.error = some message) ∧
    (runJob cfg transport clock uuid job w).1.metrics "failed" =
      w.metrics "failed" +
        ((List.range (runJob cfg transport clock uuid job w).2).countP
          (attemptFails cfg transport uuid job) : Nat) ∧
    ((∀ i, i < maxAttempts → attemptFails cfg transport uuid job i = true) →
      (runJob cfg transport clock uuid job w).2 = maxAttempts ∧
      (runJob cfg transport clock uuid job w).1.metrics "failed" =
        w.metrics "failed" + 3) := by
  obtain ⟨-, -, h3, h4, h5⟩ := runJob_spec cfg transport clock uuid job w hinj hfresh
  refine ⟨h3, ?_, h4, ?_⟩
  · intro i message hacc hm
    refine ⟨by simp [attemptFails, hacc, hm], ?_⟩
    simp only [createAccepts, Bool.and_eq_true, Option.isSome_iff_exists] at hacc
    obtain ⟨⟨recipient, hr⟩, ⟨subject, hs⟩⟩ := hacc
    simp only [attemptRow, hr, hs, hm]
    exact ⟨_, rfl, rfl, rfl, rfl⟩
  · intro hall
    have h6 := h5 (fun i hi => by simp [attemptThrows, hall i hi])
    refine ⟨h6, ?_⟩
    rw [h4, h6]
    have h7 : (List.range maxAttempts).countP (attemptFails cfg transport uuid job) =
        (List.range maxAttempts).length :=
      List.countP_eq_length.2 (fun i hi => hall i (List.mem_range.1 hi))
    rw [h7]; rfl

/-- C9, as the code has it, at the job whose three transport calls are refused. -/
theorem runJob_failed_per_attempt_witness :
    (runJob cfgOn failAlways sampleClock sampleUuid sampleJob emptyWorld).2 = maxAttempts ∧
    (runJob cfgOn failAlways sampleClock sampleUuid sampleJob emptyWorld).1.metrics "failed" =
      emptyWorld.metrics "failed" + 3 :=
  (runJob_failed_per_attempt cfgOn failAlways sampleClock sampleUuid sampleJob emptyWorld
    sampleUuid_injective (fun _ _ => rfl)).2.2.2 (fun _ _ => rfl)

set_option maxRecDepth 1000000 in
/-- C10 fails in its remark on the tracking image: for `unclosedLink` under the
default configuration the transport call succeeds and the row ends `sent`, but
the click-tracking rewrite, which runs after the image was added, takes the
opening of the image tag for the end of the URL; the html handed to the
transport does not hold the tracking image. -/
theorem processJob_image_overwritten :
    (processJob cfgOn acceptAll 1000 sampleId unclosedLinkJob emptyWorld).2 =
      .ok "<m1@x.com>".toList ∧
    (processJob cfgOn acceptAll 1000 sampleId unclosedLinkJob emptyWorld).1.outbox.map
      (fun m => m.html) = [some (addTrackingToEmail cfgOn unclosedLink sampleId)] ∧
    addTrackingToEmail cfgOn unclosedLink sampleId =
      "<p>see ".toList ++
        trackedAnchor cfgOn sampleId (Char.ofNat 34) "http://x.com<img src=".toList ++
        cfgOn.serverUrl ++ "/api/email/tracking/open/".toList ++ sampleId ++
        "\" width=\"1\" height=\"1\" alt=\"\" style=\"display:none;\">".toList ∧
    includes (trackingPixel cfgOn sampleId) (addTrackingToEmail cfgOn unclosedLink sampleId)
      = false := by
  refine ⟨rfl, ?_, ?_, ?_⟩ <;> decide

/-- C10, as the code has it: a run of the handler whose transport call
succeeds, for a payload with `to`, `subject` and non-empty html and a fresh
tracking id. The mail handed to the transport carries
`addTrackingToEmail(html, id)` and the header `X-Tracking-ID` equal to the id;
the row of that id ends `sent` with the message id of the transport and
`sentAt` set; the `sent` counter grows by 1 and the `failed` counter not at
all. The html handed over holds the tracking image of that id, the tag
`<img src="` server URL `/api/email/tracking/open/` id
`" width="1" height="1" alt="" style="display:none;">`, when click tracking is
off, and also when it is on and the text before the place of the image (before
the first `</body>`, or all of the html) holds no `href="http`, in any letter
case, that is not followed there by a quote character (server URL without `$`,
`<` and quote characters, the id a UUID). -/
theorem processJob_success (cfg : Config) (transport : MailOptions → Except Str Str)
    (now : Nat) (id : Str) (job : Job) (w : World) (recipient subject html messageId : Str)
    (hfresh : findByPk w.logs id = none)
    (hto : job.data.recipient = some recipient) (hsubject : job.data.subject = some subject)
    (hhtml : job.data.html = some html)
    (hne : html ≠ []) (hok : transport (mailOptionsFor cfg id job.data) = .ok messageId) :
    (processJob cfg transport now id job w).2 = .ok messageId ∧
    (processJob cfg transport now id job w).1.outbox =
      w.outbox ++ [mailOptionsFor cfg id job.data] ∧
    (mailOptionsFor cfg id job.data).html = some (addTrackingToEmail cfg html id) ∧
    (mailOptionsFor cfg id job.data).xTrackingId = id ∧
    (∃ e, (processJob cfg transport now id job w).1.logs = w.logs ++ [e] ∧
      findByPk (processJob cfg transport now id job w).1.logs id = some e ∧
      e.id = id ∧ e.jobId = job.id ∧ e.recipient = recipient ∧ e.subject = subject ∧
      e.status = Status.sent ∧ e.messageId = some messageId ∧ e.sentAt = some now) ∧
    (processJob cfg transport now id job w).1.metrics "sent" = w.metrics "sent" + 1 ∧
    (processJob cfg transport now id job w).1.metrics "failed" = w.metrics "failed" ∧
    ((∀ c ∈ cfg.serverUrl, c ≠ '$' ∧ c ≠ '<' ∧ isQuote c = false) → isUuid id = true →
      (cfg.trackClicks = false ∨ anyTail openUrlAt (beforeBodyClose html) = false) →
      ∃ a b, addTrackingToEmail cfg html id =
        a ++
          ("<img src=\"".toList ++ cfg.serverUrl ++ "/api/email/tracking/open/".toList ++ id ++
            "\" width=\"1\" height=\"1\" alt=\"\" style=\"display:none;\">".toList) ++
          b) := by
  have hne1 : html.isEmpty = false := by
    cases html with
    | nil => exact absurd rfl hne
    | cons _ _ => rfl
  have hrow := updateLog_fresh w.logs
    { id := id, recipient := recipient, subject := subject,
      status := Status.sending, jobId := job.id, metadata := job.data.metadata.getD [],
      messageId := none, sentAt := none, error := none }
    (fun e => { e with status := Status.sent, messageId := some messageId, sentAt := some now })
    hfresh
  simp only [processJob, hto, hsubject, hfresh, Option.isSome_none, Bool.false_eq_true,
    if_false, hok]
  refine ⟨trivial, trivial, by simp [mailOptionsFor, hhtml, hne1], rfl, ?_, by simp [hincrby],
    by simp [hincrby], ?_⟩
  · refine ⟨_, hrow, ?_, rfl, rfl, rfl, rfl, rfl, rfl, rfl⟩
    rw [hrow, findByPk, List.find?_append]
    have : List.find? (fun e => decide (e.id = id)) w.logs = none := hfresh
    rw [this]
    simp
  · intro hurl hid hcase
    exact addTrackingToEmail_keeps_image cfg html id hne hurl hid hcase

set_option maxRecDepth 1000000 in
/-- C10, as the code has it, under the default configuration: at the example
of the specification, `<p>hi</p>` to `a@x.com`, and at html with an ordinary
link, where the image stands behind the rewritten link. -/
theorem processJob_success_witness :
    (processJob cfgOn acceptAll 1000 sampleId sampleJob emptyWorld).1.metrics "sent" =
      emptyWorld.metrics "sent" + 1 ∧
    (mailOptionsFor cfgOn sampleId sampleJob.data).html =
      some ("<p>hi</p><img src=\"http://localhost:3000/api/email/tracking/open/" ++
        "123e4567-e89b-42d3-a456-426614174000\" width=\"1\" height=\"1\" alt=\"\" " ++
        "style=\"display:none;\">").toList ∧
    anyTail openUrlAt (beforeBodyClose linkHtml) = false ∧
    (∃ a b, addTrackingToEmail cfgOn linkHtml sampleId =
      a ++
        ("<img src=\"".toList ++ cfgOn.serverUrl ++ "/api/email/tracking/open/".toList ++
          sampleId ++ "\" width=\"1\" height=\"1\" alt=\"\" style=\"display:none;\">".toList) ++
        b) ∧
    (mailOptionsFor cfgOn sampleId linkJob.data).html =
      some ("<p><a href=\"http://localhost:3000/api/email/tracking/click/" ++
        "123e4567-e89b-42d3-a456-426614174000?url=http%3A%2F%2Fx.com\">x</a></p>" ++
        "<img src=\"http://localhost:3000/api/email/tracking/open/" ++
        "123e4567-e89b-42d3-a456-426614174000\" width=\"1\" height=\"1\" alt=\"\" " ++
        "style=\"display:none;\">").toList :=
  have h := processJob_success cfgOn acceptAll 1000 sampleId sampleJob emptyWorld
    "a@x.com".toList "Hi".toList "<p>hi</p>".toList "<m1@x.com>".toList rfl rfl rfl rfl
    (by decide) rfl
  have hl := processJob_success cfgOn acceptAll 1000 sampleId linkJob emptyWorld
    "a@x.com".toList "Hi".toList linkHtml "<m1@x.com>".toList rfl rfl rfl rfl
    (by decide) rfl
  ⟨h.2.2.2.2.2.1, h.2.2.1.trans (by decide), by decide,
    hl.2.2.2.2.2.2.2 (by decide) (by decide) (Or.inr (by decide)),
    hl.2.2.1.trans (by decide)⟩

/-- C11: bulk admission is all-or-nothing. For every bulk submission behind
`POST /bulk`: when some item has no recipient, or a template id (its own, else
the batch-level one) that does not resolve to a template, the submission fails
as a whole (status 400 or 500 with the error body) and the queue is left as it
was; and whenever the queue has changed, every item had a recipient and went
through the template lookup and the rendering, the jobs being added in one
call behind the loop over the items. -/
theorem sendBulkEmails_all_or_nothing (rend : Renderer) (store : Str → Option Template)
    (now : Nat) (req : Request) (emails : List EmailData) (templateId : Option Str)
    (q : Queue) :
    (emails.any (inadmissible store templateId) = true →
      (emailController.sendBulkEmails rend store now req (some emails) templateId q).1 = q ∧
      ∃ message,
        (emailController.sendBulkEmails rend store now req (some emails) templateId q).2 =
            .json 400 (.failure message) ∨
          (emailController.sendBulkEmails rend store now req (some emails) templateId q).2 =
            .json 500 (.failure message)) ∧
    ((emailController.sendBulkEmails rend store now req (some emails) templateId q).1 ≠ q →
      emails.all (validatedAndRendered rend store req templateId) = true) := by
  rcases sendBulkEmails_cases rend store now req emails templateId q with h | h
  · exact ⟨fun _ => h, fun hne => absurd h.1 hne⟩
  · obtain ⟨hall, _⟩ := h
    refine ⟨fun hany => ?_, fun _ => hall⟩
    obtain ⟨e, he, hbad⟩ := List.any_eq_true.mp hany
    have h1 := List.all_eq_true.mp hall e he
    rw [inadmissible_not_rendered rend store req templateId e hbad] at h1
    cases h1

/-- C11 at the example of the specification: a batch of three emails, the
second one without recipient, leaves the queue empty. -/
theorem sendBulkEmails_all_or_nothing_witness :
    batchWithGap.any (inadmissible sampleStore none) = true ∧
    (emailController.sendBulkEmails (renderLoop keepTemplate) sampleStore 1700000000000
      sampleRequest (some batchWithGap) none emptyQueue).1 = emptyQueue :=
  ⟨by decide,
    ((sendBulkEmails_all_or_nothing (renderLoop keepTemplate) sampleStore 1700000000000
      sampleRequest batchWithGap none emptyQueue).1 (by decide)).1⟩

/-- C12, where the code departs from it: a submission with a recipient that
names a template of the store, a template created without `text`, and gives
data for it passes the validation, and yet is answered with 500 and leaves the
queue empty, because the rendering loop calls `replace` on the null text. The
same submission without `templateData` is enqueued once and answered with 202
and job id 1. The key of the data is the plain name `name`, so this holds
whatever the loop does for keys outside the covered pattern syntax. -/
theorem sendEmail_html_only_template_fails (beyond : Renderer) :
    lacksRequired htmlOnlySubmission = false ∧
    sampleStore htmlOnlyId = some htmlOnlyTemplate ∧
    emailController.sendEmail (renderLoop beyond) sampleStore sampleRequest htmlOnlySubmission
        emptyQueue =
      (emptyQueue,
        .json 500 (.failure "Cannot read properties of null (reading \x27replace\x27)".toList)) ∧
    (emailController.sendEmail (renderLoop beyond) sampleStore sampleRequest
        { htmlOnlySubmission with templateData := none } emptyQueue).2 =
      .json 202 (.queued 1) :=
  ⟨by decide, by decide, rfl, rfl⟩

/-- C13, where the code departs from it: a bulk submission whose only item
has a recipient and nothing else (no subject, no text, no html, no template id
of its own or of the batch) is answered with 202 and count 1, and the item is
on the queue; the single-email endpoint rejects the same payload with 400.
No template is involved, so this holds for every rendering loop. -/
theorem sendBulkEmails_accepts_bare_item (beyond : Renderer) :
    emailController.sendBulkEmails (renderLoop beyond) sampleStore 1700000000000 sampleRequest
        (some [bareEmail "ann@example.com".toList]) none emptyQueue =
      ({ jobs :=
          [{ id := 1, name := "send-email".toList,
             data :=
               { bareEmail "ann@example.com".toList with
                 metadata := some
                   [("userId".toList, .str "api-user".toList),
                    ("ip".toList, .str "203.0.113.7".toList),
                    ("batchId".toList, .str "batch-1700000000000".toList)] } }],
         nextId := 2 },
        .json 202 (.bulkQueued 1 "batch-1700000000000".toList)) ∧
    emailController.sendEmail (renderLoop beyond) sampleStore sampleRequest
        (bareEmail "ann@example.com".toList) emptyQueue =
      (emptyQueue, .json 400 (.failure "Subject is required".toList)) :=
  ⟨rfl, rfl⟩

/-- C14: for every bulk submission whose items all go through the template
branch, `emailService.sendBulkEmails` adds exactly one job per email behind
the jobs of the queue, in input order (the payloads, recipients and ids follow
the emails one by one), and returns the count `n` and one batch id; the
metadata of every job is the metadata of its email with the key `batchId` set
to that batch id: reading `batchId` gives the batch id, whatever the email
held there, and reading any other key gives what the email held. -/
theorem sendBulkEmails_batch (rend : Renderer) (store : Str → Option Template) (now : Nat)
    (emails : List EmailData) (q : Queue) (h : emails.all (admitted rend store) = true) :
    ∃ newJobs : List QueuedJob,
      emailService.sendBulkEmails rend store now emails q =
        ({ jobs := q.jobs ++ newJobs, nextId := q.nextId + emails.length },
          .ok { count := emails.length, batchId := batchIdAt now }) ∧
      newJobs.length = emails.length ∧
      newJobs.map (fun j => some j.data) =
        emails.map (stampedPayload rend store (batchIdAt now)) ∧
      newJobs.map (fun j => j.data.metadata) =
        emails.map (fun e =>
          some (setKey (e.metadata.getD []) "batchId".toList (.str (batchIdAt now)))) ∧
      newJobs.map (fun j => j.data.recipient) = emails.map (fun e => e.recipient) ∧
      newJobs.map (fun j => j.id) = (List.range emails.length).map (fun i => q.nextId + i) ∧
      newJobs.map (fun j => j.name) = emails.map (fun _ => "send-email".toList) ∧
      ∀ (obj : List (Str × JsValue)) (key : Str),
        getKey (setKey obj "batchId".toList (.str (batchIdAt now))) "batchId".toList =
            some (.str (batchIdAt now)) ∧
          (key ≠ "batchId".toList →
            getKey (setKey obj "batchId".toList (.str (batchIdAt now))) key = getKey obj key) := by
  obtain ⟨jobs, hb⟩ := bulkJobs_of_admitted rend store (batchIdAt now) emails h
  have hj := bulkJobs_ok rend store (batchIdAt now) emails jobs hb
  have hn := numbered_data jobs q.nextId
  have hlen : jobs.length = emails.length := by
    have := congrArg List.length hj.2.1
    simpa using this
  refine ⟨numbered q.nextId jobs, ?_, ?_, ?_, ?_, ?_, ?_, ?_, ?_⟩
  · simp only [emailService.sendBulkEmails, hb, queueAddBulk_eq, hlen]
  · rw [hn.2.2.2, hlen]
  · rw [numbered_map (fun d => some d), hj.1]
  · rw [numbered_map (fun d => d.metadata), hj.2.2.2.1]
  · rw [numbered_map (fun d => d.recipient), hj.2.2.2.2]
  · rw [hn.2.2.1, hlen]
  · rw [hn.2.1, hj.2.1]
  · intro obj key
    exact ⟨getKey_setKey_same obj _ _, fun hne => getKey_setKey_other obj _ key _ hne⟩

/-- C14 on a batch of two emails, the first with a batch id of the caller in
its metadata and the second rendered from a template: two jobs, one batch id. -/
theorem sendBulkEmails_batch_witness :
    sampleBatch.all (admitted (renderLoop keepTemplate) sampleStore) = true ∧
    ∃ newJobs : List QueuedJob,
      emailService.sendBulkEmails (renderLoop keepTemplate) sampleStore 1700000000000 sampleBatch
          emptyQueue =
        ({ jobs := emptyQueue.jobs ++ newJobs, nextId := emptyQueue.nextId + sampleBatch.length },
          .ok { count := sampleBatch.length, batchId := batchIdAt 1700000000000 }) ∧
      newJobs.length = sampleBatch.length :=
  have h := sendBulkEmails_batch (renderLoop keepTemplate) sampleStore 1700000000000
    sampleBatch emptyQueue (by decide)
  ⟨by decide, h.imp fun _ hj => ⟨hj.1, hj.2.1⟩⟩

/-- C15: for every known tracking id, a call of `handleOpen` that completes
without error leaves the entry with its open counter increased by exactly 1
and `openedAt` set to the instant of the call, and the counter `opened`
increased by exactly 1; after calls made one after the other, all completed
without error, the open counter is its initial value plus the number of calls
(and so is the counter `opened`). For an unknown tracking id, the lookup
answering, `handleOpen` completes without error and leaves all stores as they
were. -/
theorem handleOpen_counts (geoip : Str → Option Geo) (trackingId : Str) (w : TrackingWorld) :
    (∀ (faults : Faults) (now : Nat) (req : Visit) (e : TrackedLog),
      findLog w.logs trackingId = some e →
      (emailService.handleOpen geoip faults now trackingId req w).2 = .ok () →
      ∃ e2, findLog (emailService.handleOpen geoip faults now trackingId req w).1.logs
            trackingId = some e2 ∧
        e2.openCount = e.openCount + 1 ∧ e2.openedAt = some now ∧
        (emailService.handleOpen geoip faults now trackingId req w).1.metrics "opened" =
          w.metrics "opened" + 1) ∧
    (∀ (calls : List (Faults × Nat × Visit)) (e : TrackedLog),
      findLog w.logs trackingId = some e →
      (handleOpenSeq geoip trackingId calls w).2 = true →
      ∃ e2, findLog (handleOpenSeq geoip trackingId calls w).1.logs trackingId = some e2 ∧
        e2.openCount = e.openCount + calls.length ∧
        (handleOpenSeq geoip trackingId calls w).1.metrics "opened" =
          w.metrics "opened" + calls.length) ∧
    (∀ (faults : Faults) (now : Nat) (req : Visit),
      findLog w.logs trackingId = none → faults.lookup = false →
      emailService.handleOpen geoip faults now trackingId req w = (w, .ok ())) := by
  refine ⟨?_, ?_, ?_⟩
  · intro faults now req e h hok
    rw [handleOpen_known geoip faults now trackingId req w e h hok]
    have hfind := findLog_updateTracked
      (fun x : TrackedLog =>
        { x with
          openCount := e.openCount + 1
          openedAt := some now
          ipAddress := some req.ip
          country := geoOr (geoip req.ip) Geo.country (some "Unknown".toList)
          region := geoOr (geoip req.ip) Geo.region (some "Unknown".toList)
          city := geoOr (geoip req.ip) Geo.city (some "Unknown".toList) })
      trackingId (fun _ => rfl) w.logs e h
    exact ⟨_, hfind, rfl, rfl, by simp [hincrby]⟩
  · intro calls e h hall
    exact handleOpenSeq_counts geoip trackingId calls w e h hall
  · intro faults now req h hl
    exact handleOpen_unknown geoip faults now trackingId req w h hl

/-- C15 on an entry that was never opened: after three opens its counter is 3. -/
theorem handleOpen_counts_witness :
    findLog sampleTracking.logs sampleId = some sampleEntry ∧
    (handleOpenSeq sampleGeo sampleId threeOpens sampleTracking).2 = true ∧
    ∃ e2, findLog (handleOpenSeq sampleGeo sampleId threeOpens sampleTracking).1.logs
          sampleId = some e2 ∧
      e2.openCount = sampleEntry.openCount + threeOpens.length :=
  ⟨by decide, by decide,
    ((handleOpen_counts sampleGeo sampleId sampleTracking).2.1 threeOpens sampleEntry
      (by decide) (by decide)).imp fun _ h => ⟨h.1, h.2.1⟩⟩

/-- C16: the open route answers every request with status 200, content type
`image/png` and the same bytes, whatever the tracking id and whichever call
inside `handleOpen` fails: the call is not awaited, so its error rejects a
promise that the route drops, and the 500 branch of the route is not taken.
The bytes are those of the base64 literal of the route: a PNG file (its
signature) of width 1 and height 1. -/
theorem openRoute_always_pixel (geoip : Str → Option Geo) (faults : Faults) (now : Nat)
    (trackingId : Str) (req : Visit) (w : TrackingWorld) :
    (openRoute geoip faults now trackingId req w).2 =
      .bytes 200 "image/png".toList pixelBytes ∧
    (openRoute geoip faults now trackingId req w).2 ≠
      .text 500 "Error tracking email open".toList ∧
    (openRoute geoip faults now trackingId req w).1 =
      (emailService.handleOpen geoip faults now trackingId req w).1 ∧
    pixelBytes.take 8 = [137, 80, 78, 71, 13, 10, 26, 10] ∧
    (pixelBytes.drop 16).take 8 = [0, 0, 0, 1, 0, 0, 0, 1] := by
  refine ⟨rfl, ?_, rfl, by decide, by decide⟩
  intro h
  cases h

/-- C17: for every request whose `url` is present and decodes, `handleClick`
ends with the redirect (302) to the decoded url, whatever the tracking id and
whichever of the lookup, the resolution, the update and the counter increments
fails; when the tracking id is unknown, the stores are left as they were and
the lookup is the only call made on them. -/
theorem handleClick_redirects (geoip : Str → Option Geo) (faults : Faults) (now : Nat)
    (trackingId : Str) (url decodedUrl : Str) (req : Visit) (w : TrackingWorld)
    (hne : url ≠ []) (hdec : decodeURIComponent url = some decodedUrl) :
    (emailService.handleClick geoip faults now trackingId (some url) req w).ending =
      .responded (.redirect 302 decodedUrl) ∧
    (findLog w.logs trackingId = none →
      (emailService.handleClick geoip faults now trackingId (some url) req w).world = w ∧
      (emailService.handleClick geoip faults now trackingId (some url) req w).trace =
        [.lookup trackingId]) := by
  refine ⟨?_, handleClick_unknown geoip faults now trackingId url decodedUrl req w hne hdec⟩
  have hp : present (some url) = true := by
    cases url with
    | nil => exact absurd rfl hne
    | cons _ _ => rfl
  have h := clickTry_decodable geoip faults now trackingId url decodedUrl req w hne hdec
  cases hct : clickTry geoip faults now trackingId (some url) req w with
  | mk w1 rest =>
    cases rest with
    | mk trace r =>
      rw [hct] at h
      rcases h with h | ⟨message, h⟩
      · simp only at h
        subst h
        simp only [emailService.handleClick, hct]
      · simp only at h
        subst h
        simp only [emailService.handleClick, hct, hp, if_true, Option.getD_some, hdec]

/-- C17 where every call on the stores fails: the click on a link to
`https://a.example/one` is still redirected there. -/
theorem handleClick_redirects_witness :
    firstUrl ≠ [] ∧
    decodeURIComponent firstUrl = some "https://a.example/one".toList ∧
    (emailService.handleClick sampleGeo allFaults 1000 sampleId (some firstUrl) sampleVisit
      sampleTracking).ending = .responded (.redirect 302 "https://a.example/one".toList) :=
  ⟨by decide, by decide,
    (handleClick_redirects sampleGeo allFaults 1000 sampleId firstUrl
      "https://a.example/one".toList sampleVisit sampleTracking (by decide) (by decide)).1⟩

/-- C18: for every request whose `url` is absent or empty, `handleClick`
answers 400 (`Missing URL parameter`), makes no call on the stores (no lookup,
no update, no increment) and leaves them as they were, for known and unknown
tracking ids and whatever would fail. -/
theorem handleClick_missing_url (geoip : Str → Option Geo) (faults : Faults) (now : Nat)
    (trackingId : Str) (url : Option Str) (req : Visit) (w : TrackingWorld)
    (h : present url = false) :
    (emailService.handleClick geoip faults now trackingId url req w).ending =
      .responded (.text 400 "Missing URL parameter".toList) ∧
    (emailService.handleClick geoip faults now trackingId url req w).trace = [] ∧
    (emailService.handleClick geoip faults now trackingId url req w).world = w := by
  simp [emailService.handleClick, clickTry, h]

/-- C18 for the known id of `sampleTracking` and an empty `url`. -/
theorem handleClick_missing_url_witness :
    present (some []) = false ∧
    (emailService.handleClick sampleGeo noFaults 1000 sampleId (some []) sampleVisit
      sampleTracking).ending = .responded (.text 400 "Missing URL parameter".toList) ∧
    (emailService.handleClick sampleGeo noFaults 1000 sampleId (some []) sampleVisit
      sampleTracking).trace = [] :=
  have h := handleClick_missing_url sampleGeo noFaults 1000 sampleId (some []) sampleVisit
    sampleTracking (by decide)
  ⟨by decide, h.1, h.2.1⟩

/-- C19, where the code departs from it: a query value with a bare percent
sign does not decode; `handleClick` then ends with the error thrown out of
its `catch` block, which decodes the value a second time, and sends no
response, neither a redirect nor a 400, for a known and for an unknown
tracking id. -/
theorem handleClick_malformed_url_uncaught :
    present (some malformedUrl) = true ∧
    decodeURIComponent malformedUrl = none ∧
    (emailService.handleClick sampleGeo noFaults 1000 sampleId (some malformedUrl) sampleVisit
      sampleTracking).ending = .uncaught "URI malformed".toList ∧
    (emailService.handleClick sampleGeo noFaults 1000 unknownId (some malformedUrl) sampleVisit
      sampleTracking).ending = .uncaught "URI malformed".toList := by
  decide

/-- C20, where the code departs from it: two clicks on the links of one
entry, the first at instant 1000 on `https://a.example/one`, the second at
instant 2000 on `https://a.example/two`. Both are redirected and the status is
`clicked`, but after the second click the entry holds the record of the second
click alone: `metadata.clickDetails` is one record and is written anew, and
`clickUrls` is still empty and `clickCount` still 0. -/
theorem handleClick_second_click_overwrites :
    findLog (emailService.handleClick sampleGeo noFaults 1000 sampleId (some firstUrl)
        sampleVisit sampleTracking).world.logs sampleId =
      some (clickedEntry 1000 "https://a.example/one".toList) ∧
    findLog (emailService.handleClick sampleGeo noFaults 2000 sampleId (some secondUrl)
        sampleVisit
        (emailService.handleClick sampleGeo noFaults 1000 sampleId (some firstUrl) sampleVisit
          sampleTracking).world).world.logs sampleId =
      some (clickedEntry 2000 "https://a.example/two".toList) ∧
    (emailService.handleClick sampleGeo noFaults 2000 sampleId (some secondUrl) sampleVisit
        (emailService.handleClick sampleGeo noFaults 1000 sampleId (some firstUrl) sampleVisit
          sampleTracking).world).ending =
      .responded (.redirect 302 "https://a.example/two".toList) ∧
    (clickedEntry 2000 "https://a.example/two".toList).clickUrls = [] ∧
    (clickedEntry 2000 "https://a.example/two".toList).clickCount = 0 := by
  decide

/-- C21, where the code departs from it: two calls of `handleOpen` for the
entry of `sampleTracking` (open counter 0), both reading the row before either
writes it, both run to their end: the open counter is 1, not 2, while the
counter `opened` of the hash is 2; run one after the other the same calls give
2. With three calls the counter of the entry goes down: it is 2 when the second
and third call have run, and 1 after the first call, which read the row before
them, has written. -/
theorem handleOpen_concurrent_lost_update :
    (runSchedule sampleGeo sampleId [0, 1, 0, 1, 0, 1] twoCalls sampleTracking).1.map
        (fun call => call.stage) = [OpenStage.done, OpenStage.done] ∧
    (findLog (runSchedule sampleGeo sampleId [0, 1, 0, 1, 0, 1] twoCalls sampleTracking).2.logs
        sampleId).map (fun e => e.openCount) = some 1 ∧
    (runSchedule sampleGeo sampleId [0, 1, 0, 1, 0, 1] twoCalls sampleTracking).2.metrics
        "opened" = 2 ∧
    (findLog (runSchedule sampleGeo sampleId [0, 0, 0, 1, 1, 1] twoCalls sampleTracking).2.logs
        sampleId).map (fun e => e.openCount) = some 2 ∧
    (findLog (runSchedule sampleGeo sampleId [0, 1, 1, 1, 2, 2, 2] threeCalls
        sampleTracking).2.logs sampleId).map (fun e => e.openCount) = some 2 ∧
    (findLog (runSchedule sampleGeo sampleId [0, 1, 1, 1, 2, 2, 2, 0, 0] threeCalls
        sampleTracking).2.logs sampleId).map (fun e => e.openCount) = some 1 ∧
    (runSchedule sampleGeo sampleId [0, 1, 1, 1, 2, 2, 2, 0, 0] threeCalls sampleTracking).1.map
        (fun call => call.stage) = [OpenStage.done, OpenStage.done, OpenStage.done] := by
  decide

/-- C22, where the code departs from it: for a log of three entries, all of
them sent, the rate computation of the service divides `statusCounts.bounced`,
which is `undefined`, by 3 and gets `NaN` as the bounce rate; the function
`emailService.getEmailStats` itself throws before it gets there. The
controller counts the bounced entries to 0 and gets the rate 0. -/
theorem getEmailStats_bounce_rate_nan :
    (formatStats sentRows 3 none).bounceRate = JsNumber.nan ∧
    emailService.getEmailStats = .error "Sequelize is not defined".toList ∧
    (emailController.getEmailStats sentRows 3 0 0).bounceStats.rate = JsNumber.finite 0 := by
  refine ⟨by decide, rfl, ?_⟩
  simp [emailController.getEmailStats, rateOf, JsNumber.div, JsNumber.mul]

/-- C23, where the code departs from it: the object `emailService` has no
property `getQueueStatus`, so the module exports `undefined` under that name,
and for every state of the queue and of the counters `GET /queue/status` is
answered with status 500 and the message of the `TypeError`. The function that
would make the snapshot stands in the module as a statement of its own and
gives the counters as claimed, 0 for a missing counter. -/
theorem getQueueStatus_not_exported (counts : JobCounts)
    (metrics : Option (String → Option Int)) :
    exportedGetQueueStatus.isNone = true ∧
    emailController.getQueueStatus counts metrics =
      .failed (.json 500 (.failure "emailService.getQueueStatus is not a function".toList)) ∧
    queueStatusFunction counts none =
      { queue := counts,
        metrics := { sent := 0, delivered := 0, opened := 0, clicked := 0, failed := 0 } } := by
  refine ⟨rfl, rfl, rfl⟩

set_option maxRecDepth 1000000 in
/-- C24, where the code departs from it: the link to
`http://a.example/a%20b` is rewritten to the click link with the value
`http%3A%2F%2Fa.example%2Fa%2520b`; the query parser decodes the value to the
original URL, `handleClick` decodes it once more and hands
`http://a.example/a b`, which is another text, to `res.redirect`. Likewise for
`http://a.example/?q=a%26b` it hands over `http://a.example/?q=a&b`, a URL in
which the value of `q` ends before the `&`. For an original URL with a bare
percent sign the second decoding throws and the request gets no redirect. -/
theorem clickRequest_decodes_twice :
    addTrackingToEmail cfgOn escapedLink sampleId =
      trackedAnchor cfgOn sampleId (Char.ofNat 34) escapedUrl ++ ">x</a>".toList ++
        trackingPixel cfgOn sampleId ∧
    encodeURIComponent escapedUrl = "http%3A%2F%2Fa.example%2Fa%2520b".toList ∧
    queryDecode (encodeURIComponent escapedUrl) = escapedUrl ∧
    (clickRequest sampleGeo noFaults 1000 sampleId (encodeURIComponent escapedUrl) sampleVisit
      sampleTracking).ending = .responded (.redirect 302 "http://a.example/a b".toList) ∧
    "http://a.example/a b".toList ≠ escapedUrl ∧
    queryDecode (encodeURIComponent malformedUrl) = malformedUrl ∧
    (clickRequest sampleGeo noFaults 1000 sampleId (encodeURIComponent malformedUrl) sampleVisit
      sampleTracking).ending = .uncaught "URI malformed".toList ∧
    queryDecode (encodeURIComponent ampersandUrl) = ampersandUrl ∧
    (clickRequest sampleGeo noFaults 1000 sampleId (encodeURIComponent ampersandUrl) sampleVisit
      sampleTracking).ending = .responded (.redirect 302 "http://a.example/?q=a&b".toList) := by
  decide

set_option maxRecDepth 1000000 in
/-- C25 fails: both tags have the form of the claim, attributes and white
space before an `href` with a quoted URL that begins with `http` and holds no
quote. The `title` of `gtTitleLink` holds a `>`, which the pattern does not
pass, and the URL of `bareHttpLink` has nothing behind `http`; neither tag is
rewritten, the attributes stay, and the output is the input followed by the
tracking image. -/
theorem addTrackingToEmail_attributes_kept :
    gtTitleLink =
      attrsFirstAnchor " ".toList "title=\"a>b\"".toList " ".toList (Char.ofNat 34)
        "http://x.com".toList [] ++ "x</a>".toList ∧
    addTrackingToEmail cfgOn gtTitleLink sampleId = gtTitleLink ++ trackingPixel cfgOn sampleId ∧
    bareHttpLink =
      attrsFirstAnchor " ".toList "class=\"x\"".toList " ".toList (Char.ofNat 34)
        "http".toList [] ++ "x</a>".toList ∧
    addTrackingToEmail cfgOn bareHttpLink sampleId =
      bareHttpLink ++ trackingPixel cfgOn sampleId := by
  decide

/-- C25, as the code has it: with click tracking on, an anchor tag `<a`,
white space, attributes, white space, `href=`, a quoted URL, further
attributes and `>` is rewritten to `<a href=` and, in the quotes of the
original, the server URL, `/api/email/tracking/click/`, the tracking id,
`?url=` and the percent-encoded original URL, followed by the further
attributes and `>`: the attributes before `href` and the white space around
them are gone, what stands behind the URL stays. Required: the server URL holds
no `$` and the id is a UUID; the attributes before `href` hold no `>` and no
`href=`, quote, `http`; the URL begins with `http`, goes on with at least one
character and holds no quote character; behind the URL the tag holds no `<` and
no further `href=`, quote, `http`; the text before the tag holds no `<a` and,
with the tag, no `</body>`. The rest of the document is treated likewise. -/
theorem addTrackingToEmail_attrsFirst (cfg : Config) (id pre ws1 attrs ws2 : Str) (q c : Char)
    (u rest post : Str) (hon : cfg.trackClicks = true)
    (hurl : ∀ x ∈ cfg.serverUrl, x ≠ '$') (hid : isUuid id = true)
    (hpre : hasAnchorOpen pre = false)
    (hne1 : ws1 ≠ []) (hws1 : ws1.all isJsSpace = true)
    (hne2 : ws2 ≠ []) (hws2 : ws2.all isJsSpace = true)
    (hgt : attrs.all (fun x => x != '>') = true)
    (hattrs : anyTail hrefHttpAt attrs = false)
    (hq : isQuote q = true) (hu : (c :: u).any isQuote = false)
    (hhref : anyTail hrefHttpAt (("http".toList ++ c :: u) ++ q :: rest) = false)
    (hrest : rest.all (fun x => x != '<') = true)
    (hbody : includes bodyClose
      (pre ++ attrsFirstAnchor ws1 attrs ws2 q ("http".toList ++ c :: u) rest) = false) :
    addTrackingToEmail cfg
        (pre ++ attrsFirstAnchor ws1 attrs ws2 q ("http".toList ++ c :: u) rest ++ post) id =
      pre ++
        ("<a href=".toList ++ q :: cfg.serverUrl ++ "/api/email/tracking/click/".toList ++ id ++
          "?url=".toList ++ encodeURIComponent ("http".toList ++ c :: u) ++ [q]) ++
        rest ++ '>' :: rewriteLinks cfg id (withPixel cfg post id) := by
  -- the tag ends in `>`
  obtain ⟨a1, ha1⟩ : ∃ a1,
      attrsFirstAnchor ws1 attrs ws2 q ("http".toList ++ c :: u) rest = a1 ++ ['>'] :=
    ⟨_, rfl⟩
  have hlen : rest.length + 2 ≤
      (attrsFirstAnchor ws1 attrs ws2 q ("http".toList ++ c :: u) rest).length := by
    simp [attrsFirstAnchor]; omega
  have hne0 : (pre ++ attrsFirstAnchor ws1 attrs ws2 q ("http".toList ++ c :: u) rest ++
      post).isEmpty = false := by
    simp [attrsFirstAnchor]
  have hwp : withPixel cfg
      (pre ++ attrsFirstAnchor ws1 attrs ws2 q ("http".toList ++ c :: u) rest ++ post) id =
      pre ++ (attrsFirstAnchor ws1 attrs ws2 q ("http".toList ++ c :: u) rest ++
        withPixel cfg post id) := by
    have := withPixel_append cfg (pre ++ a1) post id hurl
      (fun x hx => (isUuid_ne hid hx).1) (by rw [List.append_assoc, ← ha1]; exact hbody)
    rw [List.append_assoc pre a1, ← ha1] at this
    rw [this]; simp
  rw [addTrackingToEmail, hne0, hon, hwp]
  simp only [Bool.false_eq_true, if_false, if_true]
  generalize withPixel cfg post id = tail
  -- the scan passes the text before the tag
  have hcons : ∃ t, attrsFirstAnchor ws1 attrs ws2 q ("http".toList ++ c :: u) rest ++ tail =
      '<' :: t :=
    ⟨'a' :: (ws1 ++ (attrs ++ (ws2 ++ ("href=".toList ++ q :: (("http".toList ++ c :: u) ++
      q :: (rest ++ '>' :: tail)))))), by simp [attrsFirstAnchor]⟩
  obtain ⟨t, ht⟩ := hcons
  have hstart : ∀ d y1,
      attrsFirstAnchor ws1 attrs ws2 q ("http".toList ++ c :: u) rest ++ tail = d :: y1 →
      ciEq 'a' d = false := by
    intro d y1 hd
    rw [ht] at hd
    have : d = '<' := by
      simp only [List.cons.injEq] at hd
      exact hd.1.symm
    rw [this]; decide
  have hm := matchAnchor_attrsFirst ws1 attrs ws2 q c u rest tail hne1 hws1 hne2 hws2 hgt hattrs
    hq hu hhref
  rw [rewriteLinks, rewriteFrom_skip cfg id pre _ _
    (no_anchor_of_no_open pre _ hpre hstart) (by simp; omega)]
  have hfuel : ∃ f,
      (pre ++ (attrsFirstAnchor ws1 attrs ws2 q ("http".toList ++ c :: u) rest ++ tail)).length
      + 1 - pre.length = f + 1 ∧ rest.length + 1 + tail.length < f := by
    refine ⟨(attrsFirstAnchor ws1 attrs ws2 q ("http".toList ++ c :: u) rest).length +
      tail.length, ?_, ?_⟩
    · simp only [List.length_append]; omega
    · omega
  obtain ⟨f, hf1, hf2⟩ := hfuel
  rw [hf1, ht, rewriteFrom, ← ht, hm]
  simp only
  have e1 : rest ++ '>' :: tail = (rest ++ ['>']) ++ tail := by simp
  rw [e1, rewriteFrom_skip cfg id (rest ++ ['>']) f tail
    (no_anchor_of_no_lt _ _ (by simp [hrest])) (by simp; omega)]
  rw [rewriteFrom_fuel cfg id tail.length tail _ (tail.length + 1) (Nat.le_refl _)
    (by simp; omega) (by omega)]
  simp [rewriteLinks, trackedAnchor]

set_option maxRecDepth 1000000 in
/-- C25, as the code has it, at `<p>Visit <a class="btn" target="_blank"
href="http://a.com/p?q=1" id="l">our site</a></p>` under the default
configuration: in the output `class` and `target` are gone and `id` stays; the
tracking image stands at the end. -/
theorem addTrackingToEmail_attrsFirst_witness :
    addTrackingToEmail cfgOn
        ("<p>Visit <a class=\"btn\" target=\"_blank\" href=\"http://a.com/p?q=1\" " ++
          "id=\"l\">our site</a></p>").toList sampleId =
      ("<p>Visit <a href=\"http://localhost:3000/api/email/tracking/click/" ++
        "123e4567-e89b-42d3-a456-426614174000?url=http%3A%2F%2Fa.com%2Fp%3Fq%3D1\" " ++
        "id=\"l\">our site</a></p>" ++
        "<img src=\"http://localhost:3000/api/email/tracking/open/" ++
        "123e4567-e89b-42d3-a456-426614174000\" width=\"1\" height=\"1\" alt=\"\" " ++
        "style=\"display:none;\">").toList :=
  (addTrackingToEmail_attrsFirst cfgOn sampleId "<p>Visit ".toList " ".toList
    "class=\"btn\" target=\"_blank\"".toList " ".toList (Char.ofNat 34) ':'
    "//a.com/p?q=1".toList " id=\"l\"".toList "our site</a></p>".toList rfl
    (by decide) (by decide) (by decide) (by decide) (by decide) (by decide) (by decide)
    (by decide) (by decide) (by decide) (by decide) (by decide) (by decide) (by decide)).trans
    (by decide)

end EmailSystem
